import Mathlib

/-!
# ASMu2Dmx: assembly driver for unstructured 2D spline mixed FE models

A shallow embedding of `src/src/ASM/LR/ASMu2Dmx.C`, and of the face-line overload
of `SIM3D::addConstraint` from `src/src/SIM/SIM3D.C`.

Conventions of the embedding.

* `double` values are rationals (exact arithmetic).
* The LR spline objects of the patch are held through shared pointers in the
  source, and several roles (`m_basis[j]`, `projBasis`, `refBasis`) may point
  to the same object.  The embedding keeps the objects in a heap (a list) and
  represents a pointer by its index, so that aliasing is explicit.
* Operations of the LR spline library, of the base classes and of the
  integrand / global integral collaborators are not part of the sources that
  are embedded; they enter as fields of `External`, `Geometry` and `Collab`.
* A run that would dereference a null pointer or index a vector of the patch
  out of range has undefined behaviour in the source; the embedding returns
  `none` there.  The arrays of Gauss coordinates, weights and point parameters
  come from the library with one entry per Gauss point and are read with
  `List.getD`.
* The integration runs keep a log of the calls they make, which is what the
  statements about calls and their order refer to.  Statements about the
  arguments of the integrand calls run the loops with instrumented
  collaborators (`Collab.traced`), which record these arguments and behave like
  the collaborators they wrap.
* Arrays that the driver sizes itself (the parameter arrays of the sub-segments
  of interface integration) are read with `[i]?`: reading them out of range is
  undefined.
* The colouring routine `LR::generateThreadGroups` is a field of `ThreadLib`;
  `colouring` is its model after the specification.
-/

namespace IFEM

/-! ## Data model -/

/-- Mixed formulation types, the values of `ASMmxBase::Type` that ASMu2Dmx.C tests. -/
inductive MixedType
  | FULL_CONT_RAISE_BASIS1
  | REDUCED_CONT_RAISE_BASIS1
  | FULL_CONT_RAISE_BASIS2
  | REDUCED_CONT_RAISE_BASIS2
  | DIV_COMPATIBLE
  | SUBGRID
  deriving DecidableEq

/-- Mesh line of an LR spline (`LR::Meshline`), with the members read by `copyRefinement`. -/
structure Meshline where
  multiplicity_ : Int
  span_u_line_ : Bool
  const_par_ : ℚ
  start_ : ℚ
  stop_ : ℚ

/-- Element of an LR spline (`LR::Element`): its parametric box and the ids
(`Basisfunction::getId()`) of the functions of `support()`, in support order. -/
structure Element where
  umin : ℚ
  umax : ℚ
  vmin : ℚ
  vmax : ℚ
  support : List Nat

/-- Number of functions with support on the element, `LR::Element::nBasisFunctions()`. -/
def Element.nBasisFunctions (el : Element) : Nat := el.support.length

/-- Parametric midpoint of the element, `LR::Element::midpoint()`. -/
def Element.midpoint (el : Element) : ℚ × ℚ :=
  ((el.umin + el.umax) / 2, (el.vmin + el.vmax) / 2)

/-- Locally refined spline surface (`LR::LRSplineSurface`), as far as the assembly
driver reads it.  `getElementContaining` is the library's point location query
(a negative value when no element contains the point); `attached` are the
solution coefficients temporarily appended to the control points, newest last,
each with its number of components. -/
structure LRSplineSurface where
  nBasisFunctions : Nat
  elements : List Element
  getElementContaining : ℚ × ℚ → Int
  order0 : Int
  startparam : ℚ × ℚ
  endparam : ℚ × ℚ
  meshlines : List Meshline
  attached : List (List ℚ × Nat)

/-- Number of elements, `LRSplineSurface::nElements()`. -/
def LRSplineSurface.nElements (b : LRSplineSurface) : Nat := b.elements.length

/-- Element with a given 0-based index, `getElement(i)` or `*(elementBegin()+i)`;
undefined for a negative or too large index. -/
def LRSplineSurface.getElement (b : LRSplineSurface) (i : Int) : Option Element :=
  if i < 0 then none else b.elements[i.toNat]?

/-- Element that contains a point, `elementBegin() + getElementContaining(pt)`. -/
def LRSplineSurface.elementAt (b : LRSplineSurface) (pt : ℚ × ℚ) : Option Element :=
  b.getElement (b.getElementContaining pt)

/-- Heap of spline objects; a shared pointer is an index into it. -/
abbrev Heap := List LRSplineSurface

/-- Allocation of a new object (`new LR::LRSplineSurface(...)`): the heap and the pointer. -/
def Heap.alloc (h : Heap) (b : LRSplineSurface) : Heap × Nat := (h ++ [b], h.length)

/-- In-place update of the object behind a pointer; undefined for a dangling pointer. -/
def Heap.update (h : Heap) (ptr : Nat) (f : LRSplineSurface → LRSplineSurface) : Option Heap :=
  match h[ptr]? with
  | none => none
  | some b => some (h.set ptr (f b))

/-- In-place update through a shared pointer that may be null. -/
def Heap.updatePtr (h : Heap) (ptr : Option Nat) (f : LRSplineSurface → LRSplineSurface) :
    Option Heap :=
  match ptr with
  | none => none
  | some a => h.update a f

/-- Objects behind a list of pointers, in order. -/
def Heap.derefAll (h : Heap) : List Nat → Option (List LRSplineSurface)
  | [] => some []
  | a :: as =>
    match h[a]?, Heap.derefAll h as with
    | some b, some bs => some (b :: bs)
    | _, _ => none

/-- State of a patch (`ASMu2Dmx` with the members of its bases `ASMu2D`, `ASMbase`,
`ASMmxBase` that the driver uses).  `Type_` is the static `ASMmxBase::Type`;
`gEl` and `gNod` are the static element and node counters; `threadGroups` is
`threadGroups[0]`; `shareFE` is the character flag of `ASMbase` (zero when the
patch shares nothing). -/
structure ASMu2Dmx where
  heap : Heap
  m_basis : List Nat
  projBasis : Option Nat
  refBasis : Option Nat
  lrspline : Option Nat
  geo : Option Nat
  threadBasis : Option Nat
  tensorPrjBas : Option LRSplineSurface
  geoBasis : Nat
  Type_ : MixedType
  nfx : List Nat
  nb : List Nat
  shareFE : Char
  nel : Nat
  nnod : Nat
  myMLGE : List Nat
  myMLGN : List Nat
  myMNPC : List (List Nat)
  nGauss : Nat
  firstIp : Nat
  threadGroups : List (List Nat)
  myElms : List Nat
  firstBp : List (Int × Nat)
  gEl : Nat
  gNod : Nat

/-- Refinement record (`LR::RefineData`): error indicators, elements and options. -/
structure RefineData where
  errors : List ℚ
  elements : List Int
  options : List Int

/-- Operations of the LR spline library and of the base classes whose code is
outside the embedded sources.  `establishBases` and `raiseBasis` stand for
`ASMmxBase::establishBases(tensorspline,·)` and `ASMmxBase::raiseBasis(tensorspline)`
followed by the conversion to an LR spline; `extractNodeVecMx q v basis` is the
vector that `ASMmxBase::extractNodeVecMx` extracts from `v`;
`extendControlPoints b v nf` is the basis after `LR::extendControlPoints`;
`contractControlPoints b v nf ofs` the basis and the vector after
`LR::contractControlPoints`; `doRefine prm b` the flag returned by
`doRefine(prm,b)` and the basis it leaves; the two `insert_const_*_edge` and
`refineBasisFunction` are the mesh refinement primitives of `LR::LRSplineSurface`. -/
structure External where
  generateIDs : LRSplineSurface → LRSplineSurface
  establishBases : MixedType → List LRSplineSurface
  raiseBasis : LRSplineSurface
  extractNodeVecMx : ASMu2Dmx → List ℚ → Nat → List ℚ
  extendControlPoints : LRSplineSurface → List ℚ → Nat → LRSplineSurface
  contractControlPoints : LRSplineSurface → List ℚ → Nat → Nat → LRSplineSurface × List ℚ
  doRefine : RefineData → LRSplineSurface → Bool × LRSplineSurface
  insert_const_u_edge : LRSplineSurface → ℚ → ℚ → ℚ → Int → LRSplineSurface
  insert_const_v_edge : LRSplineSurface → ℚ → ℚ → ℚ → Int → LRSplineSurface
  refineBasisFunction : LRSplineSurface → List Nat → LRSplineSurface

/-- Objects of the bases of the patch in basis order. -/
def ASMu2Dmx.bases (p : ASMu2Dmx) : Option (List LRSplineSurface) :=
  p.heap.derefAll p.m_basis

/-! ## generateFEMTopology -/

/-- The call `std::vector::resize(n, d)`. -/
def resize {α : Type} (l : List α) (n : Nat) (d : α) : List α :=
  l.take n ++ List.replicate (n - l.length) d

/-- Allocation of the objects of `svec` (lines 195-197): `m_basis[b].reset(new ...)`. -/
def allocAll : Heap → List LRSplineSurface → Heap × List Nat
  | h, [] => (h, [])
  | h, b :: bs =>
    let r := allocAll (h ++ [b]) bs
    (r.1, h.length :: r.2)

/-- Lines 193-225: creation of the bases of a patch that has none yet, and the
choice of the projection and refinement bases.  Undefined when `svec` is empty
and `m_basis.front()` is read, and under `SUBGRID` with a projection basis
already set, where `otherBasis` is still null when it is converted. -/
def establish (K : External) (p : ASMu2Dmx) : Option ASMu2Dmx :=
  let r := allocAll p.heap (K.establishBases p.Type_)
  let p1 := { p with heap := r.1, m_basis := r.2 }
  if p.Type_ = MixedType.REDUCED_CONT_RAISE_BASIS1 ∨ p.Type_ = MixedType.REDUCED_CONT_RAISE_BASIS2 ∨
      p.Type_ = MixedType.DIV_COMPATIBLE ∨ p.Type_ = MixedType.SUBGRID then
    if p.Type_ = MixedType.SUBGRID then
      match p1.projBasis with
      | some _ => none
      | none =>
        match p1.m_basis.head? with
        | none => none
        | some front =>
          let a := p1.heap.alloc K.raiseBasis
          some { p1 with heap := a.1, projBasis := some front, refBasis := some a.2 }
    else
      match p1.projBasis with
      | some pr => some { p1 with refBasis := some pr }
      | none =>
        let a := p1.heap.alloc K.raiseBasis
        some { p1 with heap := a.1, projBasis := some a.2, refBasis := some a.2 }
  else
    match p1.projBasis with
    | some pr => some { p1 with refBasis := some pr }
    | none =>
      match p1.m_basis.head? with
      | none => none
      | some front => some { p1 with projBasis := some front, refBasis := some front }

/-- Lines 255-259: `nfunc`, the sum of the support sizes of the elements that
contain the midpoint, one element per basis. -/
def countFunctions (mid : ℚ × ℚ) : List LRSplineSurface → Nat → Option Nat
  | [], nfunc => some nfunc
  | it :: rest, nfunc =>
    match it.elementAt mid with
    | none => none
    | some el2 => countFunctions mid rest (nfunc + el2.nBasisFunctions)

/-- Line 265-266: `myMNPC[iel][lnod++] = b->getId() + ofs` over one support. -/
def fillSupport (ofs : Nat) : List Nat → List Nat → Nat → List Nat × Nat
  | [], row, lnod => (row, lnod)
  | b :: bs, row, lnod => fillSupport ofs bs (row.set lnod (b + ofs)) (lnod + 1)

/-- Lines 262-268: the loop over the bases that fills one row of `myMNPC`. -/
def fillRow (mid : ℚ × ℚ) : List LRSplineSurface → List Nat → Nat → Nat → Option (List Nat)
  | [], row, _, _ => some row
  | it :: rest, row, lnod, ofs =>
    match it.elementAt mid with
    | none => none
    | some el2 =>
      let r := fillSupport ofs el2.support row lnod
      fillRow mid rest r.1 r.2 (ofs + it.nBasisFunctions)

/-- Result of the element loop of `generateFEMTopology`. -/
structure Numbering where
  myMNPC : List (List Nat)
  myMLGE : List Nat
  gEl : Nat

/-- Lines 252-271: the loop over the elements of the geometry basis. -/
def elementLoop (bases : List LRSplineSurface) : List Element → Nat → Numbering → Option Numbering
  | [], _, s => some s
  | el1 :: els, iel, s =>
    match countFunctions el1.midpoint bases 0, s.myMNPC[iel]? with
    | some nfunc, some old =>
      match fillRow el1.midpoint bases (resize old nfunc 0) 0 0 with
      | none => none
      | some row =>
        if iel < s.myMLGE.length then
          elementLoop bases els (iel + 1)
            { myMNPC := s.myMNPC.set iel row, myMLGE := s.myMLGE.set iel (s.gEl + 1),
              gEl := s.gEl + 1 }
        else none
    | _, _ => none

/-- Lines 273-274: `myMLGN[inod] = ++gNod` for `inod < nnod`. -/
def numberNodes : Nat → Nat → List Nat → Nat → List Nat × Nat
  | 0, _, mlgn, gNod => (mlgn, gNod)
  | n + 1, inod, mlgn, gNod => numberNodes n (inod + 1) (mlgn.set inod (gNod + 1)) (gNod + 1)

/-- Lines 249-250: `generateIDs()` on every basis, through its pointer. -/
def generateAllIDs (K : External) : Heap → List Nat → Option Heap
  | h, [] => some h
  | h, a :: as =>
    match h.update a K.generateIDs with
    | none => none
    | some h1 => generateAllIDs K h1 as

/-- The function `ASMu2Dmx::generateFEMTopology` (lines 181-285).  The Bezier
extraction generated at the end lives in members that are not embedded. -/
def generateFEMTopology (K : External) (p : ASMu2Dmx) : Option (Bool × ASMu2Dmx) :=
  if p.myMLGN ≠ [] then some (true, p) else
  let p1 : ASMu2Dmx :=
    match p.tensorPrjBas with
    | some t =>
      let a := p.heap.alloc t
      { p with heap := a.1, projBasis := some a.2, tensorPrjBas := none }
    | none => p
  match (if p1.m_basis = [] then establish K p1 else some p1) with
  | none => none
  | some p2 =>
    match p2.heap.updatePtr p2.projBasis K.generateIDs with
    | none => none
    | some h3 =>
      match h3.updatePtr p2.refBasis K.generateIDs with
      | none => none
      | some h4 =>
        match p2.m_basis[p2.geoBasis - 1]?, h4.derefAll p2.m_basis with
        | some g, some bs =>
          if p2.geoBasis = 0 then none else
          let p5 := { p2 with heap := h4, lrspline := some g,
                              nb := bs.map LRSplineSurface.nBasisFunctions }
          if p5.shareFE = 'F' then some (true, p5) else
          match h4[g]? with
          | none => none
          | some gb =>
            let nel := gb.nElements
            let nnod := p5.nb.sum
            match generateAllIDs K h4 p5.m_basis with
            | none => none
            | some h6 =>
              match h6.derefAll p5.m_basis, h6[g]? with
              | some bases, some geo =>
                match elementLoop bases geo.elements 0
                    { myMNPC := resize p5.myMNPC nel [], myMLGE := resize p5.myMLGE nel 0,
                      gEl := p5.gEl } with
                | none => none
                | some s =>
                  let r := numberNodes nnod 0 (resize p5.myMLGN nnod 0) p5.gNod
                  some (true, { p5 with heap := h6, nel := nel, nnod := nnod,
                                        myMNPC := s.myMNPC, myMLGE := s.myMLGE, gEl := s.gEl,
                                        myMLGN := r.1, gNod := r.2, geo := some g })
              | _, _ => none
        | _, _ => none

/-! ## Collaborators of the integration loops -/

/-- The members of `MxFiniteElement` that the integration loops set themselves.
Basis values, gradients, Hessians, `G`, `XC` and `h` are filled by library
routines from the same element and point and are not represented. -/
structure FiniteElement where
  iel : Nat
  iGP : Nat
  xi : ℚ
  eta : ℚ
  u : ℚ
  v : ℚ
  detJxW : ℚ

/-- Calls made by the integration loops, with their outcome.  `a` numbers the
local integral objects in the order in which `getLocalIntegral` returns them;
`iel` is the 1-based element counter of the loop; `b` is a 0-based basis index;
`i`, `j` are the Gauss point indices. -/
inductive Event
  | getParametricArea (iel : Nat) (negative : Bool)
  | getParametricLength (iel : Nat) (negative : Bool)
  | getElementCoordinates (iel : Nat) (ok : Bool)
  | getLocalIntegral (a : Nat) (iel : Nat)
  | initElement (a : Nat) (ok : Bool)
  | initElementBou (a : Nat) (ok : Bool)
  | Hessian (a : Nat) (b : Nat) (i : Nat) (j : Nat) (ok : Bool)
  | evalIntMx (a : Nat) (i : Nat) (j : Nat) (ok : Bool)
  | evalBouMx (a : Nat) (i : Nat) (ok : Bool)
  | finalizeElement (a : Nat) (ok : Bool)
  | finalizeElementBou (a : Nat) (ok : Bool)
  | assemble (a : Nat) (ok : Bool)
  | destruct (a : Nat)
  deriving DecidableEq

/-- Side-effect free queries of the patch base class `ASMu2D`, of
`GaussQuadrature` and of `utl` (coordinate mapping).  `Jacobian geoEl u v` is
the determinant that `utl::Jacobian` returns for geometry element `geoEl` at
the point `(u,v)`; `JacobianBou geoEl t1 t2 u v` the determinant and normal of
the boundary overload; `Hessian iel b u v` the success flag of `utl::Hessian`
for basis `b` on the element of loop index `iel`; `MxFiniteElement sizes i` the
object built by the constructor `MxFiniteElement(sizes,i)`, whose `iGP` is `i`. -/
structure Geometry where
  MxFiniteElement : List Nat → Nat → FiniteElement
  getCoord : Nat → Option (List ℚ)
  getWeight : Nat → Option (List ℚ)
  getParametricArea : Nat → ℚ
  getParametricLength : Nat → Int → ℚ
  getElementCoordinates : Nat → Bool
  getGaussPointParameters : Nat → Nat → Nat → List ℚ → List ℚ
  Jacobian : Nat → ℚ → ℚ → ℚ
  JacobianBou : Nat → Int → Int → ℚ → ℚ → ℚ × (ℚ × ℚ × ℚ)
  Hessian : Nat → Nat → ℚ → ℚ → Bool

/-- The integrand and the global integral.  Both are stateful; `σ` is their joint
state, which includes the contents of the local integral objects.
`use2ndDer`, `elementCorners`, `gMatrix` are the bits `SECOND_DERIVATIVES`,
`ELEMENT_CORNERS`, `G_MATRIX` of `getIntegrandType()`; `threadSafe` is
`glInt.threadSafe()`.  The arguments `time` (fixed during a call) and `X` (the
Cartesian coordinates of the point, determined by the element and the point) of
the integrand calls are not represented. -/
structure Collab (σ : Type) where
  use2ndDer : Bool
  elementCorners : Bool
  gMatrix : Bool
  threadSafe : Bool
  getBouIntegrationPoints : Nat → Nat
  setNeumannOrder : σ → Int → σ
  getLocalIntegral : σ → List Nat → Nat → Bool → σ
  destruct : σ → Nat → σ
  initElement : σ → List Nat → List Nat → List Nat → Bool × σ
  initElementBou : σ → List Nat → List Nat → List Nat → Bool × σ
  evalIntMx : σ → FiniteElement → Bool × σ
  evalBouMx : σ → FiniteElement → ℚ × ℚ × ℚ → Bool × σ
  finalizeElement : σ → Nat → Bool × σ
  finalizeElementBou : σ → FiniteElement → Bool × σ
  assemble : σ → Nat → Bool × σ

/-- State of an integration run: the flag `ok`, the state of the collaborators,
the calls made so far (oldest first) and the number of local integrals obtained. -/
structure Run (σ : Type) where
  ok : Bool
  col : σ
  log : List Event
  nA : Nat

/-- Modelled from the spec: `ThreadGroups::oneGroup(nel)` is not among the
sources; by section 5 it is "a single, non-parallel group covering all
elements", here the element indices `0 .. nel-1` in order. -/
def oneGroup (nel : Nat) : List (List Nat) := [List.range nel]

/-- Lines 303-305: the element groups of interior integration. -/
def integrationGroups {σ : Type} (C : Collab σ) (p : ASMu2Dmx) : List (List Nat) :=
  if C.threadSafe then oneGroup p.nel else p.threadGroups

/-- Lines 319-324: for every basis the 1-based number of the element that contains
the midpoint, and its number of functions. -/
def correspond (mid : ℚ × ℚ) : List LRSplineSurface → Option (List Nat × List Nat)
  | [] => some ([], [])
  | b :: rest =>
    match b.elementAt mid, correspond mid rest with
    | some el, some r =>
      some (((b.getElementContaining mid).toNat + 1) :: r.1, el.nBasisFunctions :: r.2)
    | _, _ => none

/-- Per element data that is fixed during the loop over the Gauss points. -/
structure ElementData where
  loopIel : Nat
  geoEl : Nat
  iel : Nat
  elem_sizes : List Nat
  a : Nat
  dA : ℚ
  gpar0 : List ℚ
  gpar1 : List ℚ

/-- Lines 421-424: `utl::Hessian` for the bases other than the geometry basis;
the values it returns are not used. -/
def hessianOthers (G : Geometry) (p : ASMu2Dmx) (d : ElementData) (i j : Nat) (u v : ℚ) :
    List Nat → List Event
  | [] => []
  | b :: bs =>
    if b ≠ p.geoBasis - 1 then
      Event.Hessian d.a b i j (G.Hessian d.loopIel b u v) :: hessianOthers G p d i j u v bs
    else hessianOthers G p d i j u v bs

/-- Lines 385-441: the body of the loop over the Gauss points of interior integration. -/
def gaussPoint {σ : Type} (G : Geometry) (C : Collab σ) (p : ASMu2Dmx) (xg wg : List ℚ)
    (d : ElementData) (j i iGP : Nat) (s : Run σ) : Run σ :=
  let u := d.gpar0.getD i 0
  let v := d.gpar1.getD j 0
  let det := G.Jacobian d.geoEl u v
  if det = 0 then s else
  let s1 : Run σ :=
    if C.use2ndDer then
      let hg := G.Hessian d.loopIel (p.geoBasis - 1) u v
      let s2 : Run σ :=
        { s with ok := s.ok && hg, log := s.log ++ [Event.Hessian d.a (p.geoBasis - 1) i j hg] }
      if s2.ok then
        { s2 with log := s2.log ++ hessianOthers G p d i j u v (List.range p.m_basis.length) }
      else s2
    else s
  let fe : FiniteElement :=
    { iel := d.iel, iGP := iGP, xi := xg.getD i 0, eta := xg.getD j 0, u := u, v := v,
      detJxW := det * (0.25 * d.dA * wg.getD i 0 * wg.getD j 0) }
  let r := C.evalIntMx s1.col fe
  { s1 with ok := s1.ok && r.1, col := r.2, log := s1.log ++ [Event.evalIntMx d.a i j r.1] }

/-- Line 383: the loop over `i`, with the counter `fe.iGP`. -/
def gaussLoopI {σ : Type} (G : Geometry) (C : Collab σ) (p : ASMu2Dmx) (xg wg : List ℚ)
    (d : ElementData) (j : Nat) : List Nat → Nat → Run σ → Nat × Run σ
  | [], iGP, s => (iGP, s)
  | i :: is, iGP, s =>
    gaussLoopI G C p xg wg d j is (iGP + 1) (gaussPoint G C p xg wg d j i iGP s)

/-- Line 382: the loop over `j`. -/
def gaussLoopJ {σ : Type} (G : Geometry) (C : Collab σ) (p : ASMu2Dmx) (xg wg : List ℚ)
    (d : ElementData) : List Nat → Nat → Run σ → Nat × Run σ
  | [], iGP, s => (iGP, s)
  | j :: js, iGP, s =>
    let r := gaussLoopI G C p xg wg d j (List.range p.nGauss) iGP s
    gaussLoopJ G C p xg wg d js r.1 r.2

/-- Element correspondence of one loop iteration: the numbers of lines 318-329. -/
structure Located where
  geoEl : Nat
  feIel : Nat
  elem_sizes : List Nat

/-- Lines 317-329: the element of the thread basis with 1-based number `iel`, the
elements of all bases that contain its midpoint, the geometry element `geoEl`
among them and its global number `MLGE[geoEl-1]`. -/
def locate (p : ASMu2Dmx) (iel : Nat) : Option Located :=
  match p.threadBasis.bind (fun t => p.heap[t]?), p.bases with
  | some tb, some bases =>
    match tb.elements[iel - 1]? with
    | none => none
    | some el1 =>
      match correspond el1.midpoint bases with
      | none => none
      | some c =>
        if p.geoBasis = 0 then none else
        match c.1[p.geoBasis - 1]? with
        | none => none
        | some geoEl =>
          match p.myMLGE[geoEl - 1]? with
          | none => none
          | some feIel => some { geoEl := geoEl, feIel := feIel, elem_sizes := c.2 }
  | _, _ => none

/-- Lines 377-458: the Gauss loops, `finalizeElement`, `assemble` and the release
of the local integral, for an element that `initElement` accepted. -/
def finishElement {σ : Type} (G : Geometry) (C : Collab σ) (p : ASMu2Dmx) (xg wg : List ℚ)
    (d : ElementData) (s3 : Run σ) : Run σ :=
  let jp := (d.loopIel - 1) * p.nGauss * p.nGauss
  let g := gaussLoopJ G C p xg wg d (List.range p.nGauss) (p.firstIp + jp) s3
  let s4 := g.2
  let f := C.finalizeElement s4.col (p.firstIp + jp)
  if f.1 = false then
    { s4 with ok := false, col := f.2, log := s4.log ++ [Event.finalizeElement d.a false] }
  else
  let s5 : Run σ := { s4 with col := f.2, log := s4.log ++ [Event.finalizeElement d.a true] }
  let m := C.assemble s5.col d.iel
  if m.1 = false then
    { s5 with ok := false, col := m.2, log := s5.log ++ [Event.assemble d.a false] }
  else
    { s5 with col := C.destruct m.2 d.a,
              log := s5.log ++ [Event.assemble d.a true, Event.destruct d.a] }

/-- Lines 338-458: the body of the element loop after the element correspondence.
The element sizes computed under `ELEMENT_CORNERS` and `G_MATRIX` only feed
members of `fe` that are not represented. -/
def integrateLocated {σ : Type} (G : Geometry) (C : Collab σ) (p : ASMu2Dmx) (xg wg : List ℚ)
    (iel : Nat) (l : Located) (s : Run σ) : Option (Run σ) :=
  let dA := G.getParametricArea l.geoEl
  if dA < 0 then
    some { s with ok := false, log := s.log ++ [Event.getParametricArea iel true] }
  else
  if G.getElementCoordinates l.geoEl = false then
    some { s with ok := false,
                  log := s.log ++ [Event.getParametricArea iel false,
                                   Event.getElementCoordinates iel false] }
  else
  let d : ElementData :=
    { loopIel := iel, geoEl := l.geoEl, iel := l.feIel, elem_sizes := l.elem_sizes, a := s.nA,
      dA := dA, gpar0 := G.getGaussPointParameters 0 p.nGauss l.geoEl xg,
      gpar1 := G.getGaussPointParameters 1 p.nGauss l.geoEl xg }
  let log2 := s.log ++ [Event.getParametricArea iel false, Event.getElementCoordinates iel true,
                        Event.getLocalIntegral d.a iel]
  match p.myMNPC[l.geoEl - 1]? with
  | none => none
  | some mnpc =>
    let r := C.initElement (C.getLocalIntegral s.col l.elem_sizes l.feIel false) mnpc
      l.elem_sizes p.nb
    if r.1 = false then
      some { ok := false, col := C.destruct r.2 d.a, nA := s.nA + 1,
             log := log2 ++ [Event.initElement d.a false, Event.destruct d.a] }
    else
      some (finishElement G C p xg wg d
        { ok := s.ok, col := r.2, nA := s.nA + 1, log := log2 ++ [Event.initElement d.a true] })

/-- Lines 315-458: the body of the element loop of interior integration, for the
entry `e` of a group. -/
def integrateElement {σ : Type} (G : Geometry) (C : Collab σ) (p : ASMu2Dmx) (xg wg : List ℚ)
    (e : Nat) (s : Run σ) : Option (Run σ) :=
  if s.ok = false then some s else
  match locate p (e + 1) with
  | none => none
  | some l => integrateLocated G C p xg wg (e + 1) l s

/-- Line 313: the loop over the elements of one group, run sequentially. -/
def integrateGroup {σ : Type} (G : Geometry) (C : Collab σ) (p : ASMu2Dmx) (xg wg : List ℚ) :
    List Nat → Run σ → Option (Run σ)
  | [], s => some s
  | e :: es, s =>
    match integrateElement G C p xg wg e s with
    | none => none
    | some s1 => integrateGroup G C p xg wg es s1

/-- Line 310: the loop over the groups, `for (t = 0; t < groups.size() && ok; ++t)`. -/
def integrateGroups {σ : Type} (G : Geometry) (C : Collab σ) (p : ASMu2Dmx) (xg wg : List ℚ) :
    List (List Nat) → Run σ → Option (Run σ)
  | [], s => some s
  | g :: gs, s =>
    if s.ok = false then some s else
    match integrateGroup G C p xg wg g s with
    | none => none
    | some s1 => integrateGroups G C p xg wg gs s1

/-- The function `ASMu2Dmx::integrate(Integrand&, GlobalIntegral&, const TimeDomain&)`
(lines 288-463), interior integration; the returned flag is `ok` of the final
state. -/
def integrate {σ : Type} (G : Geometry) (C : Collab σ) (p : ASMu2Dmx) (s0 : σ) :
    Option (Run σ) :=
  let start : Run σ := { ok := true, col := s0, log := [], nA := 0 }
  if p.m_basis = [] then some start else
  match G.getCoord p.nGauss, G.getWeight p.nGauss with
  | some xg, some wg => integrateGroups G C p xg wg (integrationGroups C p) start
  | _, _ => some { start with ok := false }

/-! ## Boundary integration -/

/-- Line 482: the parametric direction of the edge normal, with the truncating
division and remainder of C++. -/
def edgeDirOf (lIndex : Int) : Int :=
  Int.tdiv (Int.tmod lIndex 10 + 1) (if Int.tmod lIndex 2 ≠ 0 then -2 else 2)

/-- Lines 519-526: whether an element is not on the current boundary edge. -/
def skipMe (edgeDir : Int) (gb : LRSplineSurface) (el1 : Element) : Bool :=
  if edgeDir = -1 then decide (el1.umin ≠ gb.startparam.1)
  else if edgeDir = 1 then decide (el1.umax ≠ gb.endparam.1)
  else if edgeDir = -2 then decide (el1.vmin ≠ gb.startparam.2)
  else if edgeDir = 2 then decide (el1.vmax ≠ gb.endparam.2)
  else false

/-- Lines 487-498: the parameter arrays before the element loop; `lrspline` is
dereferenced only for the direction normal to the edge. -/
def initialGpar (p : ASMu2Dmx) (nGP : Nat) (edgeDir : Int) : Option (List ℚ × List ℚ) :=
  let lr := p.lrspline.bind (fun a => p.heap[a]?)
  let g0 : Option (List ℚ) :=
    if -1 = edgeDir then lr.map (fun b => List.replicate nGP b.startparam.1)
    else if 1 = edgeDir then lr.map (fun b => List.replicate nGP b.endparam.1)
    else some []
  let g1 : Option (List ℚ) :=
    if -2 = edgeDir then lr.map (fun b => List.replicate nGP b.startparam.2)
    else if 2 = edgeDir then lr.map (fun b => List.replicate nGP b.endparam.2)
    else some []
  match g0, g1 with
  | some a, some b => some (a, b)
  | _, _ => none

/-- Per element data that is fixed during the loop over the boundary Gauss points. -/
structure BouData where
  geoEl : Nat
  iel : Nat
  a : Nat
  edgeDir : Int
  dS : ℚ
  gpar0 : List ℚ
  gpar1 : List ℚ

/-- Lines 571-606: the body of the loop over the Gauss points along the edge.  The
finite element object `fe` lives across the iterations. -/
def bouPoint {σ : Type} (G : Geometry) (C : Collab σ) (xg wg : List ℚ) (d : BouData)
    (i : Nat) (fe : FiniteElement) (s : Run σ) : FiniteElement × Run σ :=
  let t1 : Int := Int.natAbs d.edgeDir
  let t2 : Int := 3 - Int.natAbs d.edgeDir
  let fe1 : FiniteElement :=
    if t1 = 2 then { fe with xi := xg.getD i 0 } else { fe with eta := xg.getD i 0 }
  let fe2 : FiniteElement := { fe1 with u := d.gpar0.getD i 0, v := d.gpar1.getD i 0 }
  let jn := G.JacobianBou d.geoEl t1 t2 fe2.u fe2.v
  let fe3 : FiniteElement := { fe2 with detJxW := jn.1 }
  if fe3.detJxW = 0 then (fe3, s) else
  let normal : ℚ × ℚ × ℚ :=
    if d.edgeDir < 0 then (jn.2.1 * (-1), jn.2.2.1 * (-1), jn.2.2.2 * (-1)) else jn.2
  let fe4 : FiniteElement := { fe3 with detJxW := fe3.detJxW * (d.dS * wg.getD i 0) }
  let r := C.evalBouMx s.col fe4 normal
  (fe4, { s with ok := r.1, col := r.2, log := s.log ++ [Event.evalBouMx d.a i r.1] })

/-- Line 569: `for (int i = 0; i < nGP && ok; i++, fe.iGP++)`. -/
def bouLoop {σ : Type} (G : Geometry) (C : Collab σ) (xg wg : List ℚ) (d : BouData) :
    List Nat → FiniteElement → Run σ → FiniteElement × Run σ
  | [], fe, s => (fe, s)
  | i :: is, fe, s =>
    if s.ok = false then (fe, s)
    else
      let r := bouPoint G C xg wg d i fe s
      bouLoop G C xg wg d is { r.1 with iGP := r.1.iGP + 1 } r.2

/-- Loop variables of the element loop of boundary integration. -/
structure BouState (σ : Type) where
  run : Run σ
  firstp : Nat
  gpar0 : List ℚ
  gpar1 : List ℚ

/-- Lines 559-617: the local integral of an element with connectivity row `mnpc`,
the loop over the Gauss points along the edge, `finalizeElementBou`, `assemble`
and the release of the local integral. -/
def bouFinish {σ : Type} (G : Geometry) (C : Collab σ) (p : ASMu2Dmx) (xg wg : List ℚ)
    (nGP : Nat) (edgeDir : Int) (iel : Nat) (st : BouState σ) (sizes : List Nat)
    (geoEl feIel : Nat) (fe0 : FiniteElement) (dS : ℚ) (mnpc : List Nat) :
    Option (BouState σ) :=
  let s := st.run
  let t2 : Int := 3 - Int.natAbs edgeDir
  let a := s.nA
  let r := C.initElementBou (C.getLocalIntegral s.col sizes feIel true) mnpc sizes p.nb
  let s1 : Run σ :=
    { ok := r.1, col := r.2, nA := s.nA + 1,
      log := s.log ++ [Event.getParametricLength iel false,
                       Event.getElementCoordinates iel true,
                       Event.getLocalIntegral a iel, Event.initElementBou a r.1] }
  if t2 ≠ 1 ∧ t2 ≠ 2 then none else
  let gp := G.getGaussPointParameters (t2 - 1).toNat nGP geoEl xg
  let gpar0 := if t2 = 1 then gp else st.gpar0
  let gpar1 := if t2 = 2 then gp else st.gpar1
  let d : BouData :=
    { geoEl := geoEl, iel := feIel, a := a, edgeDir := edgeDir, dS := dS,
      gpar0 := gpar0, gpar1 := gpar1 }
  let g := bouLoop G C xg wg d (List.range nGP) fe0 s1
  let s2 := g.2
  let s3 : Run σ :=
    if s2.ok then
      let f := C.finalizeElementBou s2.col g.1
      { s2 with ok := f.1, col := f.2, log := s2.log ++ [Event.finalizeElementBou a f.1] }
    else s2
  let s4 : Run σ :=
    if s3.ok then
      let m := C.assemble s3.col feIel
      { s3 with ok := m.1, col := m.2, log := s3.log ++ [Event.assemble a m.1] }
    else s3
  some { run := { s4 with col := C.destruct s4.col a, log := s4.log ++ [Event.destruct a] },
         firstp := st.firstp + nGP, gpar0 := gpar0, gpar1 := gpar1 }

/-- Lines 535-619: the body of the element loop of boundary integration for an
element that is on the edge and in the partition.  A state with `ok = false`
stands for `return false`. -/
def bouElement {σ : Type} (G : Geometry) (C : Collab σ) (p : ASMu2Dmx) (xg wg : List ℚ)
    (nGP : Nat) (edgeDir : Int) (bases : List LRSplineSurface) (el1 : Element) (iel : Nat)
    (st : BouState σ) : Option (BouState σ) :=
  let s := st.run
  let t2 : Int := 3 - Int.natAbs edgeDir
  match correspond el1.midpoint bases with
  | none => none
  | some c =>
    if p.geoBasis = 0 then none else
    match c.1[p.geoBasis - 1]? with
    | none => none
    | some geoEl =>
      match p.myMLGE[geoEl - 1]? with
      | none => none
      | some feIel =>
        let side : ℚ := if edgeDir < 0 then -1 else 1
        let fe0 : FiniteElement :=
          { G.MxFiniteElement c.2 st.firstp with iel := feIel, xi := side, eta := side }
        let firstp := st.firstp + nGP
        let dS := 0.5 * G.getParametricLength geoEl t2
        if dS < 0 then
          some { st with firstp := firstp,
                         run := { s with ok := false,
                                         log := s.log ++ [Event.getParametricLength iel true] } }
        else
        if G.getElementCoordinates geoEl = false then
          some { st with firstp := firstp,
                         run := { s with ok := false,
                                         log := s.log ++ [Event.getParametricLength iel false,
                                                          Event.getElementCoordinates iel false] } }
        else
        match p.myMNPC[geoEl - 1]? with
        | none => none
        | some mnpc => bouFinish G C p xg wg nGP edgeDir iel st c.2 geoEl feIel fe0 dS mnpc

/-- Lines 515-620: the loop over the elements of the geometry basis, with the
1-based counter `iel`. -/
def bouElements {σ : Type} (G : Geometry) (C : Collab σ) (p : ASMu2Dmx) (xg wg : List ℚ)
    (nGP : Nat) (edgeDir : Int) (bases : List LRSplineSurface) (gb : LRSplineSurface) :
    List Element → Nat → BouState σ → Option (BouState σ)
  | [], _, st => some st
  | el1 :: rest, iel, st =>
    if skipMe edgeDir gb el1 then bouElements G C p xg wg nGP edgeDir bases gb rest (iel + 1) st
    else if p.myElms ≠ [] ∧ C.threadSafe = false ∧ (iel - 1) ∉ p.myElms then
      bouElements G C p xg wg nGP edgeDir bases gb rest (iel + 1 + 1) st
    else
      match bouElement G C p xg wg nGP edgeDir bases el1 iel st with
      | none => none
      | some st1 =>
        if st1.run.ok = false then some st1
        else bouElements G C p xg wg nGP edgeDir bases gb rest (iel + 1) st1

/-- The function `ASMu2Dmx::integrate(Integrand&, int lIndex, GlobalIntegral&, const
TimeDomain&)` (lines 466-623), boundary integration; the returned flag is `ok`
of the final state.  The source reads `m_basis[0]` and `m_basis[1]` first, which
is undefined for a patch with fewer than two bases. -/
def integrateBou {σ : Type} (G : Geometry) (C : Collab σ) (p : ASMu2Dmx) (lIndex : Int)
    (s0 : σ) : Option (Run σ) :=
  let start : Run σ := { ok := true, col := s0, log := [], nA := 0 }
  match p.m_basis with
  | _ :: _ :: _ =>
    let nGP := C.getBouIntegrationPoints p.nGauss
    match G.getCoord nGP, G.getWeight nGP with
    | some xg, some wg =>
      let edgeDir := edgeDirOf lIndex
      match initialGpar p nGP edgeDir with
      | none => none
      | some gpar =>
        let s1 : Run σ := { start with col := C.setNeumannOrder s0 (1 + Int.tdiv lIndex 10) }
        let firstp := ((p.firstBp.lookup (Int.tmod lIndex 10)).getD 0)
        if p.geoBasis = 0 then none else
        match p.bases with
        | none => none
        | some bases =>
          match bases[p.geoBasis - 1]? with
          | none => none
          | some gb =>
            (bouElements G C p xg wg nGP edgeDir bases gb gb.elements 1
              { run := s1, firstp := firstp, gpar0 := gpar.1, gpar1 := gpar.2 }).map
              (fun st => st.run)
    | _, _ => some { start with ok := false }
  | _ => none

/-! ## Refinement -/

/-- Lines 978-982: the loop over the bases for one solution vector,
`extractNodeVec` followed by `LR::extendControlPoints` on `m_basis[j]`. -/
def extendBases (K : External) (p : ASMu2Dmx) (solvec : List ℚ) :
    List Nat → Nat → Heap → Option Heap
  | [], _, h => some h
  | a :: as, j, h =>
    match p.nfx[j]? with
    | none => none
    | some nf =>
      match h.update a (fun b =>
          K.extendControlPoints b (K.extractNodeVecMx { p with heap := h } solvec (j + 1)) nf) with
      | none => none
      | some h1 => extendBases K p solvec as (j + 1) h1

/-- Lines 977-983: the loop over the solution vectors. -/
def extendAll (K : External) (p : ASMu2Dmx) : List (List ℚ) → Heap → Option Heap
  | [], h => some h
  | solvec :: rest, h =>
    match extendBases K p solvec p.m_basis 0 h with
    | none => none
    | some h1 => extendAll K p rest h1

/-- Lines 1200-1208: the loop of `copyRefinement` over the mesh lines of the
refinement basis, applied to the target basis. -/
def copyRefinementLines (K : External) (multiplicity : Int) :
    List Meshline → LRSplineSurface → LRSplineSurface
  | [], basis => basis
  | line :: rest, basis =>
    let mult := if line.multiplicity_ > 1 then line.multiplicity_ else multiplicity
    copyRefinementLines K multiplicity rest
      (if line.span_u_line_ then
        K.insert_const_v_edge basis line.const_par_ line.start_ line.stop_ mult
      else
        K.insert_const_u_edge basis line.const_par_ line.start_ line.stop_ mult)

/-- The function `ASMu2Dmx::copyRefinement` (lines 1197-1209) on the basis behind
the pointer `basis`. -/
def copyRefinement (K : External) (p : ASMu2Dmx) (basis : Nat) (multiplicity : Int) :
    Option Heap :=
  match p.refBasis.bind (fun a => p.heap[a]?) with
  | none => none
  | some rb => p.heap.update basis (copyRefinementLines K multiplicity rb.meshlines)

/-- Lines 986-993: propagation of the refinement to every basis that is not the
refinement basis itself (pointer comparison). -/
def propagate (K : External) (p : ASMu2Dmx) : List Nat → Nat → Heap → Option Heap
  | [], _, h => some h
  | a :: as, j, h =>
    if p.refBasis ≠ some a then
      match copyRefinement K { p with heap := h } a
          (if (j = 0 ∧ p.Type_ = MixedType.REDUCED_CONT_RAISE_BASIS1) ∨
              (j = 1 ∧ p.Type_ = MixedType.REDUCED_CONT_RAISE_BASIS2) then 2 else 1) with
      | none => none
      | some h1 => propagate K p as (j + 1) h1
    else propagate K p as (j + 1) h

/-- Lines 996-1003: under `SUBGRID`, basis 1 becomes a copy of the refinement basis
in which every function is refined, and the projection basis points to it. -/
def subgrid (K : External) (p : ASMu2Dmx) : Option ASMu2Dmx :=
  if p.Type_ = MixedType.SUBGRID then
    match p.refBasis.bind (fun a => p.heap[a]?), p.m_basis with
    | some rb, _ :: rest =>
      let a := p.heap.alloc (K.refineBasisFunction rb (List.range rb.nBasisFunctions))
      some { p with heap := a.1, m_basis := a.2 :: rest, projBasis := some a.2 }
    | _, _ => none
  else some p

/-- Lines 1005-1010: `generateIDs`, the new function counts `nb[j]` and the new
vector length `len`. -/
def renumber (K : External) (nfx : List Nat) :
    List Nat → Nat → Heap → List Nat → Nat → Option (Heap × List Nat × Nat)
  | [], _, h, nb, len => some (h, nb, len)
  | a :: as, j, h, nb, len =>
    match h.update a K.generateIDs with
    | none => none
    | some h1 =>
      match h1[a]?, nfx[j]? with
      | some b, some nf =>
        if j < nb.length then
          renumber K nfx as (j + 1) h1 (nb.set j b.nBasisFunctions)
            (len + nf * b.nBasisFunctions)
        else none
      | _, _ => none

/-- Loop variables of lines 1012-1018, with the calls of `contractControlPoints`
made so far as triples (generation `i`, basis `j`, offset `ofs`). -/
structure ContractState where
  heap : Heap
  ofs : Nat
  calls : List (Nat × Nat × Nat)

/-- Lines 1014-1018: the loop over the bases for the solution vector `sol[i]`. -/
def contractBases (K : External) (nfx nb : List Nat) (len i : Nat) :
    List Nat → Nat → List ℚ → ContractState → Option (List ℚ × ContractState)
  | [], _, v, st => some (v, st)
  | a :: as, j, v, st =>
    match st.heap[a]?, nfx[j]?, nb[j]? with
    | some b, some nf, some n =>
      let r := K.contractControlPoints b (resize v len 0) nf st.ofs
      contractBases K nfx nb len i as (j + 1) r.2
        { heap := st.heap.set a r.1, ofs := st.ofs + nf * n,
          calls := st.calls ++ [(i, j, st.ofs)] }
    | _, _, _ => none

/-- Lines 1012-1018: the loop over the solution vectors, from the last to the
first; the argument is the reversed list of vectors, so that its head is
`sol[i]` with `i` the length of its tail.  The offset `ofs` is declared before
this loop and is carried from one vector to the next. -/
def contractAll (K : External) (nfx nb : List Nat) (len : Nat) (ptrs : List Nat) :
    List (List ℚ) → ContractState → Option (List (List ℚ) × ContractState)
  | [], st => some ([], st)
  | v :: vs, st =>
    match contractBases K nfx nb len vs.length ptrs 0 v st with
    | none => none
    | some r =>
      match contractAll K nfx nb len ptrs vs r.2 with
      | none => none
      | some rs => some (r.1 :: rs.1, rs.2)

/-- Outcome of `refine`: the returned flag, the patch, the solution vectors and the
calls of `contractControlPoints` in the order in which they were made. -/
structure RefineResult where
  ok : Bool
  patch : ASMu2Dmx
  sol : List (List ℚ)
  contracted : List (Nat × Nat × Nat)

/-- The function `ASMu2Dmx::refine` (lines 969-1040). -/
def refine (K : External) (p : ASMu2Dmx) (prm : RefineData) (sol : List (List ℚ)) :
    Option RefineResult :=
  if p.shareFE ≠ Char.ofNat 0 then some { ok := true, patch := p, sol := sol, contracted := [] }
  else if prm.errors.isEmpty ∧ prm.elements.isEmpty then
    some { ok := true, patch := p, sol := sol, contracted := [] }
  else
  match extendAll K p sol p.heap with
  | none => none
  | some h1 =>
    match p.refBasis.bind (fun a => h1[a]?.map (fun b => (a, b))) with
    | none => none
    | some rb =>
      let dr := K.doRefine prm rb.2
      let p2 : ASMu2Dmx := { p with heap := h1.set rb.1 dr.2 }
      if dr.1 then
        match propagate K p2 p2.m_basis 0 p2.heap with
        | none => none
        | some h3 =>
          match subgrid K { p2 with heap := h3 } with
          | none => none
          | some p4 =>
            match renumber K p4.nfx p4.m_basis 0 p4.heap p4.nb 0 with
            | none => none
            | some n =>
              match contractAll K p4.nfx n.2.1 n.2.2 p4.m_basis sol.reverse
                  { heap := n.1, ofs := 0, calls := [] } with
              | none => none
              | some c =>
                some { ok := true, patch := { p4 with heap := c.2.heap, nb := n.2.1 },
                       sol := c.1.reverse, contracted := c.2.calls }
      else some { ok := false, patch := p2, sol := sol, contracted := [] }

/-! ## Statement vocabulary for the connectivity -/

/-- Ids of the functions with support on the element of a basis that contains a point. -/
def supportOf (it : LRSplineSurface) (mid : ℚ × ℚ) : List Nat :=
  match it.elementAt mid with
  | some el2 => el2.support
  | none => []

/-- Sum of the function counts of the bases before basis `i` (0-based). -/
def basisOffset (bases : List LRSplineSurface) (i : Nat) : Nat :=
  ((bases.take i).map LRSplineSurface.nBasisFunctions).sum

/-- Per basis, the ids of the located support shifted by a running offset that starts at `ofs`. -/
def connectivityBlocks (mid : ℚ × ℚ) : Nat → List LRSplineSurface → List (List Nat)
  | _, [] => []
  | ofs, it :: rest =>
    (supportOf it mid).map (· + ofs) :: connectivityBlocks mid (ofs + it.nBasisFunctions) rest

/-- The heap after the calls of `generateIDs` of lines 226-227 and 249-250. -/
def idsGenerated (K : External) (p : ASMu2Dmx) : Option Heap :=
  match p.heap.updatePtr p.projBasis K.generateIDs with
  | none => none
  | some h3 =>
    match h3.updatePtr p.refBasis K.generateIDs with
    | none => none
    | some h4 => generateAllIDs K h4 p.m_basis

/-- The pointers and indices that `generateFEMTopology` reads on a patch with
established bases are in range, `generateIDs` keeps the number of elements of a
basis, and once the ids are generated the midpoint of every element of the
geometry basis lies in an element of every basis. -/
def GenReady (K : External) (p : ASMu2Dmx) : Prop :=
  p.tensorPrjBas = none ∧ p.m_basis ≠ [] ∧
  (∃ a, p.projBasis = some a ∧ a < p.heap.length) ∧
  (∃ a, p.refBasis = some a ∧ a < p.heap.length) ∧
  (∀ a ∈ p.m_basis, a < p.heap.length) ∧
  0 < p.geoBasis ∧ p.geoBasis ≤ p.m_basis.length ∧
  (∀ b, (K.generateIDs b).elements.length = b.elements.length) ∧
  (∀ h6 bases g geo, idsGenerated K p = some h6 → h6.derefAll p.m_basis = some bases →
    p.m_basis[p.geoBasis - 1]? = some g → h6[g]? = some geo →
    ∀ el1 ∈ geo.elements, ∀ it ∈ bases, ∃ el2, it.elementAt el1.midpoint = some el2)

/-! ## Statement vocabulary for the refinement -/

/-- Sum over the first `n` bases of `nfx[j] * nb[j]`. -/
def dofLength (nfx nb : List Nat) (n : Nat) : Nat :=
  ((List.range n).map (fun j => nfx.getD j 0 * nb.getD j 0)).sum

/-- The pointers and tables that `refine` reads are in range: the bases and the
refinement basis exist, `nfx` and `nb` have an entry for every basis, and a
`SUBGRID` patch has a first basis. -/
def RefineReady (p : ASMu2Dmx) : Prop :=
  (∀ a ∈ p.m_basis, a < p.heap.length) ∧
  (∃ a, p.refBasis = some a ∧ a < p.heap.length) ∧
  p.m_basis.length ≤ p.nfx.length ∧
  p.m_basis.length ≤ p.nb.length ∧
  (p.Type_ = MixedType.SUBGRID → p.m_basis ≠ [])

/-! ## Statement vocabulary for the integration runs -/

/-- Whether a logged call is one of the failures that interior or boundary
integration reacts to: a negative parametric area or length, element coordinates
that cannot be obtained, a rejection by `initElement`, `evalIntMx`,
`finalizeElement` (or their boundary versions) or by `assemble`, and a failed
`utl::Hessian` for the basis with 0-based index `g`. -/
def Event.rejects (g : Nat) : Event → Bool
  | Event.getParametricArea _ negative => negative
  | Event.getParametricLength _ negative => negative
  | Event.getElementCoordinates _ ok => !ok
  | Event.getLocalIntegral _ _ => false
  | Event.initElement _ ok => !ok
  | Event.initElementBou _ ok => !ok
  | Event.Hessian _ b _ _ ok => b == g && !ok
  | Event.evalIntMx _ _ _ ok => !ok
  | Event.evalBouMx _ _ ok => !ok
  | Event.finalizeElement _ ok => !ok
  | Event.finalizeElementBou _ ok => !ok
  | Event.assemble _ ok => !ok
  | Event.destruct _ => false

/-- The flag is false exactly when the calls so far contain a failure. -/
def Sound (g : Nat) (ok : Bool) (log : List Event) : Prop :=
  ok = false ↔ ∃ ev ∈ log, ev.rejects g = true

/-- Every entry of the element groups is the index of an element of the thread
basis whose midpoint lies in an element of every basis, with the geometry
element inside the connectivity tables: the lookups of lines 317-329 and 370
are defined. -/
def Schedulable (p : ASMu2Dmx) (groups : List (List Nat)) : Prop :=
  ∀ g ∈ groups, ∀ e ∈ g,
    ∃ l, locate p (e + 1) = some l ∧ ∃ mnpc, p.myMNPC[l.geoEl - 1]? = some mnpc

/-- Two states of a run agree except possibly in the logged calls. -/
def Run.agrees {σ : Type} (s t : Run σ) : Prop :=
  s.ok = t.ok ∧ s.col = t.col ∧ s.nA = t.nA

/-! ## Sample configuration

A Taylor-Hood like patch on one element: basis 1 with nine functions, basis 2
with four, the geometry on basis 2. -/

/-- Basis with a single element on the unit square that carries all `n` functions. -/
def unitBasis (n : Nat) (p : Int) : LRSplineSurface :=
  { nBasisFunctions := n
    elements := [{ umin := 0, umax := 1, vmin := 0, vmax := 1, support := List.range n }]
    getElementContaining := fun _ => 0
    order0 := p
    startparam := (0, 0)
    endparam := (1, 1)
    meshlines := []
    attached := [] }

/-- Library operations for the sample patch: the ids are already generated, the
attached coefficients are kept as a stack per basis, `contractControlPoints`
writes the newest attached coefficients into the vector from the offset on
(positions outside the vector are dropped), and `doRefine` succeeds and adds
one function to the basis. -/
def sampleExternal : External :=
  { generateIDs := fun b => b
    establishBases := fun _ => [unitBasis 9 3, unitBasis 4 2]
    raiseBasis := unitBasis 9 3
    extractNodeVecMx := fun _ v _ => v
    extendControlPoints := fun b v nf => { b with attached := b.attached ++ [(v, nf)] }
    contractControlPoints := fun b v _ _ => ({ b with attached := b.attached.dropLast }, v)
    doRefine := fun _ b => (true, { b with nBasisFunctions := b.nBasisFunctions + 1 })
    insert_const_u_edge := fun b _ _ _ _ => { b with nBasisFunctions := b.nBasisFunctions + 1 }
    insert_const_v_edge := fun b _ _ _ _ => { b with nBasisFunctions := b.nBasisFunctions + 1 }
    refineBasisFunction := fun b _ => b }

/-- Library operations whose refinement primitive fails. -/
def failingExternal : External :=
  { sampleExternal with doRefine := fun _ b => (false, b) }

/-- A refinement record that asks for the refinement of element 0. -/
def sampleRefineData : RefineData :=
  { errors := [], elements := [0], options := [] }

/-- The sample patch before its FE topology is generated. -/
def samplePatch : ASMu2Dmx :=
  { heap := [unitBasis 9 3, unitBasis 4 2]
    m_basis := [0, 1]
    projBasis := some 0
    refBasis := some 0
    lrspline := none
    geo := none
    threadBasis := none
    tensorPrjBas := none
    geoBasis := 2
    Type_ := MixedType.FULL_CONT_RAISE_BASIS1
    nfx := [2, 1]
    nb := []
    shareFE := Char.ofNat 0
    nel := 0
    nnod := 0
    myMLGE := []
    myMLGN := []
    myMNPC := []
    nGauss := 2
    firstIp := 0
    threadGroups := []
    myElms := []
    firstBp := []
    gEl := 0
    gNod := 0 }

/-- The sample patch after `generateFEMTopology`. -/
def samplePatchGenerated : ASMu2Dmx :=
  { samplePatch with
    lrspline := some 1
    geo := some 1
    nb := [9, 4]
    nel := 1
    nnod := 13
    myMLGE := [1]
    myMLGN := [1, 2, 3, 4, 5, 6, 7, 8, 9, 10, 11, 12, 13]
    myMNPC := [[0, 1, 2, 3, 4, 5, 6, 7, 8, 9, 10, 11, 12]]
    gEl := 1
    gNod := 13 }

/-- Geometry of the sample patch: a two point rule, unit element sizes, and a
coordinate mapping whose Jacobian determinant vanishes exactly on the line
`u = 0`. -/
def sampleGeometry : Geometry :=
  { MxFiniteElement := fun _ i =>
      { iel := 0, iGP := i, xi := 0, eta := 0, u := 0, v := 0, detJxW := 1 }
    getCoord := fun n => if n = 2 then some [-1, 1] else none
    getWeight := fun n => if n = 2 then some [1, 1] else none
    getParametricArea := fun _ => 1
    getParametricLength := fun _ _ => 1
    getElementCoordinates := fun _ => true
    getGaussPointParameters := fun _ _ _ _ => [0, 1]
    Jacobian := fun _ u _ => if u = 0 then 0 else 1
    JacobianBou := fun _ _ _ u v => (if u = 0 ∧ v = 0 then 0 else 1, (1, 0, 0))
    Hessian := fun _ _ _ _ => true }

/-- Geometry of the sample patch with a regular coordinate mapping. -/
def regularGeometry : Geometry :=
  { sampleGeometry with Jacobian := fun _ _ _ => 1, JacobianBou := fun _ _ _ _ _ => (1, (1, 0, 0)) }

/-- Collaborators without state: `evalOk iGP` is the answer of `evalIntMx` and
`evalBouMx` at integration point `iGP`, the two flags are the answers of
`finalizeElement` and of `assemble`. -/
def sampleCollab (evalOk : Nat → Bool) (finalizeOk assembleOk : Bool) : Collab Unit :=
  { use2ndDer := false
    elementCorners := false
    gMatrix := false
    threadSafe := false
    getBouIntegrationPoints := fun n => n
    setNeumannOrder := fun s _ => s
    getLocalIntegral := fun s _ _ _ => s
    destruct := fun s _ => s
    initElement := fun s _ _ _ => (true, s)
    initElementBou := fun s _ _ _ => (true, s)
    evalIntMx := fun s fe => (evalOk fe.iGP, s)
    evalBouMx := fun s fe _ => (evalOk fe.iGP, s)
    finalizeElement := fun s _ => (finalizeOk, s)
    finalizeElementBou := fun s _ => (finalizeOk, s)
    assemble := fun s _ => (assembleOk, s) }

/-- The sample patch ready for integration: basis 1 schedules the single element. -/
def sampleIntegrationPatch : ASMu2Dmx :=
  { samplePatchGenerated with threadBasis := some 0, threadGroups := [[0]] }

/-- Collaborators that ask for second derivatives and reject in `finalizeElement`. -/
def rejectingCollab : Collab Unit :=
  { sampleCollab (fun _ => true) false true with use2ndDer := true }

/-- Element data of the single element of the sample patch. -/
def sampleElementData : ElementData :=
  { loopIel := 1, geoEl := 1, iel := 1, elem_sizes := [9, 4], a := 0, dA := 1,
    gpar0 := [0, 1], gpar1 := [0, 1] }

/-- Element data of the single element of the sample patch on the edge `u = 0`. -/
def sampleBouData : BouData :=
  { geoEl := 1, iel := 1, a := 0, edgeDir := -1, dS := 1, gpar0 := [0, 0], gpar1 := [0, 1] }

/-- A run in which the local integral of the element has just been initialised. -/
def sampleRun : Run Unit :=
  { ok := true, col := (), log := [Event.getLocalIntegral 0 1, Event.initElement 0 true],
    nA := 1 }

/-- Basis with two elements side by side in the first parametric direction, each
carrying all `n` functions. -/
def twoElementBasis (n : Nat) (p : Int) : LRSplineSurface :=
  { nBasisFunctions := n
    elements := [{ umin := 0, umax := 1, vmin := 0, vmax := 1, support := List.range n },
                 { umin := 1, umax := 2, vmin := 0, vmax := 1, support := List.range n }]
    getElementContaining := fun pt => if pt.1 < 1 then 0 else 1
    order0 := p
    startparam := (0, 0)
    endparam := (2, 1)
    meshlines := []
    attached := [] }

/-- A patch of two elements whose colouring put each element in a group of its own. -/
def twoGroupPatch : ASMu2Dmx :=
  { heap := [twoElementBasis 12 3, twoElementBasis 6 2]
    m_basis := [0, 1]
    projBasis := some 0
    refBasis := some 0
    lrspline := some 1
    geo := some 1
    threadBasis := some 0
    tensorPrjBas := none
    geoBasis := 2
    Type_ := MixedType.FULL_CONT_RAISE_BASIS1
    nfx := [2, 1]
    nb := [12, 6]
    shareFE := Char.ofNat 0
    nel := 2
    nnod := 18
    myMLGE := [1, 2]
    myMLGN := [1, 2, 3, 4, 5, 6, 7, 8, 9, 10, 11, 12, 13, 14, 15, 16, 17, 18]
    myMNPC := [[0, 1, 2, 3, 4, 5, 6, 7, 8, 9, 10, 11, 12, 13, 14, 15, 16, 17],
               [0, 1, 2, 3, 4, 5, 6, 7, 8, 9, 10, 11, 12, 13, 14, 15, 16, 17]]
    nGauss := 2
    firstIp := 0
    threadGroups := [[0], [1]]
    myElms := []
    firstBp := []
    gEl := 2
    gNod := 18 }

/-! ## Queries on the bases -/

/-- The function `ASMu2Dmx::getNoFields` (lines 114-123).  The result type is
`unsigned char`, so the `int` sum of `std::accumulate` is reduced modulo 256; the
entries of `nfx` are `unsigned char` values themselves.  Undefined when `nfx`
has no entry `basis-1`. -/
def getNoFields (p : ASMu2Dmx) (basis : Int) : Option Nat :=
  let basis0 : Int := if basis > (p.m_basis.length : Int) ∨ basis < 0 then 0 else basis
  if basis0 = 0 then some (p.nfx.sum % 256)
  else p.nfx[(basis0 - 1).toNat]?

/-- Lines 145-147 of `getNodeType`: the loop over the bases after the first, with
the 0-based index `i` and the running count `nbc`; the value `'O'+i` is
converted to `char`. -/
def nodeTypeLoop (inod : Nat) : List Nat → Nat → Nat → Char
  | [], _, _ => 'X'
  | n :: rest, i, nbc =>
    if inod ≤ nbc + n then Char.ofNat (('O'.toNat + i) % 256)
    else nodeTypeLoop inod rest (i + 1) (nbc + n)

/-- The function `ASMu2Dmx::getNodeType` (lines 138-150).  `isLMn` is the query
`ASMbase::isLMn` for Lagrange multiplier nodes; `nb.front()` is undefined for
an empty `nb`. -/
def getNodeType (isLMn : Nat → Bool) (p : ASMu2Dmx) (inod : Nat) : Option Char :=
  if isLMn inod then some 'L'
  else
    match p.nb with
    | [] => none
    | nbc :: rest => if inod ≤ nbc then some 'D' else some (nodeTypeLoop inod rest 1 nbc)

/-- Basis without functions and without elements. -/
def emptyBasis : LRSplineSurface :=
  { nBasisFunctions := 0
    elements := []
    getElementContaining := fun _ => -1
    order0 := 0
    startparam := (0, 0)
    endparam := (0, 0)
    meshlines := []
    attached := [] }

/-- A patch whose second basis, the geometry basis, is empty. -/
def emptyBasisPatch : ASMu2Dmx :=
  { samplePatch with heap := [unitBasis 9 3, emptyBasis] }

/-! ## Thread groups -/

/-- The function `ASMu2Dmx::getBasis` (lines 61-76): the pointer to the basis with
the given 1-based index, null outside `1 .. m_basis.size()`. -/
def getBasis (p : ASMu2Dmx) (basis : Int) : Option Nat :=
  if basis < 1 ∨ basis > (p.m_basis.length : Int) then none
  else p.m_basis[(basis - 1).toNat]?

/-- Lines 1069-1073 of `generateThreadGroups`: the loop over `i = 1 .. m_basis.size()`
with the loop variables `threadBasis` and `p1`; the first argument lists the
remaining values of `i`.  Undefined when the pointer of a basis is dangling. -/
def threadBasisLoop (p : ASMu2Dmx) : List Nat → Option Nat → Int → Option (Option Nat × Int)
  | [], tb, p1 => some (tb, p1)
  | i :: is, tb, p1 =>
    match (getBasis p (i : Int)).bind (fun a => p.heap[a]?) with
    | none => none
    | some b =>
      if b.order0 > p1 then threadBasisLoop p is (getBasis p (i : Int)) b.order0
      else threadBasisLoop p is tb p1

/-- Lines 1065-1073: the choice of the scheduling basis `threadBasis`. -/
def selectThreadBasis (p : ASMu2Dmx) : Option (Option Nat) :=
  if p.Type_ = MixedType.DIV_COMPATIBLE then some (getBasis p 3)
  else (threadBasisLoop p (List.range' 1 p.m_basis.length) p.threadBasis 0).map (fun r => r.1)

/-- Lines 1075-1082: the secondary constraint bases `secConstraint`. -/
def secConstraint (p : ASMu2Dmx) : List (Option Nat) :=
  let s1 : List (Option Nat) :=
    if p.Type_ = MixedType.SUBGRID ∨ p.Type_ = MixedType.REDUCED_CONT_RAISE_BASIS1 then
      [getBasis p 2]
    else []
  let s2 : List (Option Nat) :=
    if p.Type_ = MixedType.REDUCED_CONT_RAISE_BASIS2 then [getBasis p 1] else s1
  if p.Type_ = MixedType.DIV_COMPATIBLE then [getBasis p 1, getBasis p 2] else s2

/-- Objects behind a list of pointers that may be null. -/
def derefPtrs (h : Heap) : List (Option Nat) → Option (List LRSplineSurface)
  | [] => some []
  | o :: os =>
    match o.bind (fun a => h[a]?), derefPtrs h os with
    | some b, some bs => some (b :: bs)
    | _, _ => none

/-- The colouring routine of the LR spline utilities,
`LR::generateThreadGroups(groups, basis, constraints)`, as the colour groups
`groups[0]` that it computes for a basis and its secondary constraint bases. -/
structure ThreadLib where
  generateThreadGroups : LRSplineSurface → List LRSplineSurface → List (List Nat)

/-- The function `ASMu2Dmx::generateThreadGroups` (lines 1062-1104): the patch with
the new `threadBasis` and `threadGroups`, and the groups `projThreadGroups[0]`
of the projection basis.  The calls of `checkThreadGroups` and
`analyzeThreadGroups` that follow unless `silence` is set only print
diagnostics.  The library dereferences the pointers it is given, so the call is
undefined when one of them is null. -/
def generateThreadGroups (L : ThreadLib) (p : ASMu2Dmx) : Option (ASMu2Dmx × List (List Nat)) :=
  match selectThreadBasis p with
  | none => none
  | some tb =>
    match tb.bind (fun a => p.heap[a]?), derefPtrs p.heap (secConstraint p),
        p.projBasis.bind (fun a => p.heap[a]?) with
    | some tbb, some sec, some pb =>
      some ({ p with threadBasis := tb, threadGroups := L.generateThreadGroups tbb sec },
            L.generateThreadGroups pb [])
    | _, _, _ => none

/-- What the loop of lines 1069-1073 has established after the first `s` bases:
`p1` bounds their orders, and once `p1` is positive `threadBasis` points to the
first of them whose order is `p1`. -/
def ThreadInv (p : ASMu2Dmx) (bases : List LRSplineSurface) (s : Nat) (tb : Option Nat)
    (p1 : Int) : Prop :=
  0 ≤ p1 ∧ (∀ (k : Nat) (b : LRSplineSurface), k < s → bases[k]? = some b → b.order0 ≤ p1) ∧
  (0 < p1 → ∃ (k a : Nat) (b : LRSplineSurface), k < s ∧ p.m_basis[k]? = some a ∧
    bases[k]? = some b ∧ tb = some a ∧ b.order0 = p1 ∧
    ∀ (k' : Nat) (b' : LRSplineSurface), k' < k → bases[k']? = some b' → b'.order0 < p1)

/-! ## Transfer between the global vector and the nodal vector of a basis -/

/-- The vector `g` with the entries from position `ofs` on overwritten by `v`. -/
def writeBlock (g : List ℚ) (ofs : Nat) (v : List ℚ) : List ℚ :=
  g.take ofs ++ v ++ g.drop (ofs + v.length)

/-- Modelled from the spec: the body of `ASMmxBase::extractNodeVecMx` is not among
the sources, `ASMmxBase.h` only declares it ("extracts nodal results for this
patch from the global vector", the global vector being "in DOF-order", for the
basis `basis`).  By section 3 the nodes of the bases are numbered one basis
after the other at offset-accumulated positions, and by P6 the transfer is "a
pure copy" of the sub-vector of basis `j` at its offset: the block of basis `j`
starts at the sum of `nfx[k]*nb[k]` over the preceding bases and has
`nfx[j]*nb[j]` entries.  The default `basis = 0` takes the blocks of all bases. -/
def extractNodeVecMx (p : ASMu2Dmx) (globVec : List ℚ) (basis : Int) : List ℚ :=
  if 1 ≤ basis ∧ basis ≤ (p.nb.length : Int) then
    (globVec.drop (dofLength p.nfx p.nb (basis - 1).toNat)).take
      (p.nfx.getD (basis - 1).toNat 0 * p.nb.getD (basis - 1).toNat 0)
  else globVec.take (dofLength p.nfx p.nb p.nb.length)

/-- Modelled from the spec: the body of `ASMmxBase::injectNodeVecMx` is not among
the sources, `ASMmxBase.h` only declares it ("injects nodal results for this
patch into a global vector").  By P6 it is the copy in the other direction, of
the nodal vector into the block of basis `basis` of the global vector "at the
same offset". -/
def injectNodeVecMx (p : ASMu2Dmx) (globVec nodeVec : List ℚ) (basis : Int) : List ℚ :=
  if 1 ≤ basis ∧ basis ≤ (p.nb.length : Int) then
    writeBlock globVec (dofLength p.nfx p.nb (basis - 1).toNat)
      (nodeVec.take (p.nfx.getD (basis - 1).toNat 0 * p.nb.getD (basis - 1).toNat 0))
  else writeBlock globVec 0 (nodeVec.take (dofLength p.nfx p.nb p.nb.length))

/-- The function `ASMu2Dmx::extractNodeVec` (lines 159-163): the vector `nodeVec`
it fills; the third argument is not used. -/
def extractNodeVec (p : ASMu2Dmx) (globRes : List ℚ) (_nndof : Nat) (basis : Int) : List ℚ :=
  extractNodeVecMx p globRes basis

/-- The function `ASMu2Dmx::injectNodeVec` (lines 166-171): the returned flag and
the vector `globRes` after the call; the third argument is not used. -/
def injectNodeVec (p : ASMu2Dmx) (nodeRes globRes : List ℚ) (_nndof : Nat) (basis : Int) :
    Bool × List ℚ :=
  (true, injectNodeVecMx p globRes nodeRes basis)

/-- A patch with three bases of orders 2, 2, 1, all on one element. -/
def threeBasisPatch : ASMu2Dmx :=
  { samplePatchGenerated with
    heap := [unitBasis 6 2, unitBasis 6 2, unitBasis 4 1]
    m_basis := [0, 1, 2]
    Type_ := MixedType.DIV_COMPATIBLE
    geoBasis := 3
    nfx := [1, 1, 1]
    nb := [6, 6, 4] }

/-! ## Recording the arguments of the integrand calls -/

/-- State of the collaborators together with the arguments with which `evalIntMx`
and `evalBouMx` have been called so far, oldest first: the finite element
object, and for `evalBouMx` the normal vector. -/
structure Traced (σ : Type) where
  col : σ
  interior : List FiniteElement
  boundary : List (FiniteElement × (ℚ × ℚ × ℚ))

/-- The collaborators `C`, instrumented: every answer and every change of state is
that of `C`, and the calls of `evalIntMx` and `evalBouMx` record their arguments. -/
def Collab.traced {σ : Type} (C : Collab σ) : Collab (Traced σ) :=
  { use2ndDer := C.use2ndDer
    elementCorners := C.elementCorners
    gMatrix := C.gMatrix
    threadSafe := C.threadSafe
    getBouIntegrationPoints := C.getBouIntegrationPoints
    setNeumannOrder := fun s n => { s with col := C.setNeumannOrder s.col n }
    getLocalIntegral := fun s sizes iel bou => { s with col := C.getLocalIntegral s.col sizes iel bou }
    destruct := fun s a => { s with col := C.destruct s.col a }
    initElement := fun s mnpc sizes nb =>
      ((C.initElement s.col mnpc sizes nb).1, { s with col := (C.initElement s.col mnpc sizes nb).2 })
    initElementBou := fun s mnpc sizes nb =>
      ((C.initElementBou s.col mnpc sizes nb).1,
        { s with col := (C.initElementBou s.col mnpc sizes nb).2 })
    evalIntMx := fun s fe =>
      ((C.evalIntMx s.col fe).1,
        { s with col := (C.evalIntMx s.col fe).2, interior := s.interior ++ [fe] })
    evalBouMx := fun s fe normal =>
      ((C.evalBouMx s.col fe normal).1,
        { s with col := (C.evalBouMx s.col fe normal).2, boundary := s.boundary ++ [(fe, normal)] })
    finalizeElement := fun s ip =>
      ((C.finalizeElement s.col ip).1, { s with col := (C.finalizeElement s.col ip).2 })
    finalizeElementBou := fun s fe =>
      ((C.finalizeElementBou s.col fe).1, { s with col := (C.finalizeElementBou s.col fe).2 })
    assemble := fun s iel =>
      ((C.assemble s.col iel).1, { s with col := (C.assemble s.col iel).2 }) }

/-- The finite element object `fe` was handed to `evalIntMx` with the weight of a
non-singular Gauss point `(i,j)` of a geometry element `geoEl`: the determinant
of the Jacobian at the point times a quarter of the parametric area of the
element times the two Gauss weights. -/
def InteriorWeight (G : Geometry) (p : ASMu2Dmx) (xg wg : List ℚ) (fe : FiniteElement) : Prop :=
  ∃ (geoEl i j : Nat), i < p.nGauss ∧ j < p.nGauss ∧
    fe.u = (G.getGaussPointParameters 0 p.nGauss geoEl xg).getD i 0 ∧
    fe.v = (G.getGaussPointParameters 1 p.nGauss geoEl xg).getD j 0 ∧
    G.Jacobian geoEl fe.u fe.v ≠ 0 ∧
    fe.detJxW = G.Jacobian geoEl fe.u fe.v * 0.25 * G.getParametricArea geoEl
      * wg.getD i 0 * wg.getD j 0

/-- The normal `n` was handed to `evalBouMx` together with `fe` at a non-singular
point of a geometry element `geoEl` on an edge with direction code `edgeDir`:
it is the normal that the Jacobian computation returns at the point of `fe`,
negated when the code is negative. -/
def BoundaryNormal (G : Geometry) (edgeDir : Int) (fe : FiniteElement) (n : ℚ × ℚ × ℚ) : Prop :=
  ∃ geoEl : Nat,
    (G.JacobianBou geoEl (Int.natAbs edgeDir) (3 - Int.natAbs edgeDir) fe.u fe.v).1 ≠ 0 ∧
    n = if edgeDir < 0 then
          (-(G.JacobianBou geoEl (Int.natAbs edgeDir) (3 - Int.natAbs edgeDir) fe.u fe.v).2.1,
           -(G.JacobianBou geoEl (Int.natAbs edgeDir) (3 - Int.natAbs edgeDir) fe.u fe.v).2.2.1,
           -(G.JacobianBou geoEl (Int.natAbs edgeDir) (3 - Int.natAbs edgeDir) fe.u fe.v).2.2.2)
        else (G.JacobianBou geoEl (Int.natAbs edgeDir) (3 - Int.natAbs edgeDir) fe.u fe.v).2

/-- The run `sampleRun` with instrumented collaborators that have recorded no call yet. -/
def tracedSampleRun : Run (Traced Unit) :=
  { ok := true, col := { col := (), interior := [], boundary := [] },
    log := [Event.getLocalIntegral 0 1, Event.initElement 0 true], nA := 1 }

/-! ## Statement vocabulary for the propagation of mesh lines -/

/-- One insertion of a mesh line into a basis with a given multiplicity, the way
`copyRefinement` issues it: a line that spans the u direction is inserted as a
constant-v edge, any other line as a constant-u edge, with the constant
parameter, start and stop of the line. -/
def insertLine (K : External) (basis : LRSplineSurface) (line : Meshline) (mult : Int) :
    LRSplineSurface :=
  if line.span_u_line_ then
    K.insert_const_v_edge basis line.const_par_ line.start_ line.stop_ mult
  else K.insert_const_u_edge basis line.const_par_ line.start_ line.stop_ mult

/-- Library operations that keep track of the mesh lines: `doRefine` succeeds and
adds the line `u = 1/2` with multiplicity 1 to the basis, and an insertion adds
the inserted line, with the multiplicity of the insertion, to the mesh lines of
the target basis. -/
def tracingExternal : External :=
  { sampleExternal with
    doRefine := fun _ b =>
      (true, { b with nBasisFunctions := b.nBasisFunctions + 1
                      meshlines := b.meshlines ++
                        [{ multiplicity_ := 1, span_u_line_ := false, const_par_ := 1 / 2,
                           start_ := 0, stop_ := 1 }] })
    insert_const_u_edge := fun b c s e m =>
      { b with nBasisFunctions := b.nBasisFunctions + 1
               meshlines := b.meshlines ++
                 [{ multiplicity_ := m, span_u_line_ := false, const_par_ := c,
                    start_ := s, stop_ := e }] }
    insert_const_v_edge := fun b c s e m =>
      { b with nBasisFunctions := b.nBasisFunctions + 1
               meshlines := b.meshlines ++
                 [{ multiplicity_ := m, span_u_line_ := true, const_par_ := c,
                    start_ := s, stop_ := e }] } }

/-! ## Evaluation of the primary solution field -/

/-- Basis evaluation of the LR spline library: `basisValues b u v iel` are the
values `splinex.basisValues` that `b.computeBasis(u,v,splinex,iel)` returns, one
per function with support on element `iel`, in the order of `support()`. -/
structure SplineEval where
  basisValues : LRSplineSurface → ℚ → ℚ → Int → List ℚ

/-- The matrix `sField` of `evalSolution`: its dimensions as set by `resize`, and
for every point the vector handed to `fillColumn`, which copies it into the
column of the point. -/
structure SolutionField where
  nrow : Nat
  ncol : Nat
  columns : List (List ℚ)

/-- Lines 841-845 of `evalSolution`: the component counts `nc`, as many as `nfx`
has entries.  Writing `nc[0]` is undefined when `nfx` is empty. -/
def componentCounts (p : ASMu2Dmx) (nf : Nat) : Option (List Nat) :=
  if nf ≠ 0 then
    match p.nfx with
    | [] => none
    | _ :: rest => some (nf :: List.replicate rest.length 0)
  else some p.nfx

/-- Lines 868-869: the loop over `n` for one function with id `b`, which reads
`locSol(b*nc[j]+n+ofs)` (1-based) into column `col` of `val1`; the argument
lists the remaining values of `n`.  Undefined when `locSol` is too short. -/
def gatherColumn (locSol : List ℚ) (ncj ofs b : Nat) : List Nat → Option (List ℚ)
  | [] => some []
  | n :: ns =>
    match locSol[b * ncj + n + ofs - 1]?, gatherColumn locSol ncj ofs b ns with
    | some x, some xs => some (x :: xs)
    | _, _ => none

/-- Lines 866-871: the loop over the support of the element with the column counter
`col`, giving the columns of `val1` that it fills.  `val1` has `ncols` columns,
the number of basis values; writing a column beyond that is undefined. -/
def gatherSupport (locSol : List ℚ) (ncj ofs ncols : Nat) :
    List Nat → Nat → Option (List (List ℚ))
  | [], _ => some []
  | b :: bs, col =>
    if col > ncols then none
    else
      match gatherColumn locSol ncj ofs b (List.range' 1 ncj),
          gatherSupport locSol ncj ofs ncols bs (col + 1) with
      | some c, some cs => some (c :: cs)
      | _, _ => none

/-- Line 873, `val1.multiply(basisValues, Ytmp)`: the product of the matrix with
`nrow` rows, given by the columns that were filled (the other columns are zero),
and the vector of basis values. -/
def multiply (nrow : Nat) (cols : List (List ℚ)) (values : List ℚ) : List ℚ :=
  (List.range nrow).map (fun n => ((cols.zip values).map (fun cv => cv.1.getD n 0 * cv.2)).sum)

/-- Lines 853-876: the loop over the bases at one point `(u,v)`, with the basis
index `j`, the offset `ofs` and the vector `Ztmp`. -/
def evalBases (E : SplineEval) (p : ASMu2Dmx) (locSol : List ℚ) (nc : List Nat) (u v : ℚ) :
    List Nat → Nat → Nat → List ℚ → Option (List ℚ)
  | [], _, _, Ztmp => some Ztmp
  | a :: as, j, ofs, Ztmp =>
    match nc[j]? with
    | none => none
    | some ncj =>
      if ncj = 0 then evalBases E p locSol nc u v as (j + 1) ofs Ztmp
      else
        match p.heap[a]? with
        | none => none
        | some it =>
          match it.getElement (it.getElementContaining (u, v)) with
          | none => none
          | some el =>
            match gatherSupport locSol ncj ofs
                (E.basisValues it u v (it.getElementContaining (u, v))).length el.support 1,
              p.nb[j]? with
            | some cols, some nbj =>
              evalBases E p locSol nc u v as (j + 1) (ofs + nbj * ncj)
                (Ztmp ++ multiply ncj cols
                  (E.basisValues it u v (it.getElementContaining (u, v))))
            | _, _ => none

/-- Lines 849-879: the loop over the points; the result lists the vectors `Ztmp`
handed to `fillColumn`. -/
def evalPoints (E : SplineEval) (p : ASMu2Dmx) (locSol : List ℚ) (nc : List Nat) :
    List (ℚ × ℚ) → Option (List (List ℚ))
  | [] => some []
  | pt :: pts =>
    match evalBases E p locSol nc pt.1 pt.2 p.m_basis 0 0 [], evalPoints E p locSol nc pts with
    | some z, some zs => some (z :: zs)
    | _, _ => none

/-- The function `ASMu2Dmx::evalSolution(Matrix&, const Vector&, const RealArray*,
bool, int, int)` (lines 827-882), evaluation of the primary solution: the
returned flag and `sField` after the call.  The arguments `regular` and `deriv`
are not used by the source; `nf` is an `int` there, of which the embedding
covers the non-negative values. -/
def evalSolution (E : SplineEval) (p : ASMu2Dmx) (sField : SolutionField) (locSol : List ℚ)
    (gpar0 gpar1 : List ℚ) (_regular : Bool) (_deriv : Int) (nf : Nat) :
    Option (Bool × SolutionField) :=
  if gpar0.length ≠ gpar1.length then some (false, sField)
  else
    match componentCounts p nf with
    | none => none
    | some nc =>
      match evalPoints E p locSol nc (gpar0.zip gpar1) with
      | none => none
      | some cols => some (true, { nrow := nc.sum, ncol := gpar0.length, columns := cols })

/-! ## Statement vocabulary for the primary solution -/

/-- Value of component `n` (1-based) of a basis with `ncj` components and offset
`ofs` at a point: the sum over the functions `b` of the support, paired with
their basis values `N`, of `locSol(b*ncj + n + ofs) * N`, with the 1-based
indexing of `locSol`. -/
def componentValue (locSol : List ℚ) (ncj ofs n : Nat) (support : List Nat) (values : List ℚ) :
    ℚ :=
  ((support.zip values).map (fun bN => locSol.getD (bN.1 * ncj + n + ofs - 1) 0 * bN.2)).sum

/-- Sum of `nb[k]*nc[k]` over the bases before basis `j` (0-based). -/
def evalOffset (nb nc : List Nat) (j : Nat) : Nat :=
  ((List.range j).map (fun k => nb.getD k 0 * nc.getD k 0)).sum

/-- The column of a point `(u,v)` as the claim describes it: for every basis from
index `j` on in order, skipping those with no component, the values of its
components `1 .. nc[j]`. -/
def expectedColumn (E : SplineEval) (locSol : List ℚ) (nc nb : List Nat) (u v : ℚ) :
    List LRSplineSurface → Nat → List ℚ
  | [], _ => []
  | it :: rest, j =>
    (List.range (nc.getD j 0)).map (fun n =>
      componentValue locSol (nc.getD j 0) (evalOffset nb nc j) (n + 1) (supportOf it (u, v))
        (E.basisValues it u v (it.getElementContaining (u, v))))
    ++ expectedColumn E locSol nc nb u v rest (j + 1)

/-- What the evaluation of the primary solution reads is in range: `nfx` and `nb`
have an entry for every basis, the pointers of the bases are valid, and at every
point every basis with components has an element that contains the point, at
least as many basis values as the element has functions, and `locSol` covers
the coefficients of these functions. -/
def EvalReady (E : SplineEval) (p : ASMu2Dmx) (locSol : List ℚ) (nc : List Nat)
    (pts : List (ℚ × ℚ)) : Prop :=
  p.m_basis.length ≤ nc.length ∧ p.m_basis.length ≤ p.nb.length ∧
  ∃ bases, p.bases = some bases ∧
    ∀ pt ∈ pts, ∀ (j : Nat) (it : LRSplineSurface), bases[j]? = some it → nc.getD j 0 ≠ 0 →
      ∃ el, it.elementAt pt = some el ∧
        el.support.length ≤ (E.basisValues it pt.1 pt.2 (it.getElementContaining pt)).length ∧
        ∀ b ∈ el.support, b * nc.getD j 0 + nc.getD j 0 + evalOffset p.nb nc j ≤ locSol.length

/-- Basis values for the sample patch: every function has the value 1/2. -/
def sampleEval : SplineEval :=
  { basisValues := fun b _ _ _ => List.replicate b.nBasisFunctions (1 / 2) }

/-- A solution vector for the sample patch: the 22 coefficients 0, 1, ..., 21. -/
def sampleSolution : List ℚ :=
  [0, 1, 2, 3, 4, 5, 6, 7, 8, 9, 10, 11, 12, 13, 14, 15, 16, 17, 18, 19, 20, 21]

/-! ## Interface integration -/

/-- The interface checker (`ASMu2D::InterfaceChecker`) and the parts of the
integrand that only interface integration uses.  `interfaceTerms` is the bit
`INTERFACE_TERMS` of `getIntegrandType()`; `hasContribution iel` is the status
of element `iel`, a bit mask over its four edges; `getIntersections iel iedge`
are the parameter values reported for an edge; `appendNeighbour s a an` is the
state after lines 731-735, where the vectors of the local integral `an` of
the neighbour are copied behind the original vectors of the local integral `a`;
`evalIntMx` is the overload of the integrand with a normal vector. -/
structure InterfaceCollab (σ : Type) where
  interfaceTerms : Bool
  hasContribution : Nat → Int
  getIntersections : Nat → Nat → List ℚ
  appendNeighbour : σ → Nat → Nat → σ
  evalIntMx : σ → FiniteElement → ℚ × ℚ × ℚ → Bool × σ

/-- Calls made by interface integration, with their outcome.  `a` numbers the
local integral objects in the order in which `getLocalIntegral` returns them;
`iel` is the 1-based number of the element of basis 1 for which a call is made;
`subSegment iel iedge k start stop el_neigh` stands for the `k`-th pass (from
0) through the loop over the intersections of edge `iedge` of element `iel`:
the sub-segment of the edge from `start` to `stop`, with the 1-based number of
the neighbour element that its lookup found; `evalIntMx a iedge k g ok` is the
call at point `g` of sub-segment `k` of edge `iedge`. -/
inductive IEvent
  | getElementCoordinates (iel : Nat) (ok : Bool)
  | getLocalIntegral (a : Nat) (iel : Nat)
  | initElement (a : Nat) (ok : Bool)
  | subSegment (iel : Nat) (iedge : Nat) (k : Nat) (start : ℚ) (stop : ℚ) (el_neigh : Nat)
  | evalIntMx (a : Nat) (iedge : Nat) (k : Nat) (g : Nat) (ok : Bool)
  | finalizeElement (a : Nat) (ok : Bool)
  | assemble (a : Nat) (ok : Bool)
  | destruct (a : Nat)
  deriving DecidableEq

/-- State of a run of interface integration; `ok = false` stands for `return false`. -/
structure IRun (σ : Type) where
  ok : Bool
  col : σ
  log : List IEvent
  nA : Nat

/-- Line 688: the offset `epsilon = 1e-8`. -/
def epsilon : ℚ := 1 / 100000000

/-- Line 679: the direction code of edge `iedge`, with the truncating division and
remainder of C++. -/
def edgeCode (iedge : Int) : Int :=
  Int.tdiv (iedge + 1) (if Int.tmod iedge 2 ≠ 0 then -2 else 2)

/-- Data of the hosting element that is fixed during its edge loop. -/
structure IfaceElement where
  iel : Nat
  el1 : Element
  geoEl : Nat
  elem_sizes : List Nat
  a : Nat

/-- Data of a sub-segment that is fixed during its loop over the Gauss points. -/
structure SegmentData where
  geoEl : Nat
  a : Nat
  iedge : Nat
  k : Nat
  epsu : ℚ
  epsv : ℚ
  dS : ℚ
  gpar0 : List ℚ
  gpar1 : List ℚ

/-- Lines 760-802: the body of the loop over the Gauss points of a sub-segment.
The arrays `gpar[0]`, `gpar[1]` were sized by lines 740-753 and are read at
`g`, which is undefined beyond their length.  Of the two calls of
`utl::Jacobian` the second one, for the hosting element, determines `detJxW`
and the normal. -/
def ifacePoint {σ : Type} (G : Geometry) (I : InterfaceCollab σ) (xg wg : List ℚ)
    (d : SegmentData) (g : Nat) (fe : FiniteElement) (s : IRun σ) :
    Option (FiniteElement × IRun σ) :=
  let edgeDir := edgeCode d.iedge
  match d.gpar0[g]?, d.gpar1[g]? with
  | some u, some v =>
    let fe1 : FiniteElement := { fe with xi := xg.getD g 0, eta := xg.getD g 0, u := u, v := v }
    let jn := G.JacobianBou d.geoEl (Int.natAbs edgeDir) (3 - Int.natAbs edgeDir)
      (fe1.u + d.epsu) (fe1.v + d.epsv)
    let fe2 : FiniteElement := { fe1 with detJxW := jn.1 }
    if fe2.detJxW = 0 then some (fe2, s)
    else
      let normal : ℚ × ℚ × ℚ :=
        if edgeDir < 0 then (jn.2.1 * (-1), jn.2.2.1 * (-1), jn.2.2.2 * (-1)) else jn.2
      let fe3 : FiniteElement := { fe2 with detJxW := fe2.detJxW * (0.5 * d.dS * wg.getD g 0) }
      let r := I.evalIntMx s.col fe3 normal
      some (fe3, { s with ok := r.1, col := r.2,
                          log := s.log ++ [IEvent.evalIntMx d.a d.iedge d.k g r.1] })
  | _, _ => none

/-- Line 758: `for (int g = 0; g < nGP; g++, ++fe.iGP)`, left by `return false`
when `evalIntMx` rejects. -/
def ifacePoints {σ : Type} (G : Geometry) (I : InterfaceCollab σ) (xg wg : List ℚ)
    (d : SegmentData) : List Nat → FiniteElement → IRun σ → Option (IRun σ)
  | [], _, s => some s
  | g :: gs, fe, s =>
    match ifacePoint G I xg wg d g fe s with
    | none => none
    | some r =>
      if r.2.ok = false then some r.2
      else ifacePoints G I xg wg d gs { r.1 with iGP := r.1.iGP + 1 } r.2

/-- Lines 740-753: the parameter arrays of a sub-segment, each with `nGauss`
entries.  The loop reads `xg[i]` for `i < nGauss` from the table of the
`nGP`-point rule, which is undefined for `nGP < nGauss`. -/
def segmentGpar (xg : List ℚ) (nGP nGauss iedge : Nat) (u1 v1 u2 v2 : ℚ) :
    Option (List ℚ × List ℚ) :=
  if nGP < nGauss then none
  else if iedge = 1 ∨ iedge = 2 then
    some (List.replicate nGauss u1,
          (List.range nGauss).map (fun i => 0.5 * ((v2 - v1) * xg.getD i 0 + v2 + v1)))
  else
    some ((List.range nGauss).map (fun i => 0.5 * ((u2 - u1) * xg.getD i 0 + u2 + u1)),
          List.replicate nGauss v1)

/-- Loop variables of the loop over the intersections of an edge. -/
structure EdgeState (σ : Type) where
  run : IRun σ
  u1 : ℚ
  v1 : ℚ
  u2 : ℚ
  v2 : ℚ

/-- The neighbour of a sub-segment: the numbers of lines 710-721. -/
structure Neighbour where
  el_neigh : Nat
  geoEl2 : Nat
  elem_sizes2 : List Nat
  mnpc2 : List Nat

/-- Lines 701-721: the lookup of the neighbour element of basis 1 through the
point `parval`, the elements of the other bases that contain its midpoint, and
the connectivity row of the geometry element among them. -/
def locateNeighbour (p : ASMu2Dmx) (bases : List LRSplineSurface) (parval : ℚ × ℚ) :
    Option Neighbour :=
  match bases with
  | [] => none
  | b0 :: rest =>
    match b0.elementAt parval with
    | none => none
    | some el2 =>
      match correspond el2.midpoint rest with
      | none => none
      | some c =>
        if p.geoBasis = 0 then none
        else
          match (((b0.getElementContaining parval).toNat + 1) :: c.1)[p.geoBasis - 1]? with
          | none => none
          | some geoEl2 =>
            match p.myMNPC[geoEl2 - 1]? with
            | none => none
            | some mnpc2 =>
              some { el_neigh := (b0.getElementContaining parval).toNat + 1, geoEl2 := geoEl2,
                     elem_sizes2 := el2.nBasisFunctions :: c.2, mnpc2 := mnpc2 }

/-- Lines 720-808: the body of the loop over the intersections after the lookup of
the neighbour `nb2`, for the `k`-th reported value `x`: the local integral of
the neighbour, the parameter arrays of the sub-segment from `(u1,v1)` to
`(u2,v2)`, the loop over its Gauss points, and the move of the start to `x`. -/
def integrateSegment {σ : Type} (G : Geometry) (C : Collab σ) (I : InterfaceCollab σ)
    (p : ASMu2Dmx) (xg wg : List ℚ) (nGP : Nat) (e : IfaceElement) (iedge k : Nat) (x : ℚ)
    (epsu epsv : ℚ) (nb2 : Neighbour) (st : EdgeState σ) : Option (EdgeState σ) :=
  let s := st.run
  let v2 := if iedge = 1 ∨ iedge = 2 then x else st.v2
  let u2 := if iedge = 1 ∨ iedge = 2 then st.u2 else x
  let aN := s.nA
  let r := C.initElement (C.getLocalIntegral s.col nb2.elem_sizes2 nb2.el_neigh false)
    nb2.mnpc2 nb2.elem_sizes2 p.nb
  let col1 := C.destruct (I.appendNeighbour r.2 e.a aN) aN
  let dS := if iedge = 1 ∨ iedge = 2 then v2 - st.v1 else u2 - st.u1
  let log1 := s.log ++
    [IEvent.subSegment e.iel iedge k (if iedge = 1 ∨ iedge = 2 then st.v1 else st.u1) x
       nb2.el_neigh,
     IEvent.getLocalIntegral aN nb2.el_neigh, IEvent.initElement aN r.1, IEvent.destruct aN]
  match segmentGpar xg nGP p.nGauss iedge st.u1 st.v1 u2 v2 with
  | none => none
  | some gpar =>
    if G.getElementCoordinates nb2.geoEl2 = false then
      some { run := { ok := false, col := col1, nA := s.nA + 1,
                      log := log1 ++ [IEvent.getElementCoordinates nb2.el_neigh false] },
             u1 := st.u1, v1 := st.v1, u2 := u2, v2 := v2 }
    else
      match ifacePoints G I xg wg
          { geoEl := e.geoEl, a := e.a, iedge := iedge, k := k, epsu := epsu, epsv := epsv,
            dS := dS, gpar0 := gpar.1, gpar1 := gpar.2 }
          (List.range nGP) (G.MxFiniteElement (e.elem_sizes ++ nb2.elem_sizes2) 0)
          { ok := true, col := col1, nA := s.nA + 1,
            log := log1 ++ [IEvent.getElementCoordinates nb2.el_neigh true] } with
      | none => none
      | some s2 =>
        some { run := s2,
               u1 := if iedge = 1 ∨ iedge = 2 then st.u1 else u2,
               v1 := if iedge = 1 ∨ iedge = 2 then v2 else st.v1,
               u2 := u2, v2 := v2 }

/-- Lines 700-809: the loop over the values reported for an edge, with the pass
counter `k`. -/
def ifaceSegments {σ : Type} (G : Geometry) (C : Collab σ) (I : InterfaceCollab σ)
    (p : ASMu2Dmx) (xg wg : List ℚ) (nGP : Nat) (bases : List LRSplineSurface)
    (e : IfaceElement) (iedge : Nat) (epsu epsv : ℚ) :
    List ℚ → Nat → EdgeState σ → Option (EdgeState σ)
  | [], _, st => some st
  | x :: xs, k, st =>
    match locateNeighbour p bases (st.u1 - epsu, st.v1 - epsv) with
    | none => none
    | some nb2 =>
      match integrateSegment G C I p xg wg nGP e iedge k x epsu epsv nb2 st with
      | none => none
      | some st1 =>
        if st1.run.ok = false then some st1
        else ifaceSegments G C I p xg wg nGP bases e iedge epsu epsv xs (k + 1) st1

/-- Lines 679-809: the body of the edge loop for a flagged edge `iedge`. -/
def ifaceEdge {σ : Type} (G : Geometry) (C : Collab σ) (I : InterfaceCollab σ)
    (p : ASMu2Dmx) (xg wg : List ℚ) (nGP : Nat) (bases : List LRSplineSurface)
    (e : IfaceElement) (iedge : Nat) (s : IRun σ) : Option (IRun σ) :=
  let u1 := if iedge ≠ 2 then e.el1.umin else e.el1.umax
  let v1 := if iedge < 4 then e.el1.vmin else e.el1.vmax
  let epsu : ℚ := if iedge = 1 then epsilon else if iedge = 2 then -epsilon else 0
  let epsv : ℚ := if iedge = 3 then epsilon else if iedge = 4 then -epsilon else 0
  (ifaceSegments G C I p xg wg nGP bases e iedge epsu epsv (I.getIntersections e.iel iedge) 0
    { run := s, u1 := u1, v1 := v1, u2 := u1, v2 := v1 }).map (fun st => st.run)

/-- Lines 676-811: `for (iedge = 4; iedge > 0 && status > 0; iedge--, bit /= 2)`
over the remaining pairs of `iedge` and `bit`; for a positive status and a
power of two `bit`, `status & bit` is non-zero exactly when the quotient of the
status by `bit` is odd. -/
def ifaceEdges {σ : Type} (G : Geometry) (C : Collab σ) (I : InterfaceCollab σ)
    (p : ASMu2Dmx) (xg wg : List ℚ) (nGP : Nat) (bases : List LRSplineSurface)
    (e : IfaceElement) (status : Int) : List (Nat × Nat) → IRun σ → Option (IRun σ)
  | [], s => some s
  | eb :: rest, s =>
    if ¬ status > 0 then some s
    else if (status.toNat / eb.2) % 2 = 1 then
      match ifaceEdge G C I p xg wg nGP bases e eb.1 s with
      | none => none
      | some s1 =>
        if s1.ok = false then some s1
        else ifaceEdges G C I p xg wg nGP bases e status rest s1
    else ifaceEdges G C I p xg wg nGP bases e status rest s

/-- Lines 812-820: `finalizeElement`, `assemble` and the release of the local
integral of the hosting element. -/
def ifaceFinish {σ : Type} (C : Collab σ) (e : IfaceElement) (s2 : IRun σ) : IRun σ :=
  let f := C.finalizeElement s2.col 0
  if f.1 = false then
    { s2 with ok := false, col := f.2, log := s2.log ++ [IEvent.finalizeElement e.a false] }
  else
    let m := C.assemble f.2 e.geoEl
    if m.1 = false then
      { s2 with ok := false, col := m.2,
                log := s2.log ++ [IEvent.finalizeElement e.a true, IEvent.assemble e.a false] }
    else
      { s2 with col := C.destruct m.2 e.a,
                log := s2.log ++ [IEvent.finalizeElement e.a true, IEvent.assemble e.a true,
                                  IEvent.destruct e.a] }

/-- Lines 659-820: the body of the element loop of interface integration for an
element with a contribution that is in the partition. -/
def ifaceElement {σ : Type} (G : Geometry) (C : Collab σ) (I : InterfaceCollab σ)
    (p : ASMu2Dmx) (xg wg : List ℚ) (nGP : Nat) (bases : List LRSplineSurface)
    (el1 : Element) (iel : Nat) (status : Int) (s : IRun σ) : Option (IRun σ) :=
  match correspond el1.midpoint bases.tail with
  | none => none
  | some c =>
    if p.geoBasis = 0 then none
    else
      match (iel :: c.1)[p.geoBasis - 1]? with
      | none => none
      | some geoEl =>
        if G.getElementCoordinates geoEl = false then
          some { s with ok := false, log := s.log ++ [IEvent.getElementCoordinates iel false] }
        else
          match p.myMNPC[geoEl - 1]? with
          | none => none
          | some mnpc =>
            let sizes := el1.nBasisFunctions :: c.2
            let r := C.initElement (C.getLocalIntegral s.col sizes iel false) mnpc sizes p.nb
            let e : IfaceElement :=
              { iel := iel, el1 := el1, geoEl := geoEl, elem_sizes := sizes, a := s.nA }
            match ifaceEdges G C I p xg wg nGP bases e status [(4, 8), (3, 4), (2, 2), (1, 1)]
                { ok := true, col := r.2, nA := s.nA + 1,
                  log := s.log ++ [IEvent.getElementCoordinates iel true,
                                   IEvent.getLocalIntegral s.nA iel,
                                   IEvent.initElement s.nA r.1] } with
            | none => none
            | some s2 => if s2.ok = false then some s2 else some (ifaceFinish C e s2)

/-- Lines 649-821: the loop over the elements of basis 1 with the iterator `el1`
(the remaining elements) and the 1-based counter `iel`.  An element outside the
partition advances both once more before `continue`; when this moves the
iterator to the end, the increment of the loop steps past the end, which is
undefined. -/
def ifaceElements {σ : Type} (G : Geometry) (C : Collab σ) (I : InterfaceCollab σ)
    (p : ASMu2Dmx) (xg wg : List ℚ) (nGP : Nat) (bases : List LRSplineSurface) :
    List Element → Nat → IRun σ → Option (IRun σ)
  | [], _, s => some s
  | [el1], iel, s =>
    if I.hasContribution iel = 0 then some s
    else if p.myElms ≠ [] ∧ C.threadSafe = false ∧ (iel - 1) ∉ p.myElms then none
    else ifaceElement G C I p xg wg nGP bases el1 iel (I.hasContribution iel) s
  | el1 :: el2 :: rest, iel, s =>
    if I.hasContribution iel = 0 then
      ifaceElements G C I p xg wg nGP bases (el2 :: rest) (iel + 1) s
    else if p.myElms ≠ [] ∧ C.threadSafe = false ∧ (iel - 1) ∉ p.myElms then
      ifaceElements G C I p xg wg nGP bases rest (iel + 1 + 1) s
    else
      match ifaceElement G C I p xg wg nGP bases el1 iel (I.hasContribution iel) s with
      | none => none
      | some s1 =>
        if s1.ok = false then some s1
        else ifaceElements G C I p xg wg nGP bases (el2 :: rest) (iel + 1) s1

/-- The function `ASMu2Dmx::integrate(Integrand&, GlobalIntegral&, const
TimeDomain&, const ASM::InterfaceChecker&)` (lines 626-824), interface
integration; the returned flag is `ok` of the final state. -/
def integrateInterface {σ : Type} (G : Geometry) (C : Collab σ) (I : InterfaceCollab σ)
    (p : ASMu2Dmx) (s0 : σ) : Option (IRun σ) :=
  let start : IRun σ := { ok := true, col := s0, log := [], nA := 0 }
  if p.geo = none then some start
  else if I.interfaceTerms = false then some start
  else
    match G.getCoord (C.getBouIntegrationPoints p.nGauss),
        G.getWeight (C.getBouIntegrationPoints p.nGauss) with
    | some xg, some wg =>
      match p.bases with
      | none => none
      | some bases =>
        match bases with
        | [] => none
        | b0 :: _ =>
          ifaceElements G C I p xg wg (C.getBouIntegrationPoints p.nGauss) bases b0.elements 1
            start
    | _, _ => some { start with ok := false }

/-! ## Sample configuration for interface integration -/

/-- Basis with three elements: the unit square, and to its right two elements one
above the other, so that the edge `u = 1` of the first element meets a
neighbour with one extra subdivision at `v = 1/2`.  Each element carries all
`n` functions. -/
def threeElementBasis (n : Nat) (p : Int) : LRSplineSurface :=
  { nBasisFunctions := n
    elements := [{ umin := 0, umax := 1, vmin := 0, vmax := 1, support := List.range n },
                 { umin := 1, umax := 2, vmin := 0, vmax := 1 / 2, support := List.range n },
                 { umin := 1, umax := 2, vmin := 1 / 2, vmax := 1, support := List.range n }]
    getElementContaining := fun pt => if pt.1 < 1 then 0 else if pt.2 < 1 / 2 then 1 else 2
    order0 := p
    startparam := (0, 0)
    endparam := (2, 1)
    meshlines := []
    attached := [] }

/-- A patch of two bases on the mesh of three elements, with consistent tables. -/
def interfacePatch : ASMu2Dmx :=
  { twoGroupPatch with
    heap := [threeElementBasis 4 2, threeElementBasis 2 1]
    nb := [4, 2]
    nel := 3
    nnod := 6
    myMLGE := [1, 2, 3]
    myMLGN := [1, 2, 3, 4, 5, 6]
    myMNPC := [[0, 1, 2, 3, 4, 5], [0, 1, 2, 3, 4, 5], [0, 1, 2, 3, 4, 5]]
    threadGroups := [[0], [1, 2]]
    gEl := 3
    gNod := 6 }

/-- An interface checker that flags edge 2 (`u = umax`) of element 1 only and
reports the values `pts` for it, with an integrand that accepts every call. -/
def sampleInterface (pts : List ℚ) : InterfaceCollab Unit :=
  { interfaceTerms := true
    hasContribution := fun iel => if iel = 1 then 2 else 0
    getIntersections := fun iel iedge => if iel = 1 ∧ iedge = 2 then pts else []
    appendNeighbour := fun s _ _ => s
    evalIntMx := fun s _ _ => (true, s) }

/-! ## Statement vocabulary for interface integration -/

/-- A sub-segment of an edge as it is recorded in a log: element, edge, pass
counter, start, stop and neighbour element. -/
structure SubSegment where
  iel : Nat
  iedge : Nat
  k : Nat
  start : ℚ
  stop : ℚ
  el_neigh : Nat
  deriving DecidableEq

/-- The sub-segments recorded in a log, in order. -/
def subSegments (log : List IEvent) : List SubSegment :=
  log.filterMap (fun ev =>
    match ev with
    | IEvent.subSegment iel iedge k start stop el_neigh =>
      some { iel := iel, iedge := iedge, k := k, start := start, stop := stop,
             el_neigh := el_neigh }
    | _ => none)

/-- Lines 129-134 of `getNodalDOFs`: the loop over the bases with the index `i` and
the running count `nbc`; the argument lists the remaining entries of `nb`.
After the loop the source returns `nfx[0]`. -/
def nodalDOFsLoop (nfx : List Nat) (inod : Nat) : List Nat → Nat → Nat → Option Nat
  | [], _, _ => nfx[0]?
  | n :: rest, i, nbc =>
    if inod ≤ nbc + n then nfx[i]? else nodalDOFsLoop nfx inod rest (i + 1) (nbc + n)

/-- The function `ASMu2Dmx::getNodalDOFs` (lines 126-135).  `isLMn` is the query
`ASMbase::isLMn`, `nLag` the member of `ASMbase` with the number of Lagrange
multipliers per node.  Undefined when `nfx` has no entry for the basis found. -/
def getNodalDOFs (isLMn : Nat → Bool) (nLag : Nat) (p : ASMu2Dmx) (inod : Nat) : Option Nat :=
  if isLMn inod then some nLag else nodalDOFsLoop p.nfx inod p.nb 0 0

/-- Lines 1045-1048 of `getCoord`: the loop `while (b < nb.size() && nbb+nb[b] <
inod) nbb += nb[b++]`, with the remaining entries of `nb`; the result is the
pair of `b` and `nbb` after the loop. -/
def coordLoop (inod : Nat) : List Nat → Nat → Nat → Nat × Nat
  | [], b, nbb => (b, nbb)
  | n :: rest, b, nbb =>
    if nbb + n < inod then coordLoop inod rest (b + 1) (nbb + n) else (b, nbb)

/-- The constructor `Vec3(const Real*, size_t n)`: the first `n` components are
copied, the others are zero. -/
def vec3 (cp : List ℚ) (n : Nat) : List ℚ :=
  (List.range 3).map (fun i => if i < n then cp.getD i 0 else 0)

/-- Line 1051: the index `inod-nbb-1` in the arithmetic of `size_t`, which wraps
around below zero. -/
def coordIndex (inod nbb : Nat) : Nat :=
  if nbb + 1 ≤ inod then inod - nbb - 1 else 2 ^ 64 - (nbb + 1 - inod)

/-- The function `ASMu2Dmx::getCoord` (lines 1043-1059).  `getBasisfunction b i` is
the control point of `b.getBasisfunction(i)`, or `none` for a null pointer;
`nsd` is the number of space dimensions of the patch.  Undefined when
`getBasis(b)` is null. -/
def getCoord (getBasisfunction : LRSplineSurface → Nat → Option (List ℚ)) (nsd : Nat)
    (p : ASMu2Dmx) (inod : Nat) : Option (List ℚ) :=
  let r := coordLoop inod p.nb 0 0
  match (getBasis p ((r.1 + 1 : Nat) : Int)).bind (fun a => p.heap[a]?) with
  | none => none
  | some basis =>
    match getBasisfunction basis (coordIndex inod r.2) with
    | none => some (vec3 [] 0)
    | some cp => some (vec3 cp nsd)

/-- Control points for the sample patches: function `i` of a basis sits at `(i, 0)`. -/
def sampleControlPoints : LRSplineSurface → Nat → Option (List ℚ) :=
  fun b i => if i < b.nBasisFunctions then some [(i : ℚ), 0] else none

/-- A patch of three bases whose second basis has no functions. -/
def gapPatch : ASMu2Dmx :=
  { threeBasisPatch with
    heap := [unitBasis 3 2, emptyBasis, unitBasis 2 1]
    nfx := [2, 5, 1]
    nb := [3, 0, 2] }

/-! ## Statement vocabulary for `copyRefinement` -/

/-- One call of a mesh line insertion primitive: `constV` tells whether it is
`insert_const_v_edge` (otherwise `insert_const_u_edge`), followed by the four
arguments of the call. -/
structure Insertion where
  constV : Bool
  const_par : ℚ
  start : ℚ
  stop : ℚ
  mult : Int
  deriving DecidableEq

/-- The basis after an insertion call. -/
def Insertion.apply (K : External) (b : LRSplineSurface) (c : Insertion) : LRSplineSurface :=
  if c.constV then K.insert_const_v_edge b c.const_par c.start c.stop c.mult
  else K.insert_const_u_edge b c.const_par c.start c.stop c.mult

/-- The insertion that the claim describes for a mesh line of the reference basis
and a default multiplicity `m`: a line spanning the u direction becomes a
constant-v edge, any other line a constant-u edge, with the constant parameter,
start and stop of the line, and with the multiplicity of the line when that is
greater than 1 and `m` otherwise. -/
def insertionOf (m : Int) (line : Meshline) : Insertion :=
  { constV := line.span_u_line_
    const_par := line.const_par_
    start := line.start_
    stop := line.stop_
    mult := if line.multiplicity_ > 1 then line.multiplicity_ else m }

/-- The default multiplicity that the claim gives for the basis with 0-based index
`j`: 2 for basis 1 under `REDUCED_CONT_RAISE_BASIS1` and for basis 2 under
`REDUCED_CONT_RAISE_BASIS2`, and 1 otherwise. -/
def defaultMultiplicity (T : MixedType) (j : Nat) : Int :=
  match T, j with
  | MixedType.REDUCED_CONT_RAISE_BASIS1, 0 => 2
  | MixedType.REDUCED_CONT_RAISE_BASIS2, 1 => 2
  | _, _ => 1

/-- The heap that the claim describes after the propagation of the mesh lines
`lines` of the reference basis behind `ref`: every basis other than the
reference basis, in basis order from index `j` on, has received the insertions
of all lines in order, with the default multiplicity of its index. -/
def propagatedHeap (K : External) (T : MixedType) (ref : Nat) (lines : List Meshline) :
    List Nat → Nat → Heap → Heap
  | [], _, h => h
  | a :: as, j, h =>
    propagatedHeap K T ref lines as (j + 1)
      (if a = ref then h
       else
         match h[a]? with
         | none => h
         | some b =>
           h.set a ((lines.map (insertionOf (defaultMultiplicity T j))).foldl (Insertion.apply K) b))

/-- A reference basis with three mesh lines, of multiplicities 1, 3 and 1, the
second one spanning the u direction. -/
def threeLineBasis : LRSplineSurface :=
  { unitBasis 9 3 with
    meshlines :=
      [{ multiplicity_ := 1, span_u_line_ := false, const_par_ := 1 / 2, start_ := 0, stop_ := 1 },
       { multiplicity_ := 3, span_u_line_ := true, const_par_ := 1 / 4, start_ := 0, stop_ := 1 / 2 },
       { multiplicity_ := 1, span_u_line_ := true, const_par_ := 3 / 4, start_ := 1 / 2,
         stop_ := 1 }] }

/-- A patch under `REDUCED_CONT_RAISE_BASIS2` whose reference basis is a separate
object with three mesh lines. -/
def reducedPatch : ASMu2Dmx :=
  { samplePatchGenerated with
    heap := [unitBasis 9 3, unitBasis 4 2, threeLineBasis]
    projBasis := some 2
    refBasis := some 2
    Type_ := MixedType.REDUCED_CONT_RAISE_BASIS2 }

/-! ## Recording the Neumann order -/

/-- The collaborators `C`, instrumented: every answer and every change of state is
that of `C`, and the calls of `setNeumannOrder` record their argument, oldest
first. -/
def Collab.noting {σ : Type} (C : Collab σ) : Collab (σ × List Int) :=
  { use2ndDer := C.use2ndDer
    elementCorners := C.elementCorners
    gMatrix := C.gMatrix
    threadSafe := C.threadSafe
    getBouIntegrationPoints := C.getBouIntegrationPoints
    setNeumannOrder := fun s n => (C.setNeumannOrder s.1 n, s.2 ++ [n])
    getLocalIntegral := fun s sizes iel bou => (C.getLocalIntegral s.1 sizes iel bou, s.2)
    destruct := fun s a => (C.destruct s.1 a, s.2)
    initElement := fun s mnpc sizes nb =>
      ((C.initElement s.1 mnpc sizes nb).1, ((C.initElement s.1 mnpc sizes nb).2, s.2))
    initElementBou := fun s mnpc sizes nb =>
      ((C.initElementBou s.1 mnpc sizes nb).1, ((C.initElementBou s.1 mnpc sizes nb).2, s.2))
    evalIntMx := fun s fe => ((C.evalIntMx s.1 fe).1, ((C.evalIntMx s.1 fe).2, s.2))
    evalBouMx := fun s fe normal =>
      ((C.evalBouMx s.1 fe normal).1, ((C.evalBouMx s.1 fe normal).2, s.2))
    finalizeElement := fun s ip =>
      ((C.finalizeElement s.1 ip).1, ((C.finalizeElement s.1 ip).2, s.2))
    finalizeElementBou := fun s fe =>
      ((C.finalizeElementBou s.1 fe).1, ((C.finalizeElementBou s.1 fe).2, s.2))
    assemble := fun s iel => ((C.assemble s.1 iel).1, ((C.assemble s.1 iel).2, s.2)) }

/-- The direction code that the claim gives for the last decimal digit of a
boundary index, and for an edge number of interface integration: `-1`, `+1`,
`-2`, `+2` for 1, 2, 3, 4. -/
def directionCode (digit : Int) : Int :=
  if digit = 1 then -1 else if digit = 2 then 1 else if digit = 3 then -2 else 2

/-! ## SIM3D: constraints on face lines

A shallow embedding of the overload `SIM3D::addConstraint(int patch, int lndx,
int line, double xi, int dirs, char basis)` of `src/src/SIM/SIM3D.C`. -/

/-- A call `pch->constrainLine(fdir,ldir,xi,dirs,0,basis)` on the patch with the
1-based index `patch`. -/
structure LineCall where
  patch : Int
  fdir : Int
  ldir : Int
  xi : ℚ
  dirs : Int
  code : Int
  basis : Nat
  deriving DecidableEq

/-- The model of a `SIM3D` object as far as the overload reads it: for every patch
of `myModel`, whether `dynamic_cast<ASM3D*>` succeeds on it. -/
structure SIM3D where
  myModel : List Bool

/-- Lines 727-736 and 740-749: the face direction and the line direction of the
call of `constrainLine` for a face index in 1..6, per value of `line`. -/
def SIM3D.faceLine (line lndx : Int) : Option (Int × Int) :=
  if line = 1 then
    if lndx = 1 then some (-1, 2) else if lndx = 2 then some (1, 2)
    else if lndx = 3 then some (-2, 3) else if lndx = 4 then some (2, 3)
    else if lndx = 5 then some (-3, 1) else if lndx = 6 then some (3, 1) else none
  else
    if lndx = 1 then some (-1, 3) else if lndx = 2 then some (1, 3)
    else if lndx = 3 then some (-2, 1) else if lndx = 4 then some (2, 1)
    else if lndx = 5 then some (-3, 2) else if lndx = 6 then some (3, 2) else none

/-- The function `SIM3D::addConstraint(int patch, int lndx, int line, double xi,
int dirs, char basis)` (lines 701-757): the returned flag and the calls of
`constrainLine` that it makes.  The lambda `error` prints a message and returns
`false`; in the `default` branch of the inner switch for `line == 1` (line 735)
its value is discarded and control reaches `break` and `return true`, whereas
the `default` branch for `line == 2` (line 748) returns it. -/
def SIM3D.addConstraint (sim : SIM3D) (patch lndx line : Int) (xi : ℚ) (dirs : Int)
    (basis : Nat) : Bool × List LineCall :=
  if patch < 1 ∨ patch > (sim.myModel.length : Int) then (false, [])
  else if sim.myModel.getD (patch - 1).toNat false = false then (false, [])
  else if line = 1 then
    match SIM3D.faceLine 1 lndx with
    | some d =>
      (true, [{ patch := patch, fdir := d.1, ldir := d.2, xi := xi, dirs := dirs, code := 0,
                basis := basis }])
    | none => (true, [])
  else if line = 2 then
    match SIM3D.faceLine 2 lndx with
    | some d =>
      (true, [{ patch := patch, fdir := d.1, ldir := d.2, xi := xi, dirs := dirs, code := 0,
                basis := basis }])
    | none => (false, [])
  else (false, [])

/-! ## Sample configurations for the element partition and the scheduling basis -/

/-- Basis with three elements in a row along the first parametric direction, each
carrying all `n` functions; every element touches the edges `v = 0` and
`v = 1`. -/
def stripBasis (n : Nat) (p : Int) : LRSplineSurface :=
  { nBasisFunctions := n
    elements := [{ umin := 0, umax := 1, vmin := 0, vmax := 1, support := List.range n },
                 { umin := 1, umax := 2, vmin := 0, vmax := 1, support := List.range n },
                 { umin := 2, umax := 3, vmin := 0, vmax := 1, support := List.range n }]
    getElementContaining := fun pt => if pt.1 < 1 then 0 else if pt.1 < 2 then 1 else 2
    order0 := p
    startparam := (0, 0)
    endparam := (3, 1)
    meshlines := []
    attached := [] }

/-- A patch of two bases on the strip of three elements, with consistent tables
and the element partition `myElms`. -/
def stripPatch (myElms : List Nat) : ASMu2Dmx :=
  { interfacePatch with
    heap := [stripBasis 4 2, stripBasis 2 1]
    threadGroups := [[0], [1], [2]]
    myElms := myElms }

/-- An interface checker that flags edge 2 (`u = umax`) of every element and
reports the far end `v = 1` of the edge as its single value, with an integrand
that accepts every call. -/
def allEdgesInterface : InterfaceCollab Unit :=
  { interfaceTerms := true
    hasContribution := fun _ => 2
    getIntersections := fun _ iedge => if iedge = 2 then [1] else []
    appendNeighbour := fun s _ _ => s
    evalIntMx := fun s _ _ => (true, s) }

/-- The regular geometry with quadrature tables for one, two and three points. -/
def tabulatedGeometry : Geometry :=
  { regularGeometry with
    getCoord := fun n =>
      if n = 1 then some [0] else if n = 2 then some [-1, 1] else if n = 3 then some [-1, 0, 1]
      else none
    getWeight := fun n =>
      if n = 1 then some [2] else if n = 2 then some [1, 1] else if n = 3 then some [1, 1, 1]
      else none }

/-- Basis with four elements in a row along the first parametric direction, on the
domain of `twoElementBasis`; each element carries all `n` functions. -/
def fourElementBasis (n : Nat) (p : Int) : LRSplineSurface :=
  { nBasisFunctions := n
    elements := [{ umin := 0, umax := 1 / 2, vmin := 0, vmax := 1, support := List.range n },
                 { umin := 1 / 2, umax := 1, vmin := 0, vmax := 1, support := List.range n },
                 { umin := 1, umax := 3 / 2, vmin := 0, vmax := 1, support := List.range n },
                 { umin := 3 / 2, umax := 2, vmin := 0, vmax := 1, support := List.range n }]
    getElementContaining := fun pt =>
      if pt.1 < 1 / 2 then 0 else if pt.1 < 1 then 1 else if pt.1 < 3 / 2 then 2 else 3
    order0 := p
    startparam := (0, 0)
    endparam := (2, 1)
    meshlines := []
    attached := [] }

/-- A `SUBGRID` patch after a refinement: basis 1, of the higher order and hence
the scheduling basis, lives on the mesh of four elements, the geometry basis 2
on the mesh of two elements, so that `nel = 2`. -/
def subgridPatch : ASMu2Dmx :=
  { twoGroupPatch with
    heap := [fourElementBasis 12 3, twoElementBasis 6 2]
    Type_ := MixedType.SUBGRID
    threadGroups := [[0, 2], [1, 3]] }

/-- Basis with a single element on the domain of `twoElementBasis`. -/
def wideBasis (n : Nat) (p : Int) : LRSplineSurface :=
  { unitBasis n p with
    elements := [{ umin := 0, umax := 2, vmin := 0, vmax := 1, support := List.range n }]
    endparam := (2, 1) }

/-- A patch whose scheduling basis 1 has one element and whose geometry basis 2 has
two, so that `nel = 2`. -/
def coarseThreadPatch : ASMu2Dmx :=
  { twoGroupPatch with
    heap := [wideBasis 12 3, twoElementBasis 6 2]
    threadGroups := [[0]] }

/-! ## Evaluation of the secondary solution field -/

/-- The parts of the integrand that the evaluation of secondary solutions uses:
the bit `SECOND_DERIVATIVES` of `getIntegrandType()`, and `evalSol`, given by the
point, the geometry element, its connectivity row, the element sizes and `nb`
(the basis values and derivatives in `fe` are determined by the point): the
returned flag and the vector `solPt`. -/
structure Recovery where
  use2ndDer : Bool
  evalSol : ℚ × ℚ → Nat → List Nat → List Nat → List Nat → Bool × List ℚ

/-- Calls made by the evaluation of secondary solutions at the point with 0-based
index `pt`.  `Hessian pt b geometry ok` is a call of `utl::Hessian` that fills
`fe.hess(b+1)` for the basis with 0-based index `b`; `geometry` is the last
argument of the call, `true` when the Hessian of the coordinate mapping is
computed with it and `false` when the Hessian computed before is propagated by
the chain rule. -/
inductive SEvent
  | getElementCoordinates (pt : Nat) (ok : Bool)
  | Hessian (pt : Nat) (b : Nat) (geometry : Bool) (ok : Bool)
  | evalSol (pt : Nat) (ok : Bool)
  deriving DecidableEq

/-- State of an evaluation of secondary solutions: `ok = false` stands for
`return false`; `sField` is the matrix, `log` the calls made so far. -/
structure SolRun where
  ok : Bool
  sField : SolutionField
  log : List SEvent

/-- Lines 948-951: `utl::Hessian` with the last argument `false` for the bases
whose 0-based index differs from `geoBasis`. -/
def hessianOthersSol (G : Geometry) (p : ASMu2Dmx) (pt geoEl : Nat) (u v : ℚ) :
    List Nat → List SEvent
  | [] => []
  | b :: bs =>
    if b ≠ p.geoBasis then
      SEvent.Hessian pt b false (G.Hessian geoEl b u v) :: hessianOthersSol G p pt geoEl u v bs
    else hessianOthersSol G p pt geoEl u v bs

/-- Lines 905-962: the body of the loop over the points, for the point `(u,v)`
with index `i`. -/
def evalSolPoint (G : Geometry) (R : Recovery) (p : ASMu2Dmx) (bases : List LRSplineSurface)
    (nPoints i : Nat) (pt : ℚ × ℚ) (s : SolRun) : Option SolRun :=
  match correspond pt bases with
  | none => none
  | some c =>
    if p.geoBasis = 0 then none
    else
      match c.1[p.geoBasis - 1]? with
      | none => none
      | some geoEl =>
        if G.getElementCoordinates geoEl = false then
          some { s with ok := false, log := s.log ++ [SEvent.getElementCoordinates i false] }
        else
          let log1 := s.log ++ [SEvent.getElementCoordinates i true]
          let hg := G.Hessian geoEl (p.geoBasis - 1) pt.1 pt.2
          if R.use2ndDer = true ∧ hg = false then
            some { s with ok := false,
                          log := log1 ++ [SEvent.Hessian i (p.geoBasis - 1) true false] }
          else
            let log2 :=
              if R.use2ndDer then
                log1 ++ [SEvent.Hessian i (p.geoBasis - 1) true true] ++
                  hessianOthersSol G p i geoEl pt.1 pt.2 (List.range p.m_basis.length)
              else log1
            match p.myMNPC[geoEl - 1]? with
            | none => none
            | some mnpc =>
              let r := R.evalSol pt geoEl mnpc c.2 p.nb
              if r.1 = false then
                some { s with ok := false, log := log2 ++ [SEvent.evalSol i false] }
              else
                let sf : SolutionField :=
                  if s.sField.nrow * s.sField.ncol = 0 then
                    { nrow := r.2.length, ncol := nPoints, columns := s.sField.columns }
                  else s.sField
                some { ok := true,
                       sField := { sf with columns := sf.columns ++ [r.2] },
                       log := log2 ++ [SEvent.evalSol i true] }

/-- Line 903: the loop over the points, left by `return false`. -/
def evalSolPoints (G : Geometry) (R : Recovery) (p : ASMu2Dmx) (bases : List LRSplineSurface)
    (nPoints : Nat) : List (ℚ × ℚ) → Nat → SolRun → Option SolRun
  | [], _, s => some s
  | pt :: pts, i, s =>
    match evalSolPoint G R p bases nPoints i pt s with
    | none => none
    | some s1 =>
      if s1.ok = false then some s1 else evalSolPoints G R p bases nPoints pts (i + 1) s1

/-- The function `ASMu2Dmx::evalSolution(Matrix&, const IntegrandBase&, const
RealArray*, bool)` (lines 885-966), evaluation of the secondary solution: the
returned flag `ok`, the matrix `sField` after the call and the calls made. -/
def evalSolutionSecondary (G : Geometry) (R : Recovery) (p : ASMu2Dmx)
    (gpar0 gpar1 : List ℚ) (_regular : Bool) : Option SolRun :=
  let start : SolRun := { ok := true, sField := { nrow := 0, ncol := 0, columns := [] }, log := [] }
  if gpar0.length ≠ gpar1.length then some { start with ok := false }
  else
    match p.bases with
    | none => none
    | some bases => evalSolPoints G R p bases gpar0.length (gpar0.zip gpar1) 0 start

/-- An integrand that asks for second derivatives and recovers one value per point. -/
def sampleRecovery : Recovery :=
  { use2ndDer := true
    evalSol := fun _ _ _ _ _ => (true, [1]) }

/-! ## The colouring of the elements -/

/-- Whether two elements of the scheduling basis share no basis function: neither
in their own supports, nor in the supports of the elements of a secondary
constraint basis that contain their midpoints. -/
def independent (sec : List LRSplineSurface) (e1 e2 : Element) : Bool :=
  decide (∀ a ∈ e1.support, a ∉ e2.support) &&
    sec.all (fun s => decide (∀ a ∈ supportOf s e1.midpoint, a ∉ supportOf s e2.midpoint))

/-- The same for two element indices of the scheduling basis `tb`. -/
def independentIdx (tb : LRSplineSurface) (sec : List LRSplineSurface) (i j : Nat) : Bool :=
  match tb.elements[i]?, tb.elements[j]? with
  | some e1, some e2 => independent sec e1 e2
  | _, _ => true

/-- Element `i` joins the first colour group all of whose members are independent
of it, and opens a new group when there is none. -/
def placeElement (tb : LRSplineSurface) (sec : List LRSplineSurface) (i : Nat) :
    List (List Nat) → List (List Nat)
  | [] => [[i]]
  | g :: gs =>
    if g.all (fun j => independentIdx tb sec i j) then (g ++ [i]) :: gs
    else g :: placeElement tb sec i gs

/-- Modelled from the spec: `LR::generateThreadGroups(groups, basis, constraints)`
is not among the sources, only its call at line 1084 is.  By section 4.4 it
"computes a graph coloring over that basis's elements where adjacency is
'these two elements share at least one basis function' union across the
scheduling basis and any additional 'secondary constraint' bases"; by section 3
the correspondence of an element with another basis is the element of that
basis that contains its midpoint.  The colouring is the greedy one in element
order. -/
def colourGroups (tb : LRSplineSurface) (sec : List LRSplineSurface) : List (List Nat) :=
  (List.range tb.nElements).foldl (fun gs i => placeElement tb sec i gs) []

/-- Modelled from the spec: the colouring routine of the LR spline utilities, see
`colourGroups`. -/
def colouring : ThreadLib :=
  { generateThreadGroups := colourGroups }

/-- Within every group, any two distinct element indices are independent. -/
def Coloured (tb : LRSplineSurface) (sec : List LRSplineSurface) (gs : List (List Nat)) : Prop :=
  ∀ g ∈ gs, ∀ a ∈ g, ∀ b ∈ g, a ≠ b → independentIdx tb sec a b = true

/-- The 1-based numbers of the secondary constraint bases that the claim gives for
a policy: basis 2 for subgrid and for reduced continuity with raised basis 1,
basis 1 for reduced continuity with raised basis 2, bases 1 and 2 for the
divergence-compatible policy, none otherwise. -/
def constraintBases : MixedType → List Nat
  | MixedType.SUBGRID => [2]
  | MixedType.REDUCED_CONT_RAISE_BASIS1 => [2]
  | MixedType.REDUCED_CONT_RAISE_BASIS2 => [1]
  | MixedType.DIV_COMPATIBLE => [1, 2]
  | _ => []

/-- Basis with three elements in a row whose supports are given per element. -/
def chainBasis (n : Nat) (p : Int) (s0 s1 s2 : List Nat) : LRSplineSurface :=
  { stripBasis n p with
    elements := [{ umin := 0, umax := 1, vmin := 0, vmax := 1, support := s0 },
                 { umin := 1, umax := 2, vmin := 0, vmax := 1, support := s1 },
                 { umin := 2, umax := 3, vmin := 0, vmax := 1, support := s2 }] }

/-- A patch on the strip of three elements: on basis 1, the scheduling basis, the
two outer elements share no function, on basis 2 they share function 0. -/
def chainPatch (T : MixedType) : ASMu2Dmx :=
  { stripPatch [] with
    heap := [chainBasis 4 2 [0, 1] [1, 2] [2, 3], chainBasis 2 1 [0] [1] [0]]
    Type_ := T }

/-! ## Theorems -/

theorem resize_length {α : Type} (l : List α) (n : Nat) (d : α) : (resize l n d).length = n := by
  unfold resize
  simp only [List.length_append, List.length_take, List.length_replicate]
  omega

theorem fillSupport_append (ofs : Nat) :
    ∀ (sup pre mid post : List Nat), mid.length = sup.length →
      fillSupport ofs sup (pre ++ mid ++ post) pre.length
        = (pre ++ sup.map (· + ofs) ++ post, pre.length + sup.length) := by
  intro sup
  induction sup with
  | nil =>
    intro pre mid post h
    have : mid = [] := List.length_eq_zero.mp h
    subst this
    simp [fillSupport]
  | cons b bs ih =>
    intro pre mid post h
    cases mid with
    | nil => simp at h
    | cons m ms =>
      have hlen : ms.length = bs.length := by simpa using h
      have hset : (pre ++ m :: ms ++ post).set pre.length (b + ofs)
          = (pre ++ [b + ofs]) ++ ms ++ post := by
        simp [List.set_append]
      have := ih (pre ++ [b + ofs]) ms post hlen
      simp only [fillSupport, hset]
      simp only [List.length_append, List.length_singleton] at this
      rw [this]
      simp [Nat.add_assoc, Nat.add_comm 1]

theorem countFunctions_eq (mid : ℚ × ℚ) :
    ∀ (bases : List LRSplineSurface) (n0 nfunc ofs : Nat),
      countFunctions mid bases n0 = some nfunc →
        (∀ it ∈ bases, ∃ el2, it.elementAt mid = some el2) ∧
        nfunc = n0 + (connectivityBlocks mid ofs bases).flatten.length := by
  intro bases
  induction bases with
  | nil =>
    intro n0 nfunc ofs h
    simp [countFunctions] at h
    simp [connectivityBlocks, h]
  | cons it rest ih =>
    intro n0 nfunc ofs h
    simp only [countFunctions] at h
    cases hel : it.elementAt mid with
    | none => simp [hel] at h
    | some el2 =>
      simp only [hel] at h
      obtain ⟨h1, h2⟩ := ih _ _ (ofs + it.nBasisFunctions) h
      refine ⟨?_, ?_⟩
      · intro x hx
        rcases List.mem_cons.mp hx with rfl | hx
        · exact ⟨el2, hel⟩
        · exact h1 x hx
      · simp only [connectivityBlocks, supportOf, hel, List.flatten_cons, List.length_append,
          List.length_map]
        rw [h2]
        simp only [Element.nBasisFunctions]
        omega

theorem fillRow_append (mid : ℚ × ℚ) :
    ∀ (bases : List LRSplineSurface) (pre row post : List Nat) (ofs : Nat),
      (∀ it ∈ bases, ∃ el2, it.elementAt mid = some el2) →
      row.length = (connectivityBlocks mid ofs bases).flatten.length →
      fillRow mid bases (pre ++ row ++ post) pre.length ofs
        = some (pre ++ (connectivityBlocks mid ofs bases).flatten ++ post) := by
  intro bases
  induction bases with
  | nil =>
    intro pre row post ofs _ hlen
    simp only [connectivityBlocks, List.flatten_nil, List.length_nil] at hlen
    have : row = [] := List.length_eq_zero.mp hlen
    subst this
    simp [fillRow, connectivityBlocks]
  | cons it rest ih =>
    intro pre row post ofs hloc hlen
    obtain ⟨el2, hel⟩ := hloc it (List.mem_cons_self _ _)
    simp only [connectivityBlocks, supportOf, hel, List.flatten_cons, List.length_append,
      List.length_map] at hlen
    have hsplit : row = row.take el2.support.length ++ row.drop el2.support.length :=
      (List.take_append_drop _ _).symm
    have htake : (row.take el2.support.length).length = el2.support.length := by
      simp only [List.length_take]; omega
    have hdrop : (row.drop el2.support.length).length
        = (connectivityBlocks mid (ofs + it.nBasisFunctions) rest).flatten.length := by
      simp only [List.length_drop]; omega
    have hfs := fillSupport_append ofs el2.support pre (row.take el2.support.length)
      (row.drop el2.support.length ++ post) htake
    have hrow : pre ++ row ++ post
        = pre ++ row.take el2.support.length ++ (row.drop el2.support.length ++ post) := by
      rw [List.append_assoc, List.append_assoc, ← List.append_assoc (row.take _),
        List.take_append_drop]
    simp only [fillRow, hel, hrow, hfs]
    have := ih (pre ++ el2.support.map (· + ofs)) (row.drop el2.support.length) post
      (ofs + it.nBasisFunctions) (fun x hx => hloc x (List.mem_cons_of_mem _ hx)) hdrop
    simp only [List.length_append, List.length_map] at this
    simp only [connectivityBlocks, supportOf, hel, List.flatten_cons]
    simp only [List.append_assoc] at this ⊢
    exact this

theorem elementLoop_rows (bases : List LRSplineSurface) :
    ∀ (els : List Element) (iel : Nat) (s s' : Numbering),
      elementLoop bases els iel s = some s' →
        (∀ k, k < iel → s'.myMNPC[k]? = s.myMNPC[k]?) ∧
        (∀ k el1, els[k]? = some el1 →
          (∀ it ∈ bases, ∃ el2, it.elementAt el1.midpoint = some el2) ∧
          s'.myMNPC[iel + k]? = some (connectivityBlocks el1.midpoint 0 bases).flatten) := by
  intro els
  induction els with
  | nil =>
    intro iel s s' h
    simp only [elementLoop, Option.some.injEq] at h
    subst h
    simp
  | cons el1 els ih =>
    intro iel s s' h
    simp only [elementLoop] at h
    cases hc : countFunctions el1.midpoint bases 0 with
    | none => simp [hc] at h
    | some nfunc =>
      cases ho : s.myMNPC[iel]? with
      | none => simp [hc, ho] at h
      | some old =>
        simp only [hc, ho] at h
        obtain ⟨hloc, hn⟩ := countFunctions_eq el1.midpoint bases 0 nfunc 0 hc
        have hfr := fillRow_append el1.midpoint bases [] (resize old nfunc 0) [] 0 hloc
          (by rw [resize_length, hn]; simp)
        simp only [List.nil_append, List.append_nil, List.length_nil] at hfr
        simp only [hfr] at h
        split at h
        · obtain ⟨h1, h2⟩ := ih _ _ _ h
          have hlt : iel < s.myMNPC.length := by
            by_contra hcon
            rw [List.getElem?_eq_none (Nat.le_of_not_lt hcon)] at ho
            cases ho
          refine ⟨?_, ?_⟩
          · intro k hk
            rw [h1 k (by omega)]
            simp only [List.getElem?_set]
            rw [if_neg (by omega)]
          · intro k e hk
            cases k with
            | zero =>
              simp only [List.getElem?_cons_zero, Option.some.injEq] at hk
              subst hk
              refine ⟨hloc, ?_⟩
              rw [Nat.add_zero, h1 iel (by omega)]
              simp [List.getElem?_set, hlt]
            | succ k =>
              simp only [List.getElem?_cons_succ] at hk
              have := h2 k e hk
              rw [Nat.add_assoc, Nat.add_comm 1 k] at this
              exact this
        · cases h

theorem derefAll_getElem (h : Heap) :
    ∀ (l : List Nat) (bs : List LRSplineSurface), h.derefAll l = some bs →
      bs.length = l.length ∧ ∀ (k a : Nat), l[k]? = some a → bs[k]? = h[a]? := by
  intro l
  induction l with
  | nil =>
    intro bs hd
    simp only [Heap.derefAll, Option.some.injEq] at hd
    subst hd
    simp
  | cons a as ih =>
    intro bs hd
    simp only [Heap.derefAll] at hd
    cases ha : h[a]? with
    | none => simp [ha] at hd
    | some b =>
      cases hr : Heap.derefAll h as with
      | none => simp [ha, hr] at hd
      | some bs1 =>
        simp only [ha, hr, Option.some.injEq] at hd
        subst hd
        obtain ⟨h1, h2⟩ := ih bs1 hr
        refine ⟨by simp [h1], ?_⟩
        intro k x hk
        cases k with
        | zero =>
          simp only [List.getElem?_cons_zero, Option.some.injEq] at hk
          subst hk
          simp [ha]
        | succ k =>
          simp only [List.getElem?_cons_succ] at hk ⊢
          exact h2 k x hk

theorem basisOffset_succ (bases : List LRSplineSurface) (i : Nat) (it : LRSplineSurface)
    (h : bases[i]? = some it) :
    basisOffset bases (i + 1) = basisOffset bases i + it.nBasisFunctions := by
  unfold basisOffset
  rw [List.take_succ, h]
  simp

theorem basisOffset_mono (bases : List LRSplineSurface) (i j : Nat) (h : i ≤ j) :
    basisOffset bases i ≤ basisOffset bases j := by
  induction j with
  | zero =>
    have : i = 0 := by omega
    subst this
    exact Nat.le_refl _
  | succ j ih =>
    rcases Nat.lt_or_ge i (j + 1) with hlt | hge
    · have h1 := ih (by omega)
      have h2 : basisOffset bases j ≤ basisOffset bases (j + 1) := by
        unfold basisOffset
        rw [List.take_succ]
        simp
      exact Nat.le_trans h1 h2
    · have : i = j + 1 := by omega
      subst this
      exact Nat.le_refl _

theorem connectivityBlocks_getElem (mid : ℚ × ℚ) :
    ∀ (bases : List LRSplineSurface) (ofs i : Nat) (it : LRSplineSurface),
      bases[i]? = some it →
        (connectivityBlocks mid ofs bases)[i]?
          = some ((supportOf it mid).map (· + (ofs + basisOffset bases i))) := by
  intro bases
  induction bases with
  | nil => intro ofs i it h; simp at h
  | cons b rest ih =>
    intro ofs i it h
    cases i with
    | zero =>
      simp only [List.getElem?_cons_zero, Option.some.injEq] at h
      subst h
      simp [connectivityBlocks, basisOffset]
    | succ i =>
      simp only [List.getElem?_cons_succ] at h
      have := ih (ofs + b.nBasisFunctions) i it h
      simp only [connectivityBlocks, List.getElem?_cons_succ, this]
      simp [basisOffset, Nat.add_assoc]

theorem establish_shareFE (K : External) (q q2 : ASMu2Dmx) (he : establish K q = some q2) :
    q2.shareFE = q.shareFE := by
  unfold establish at he
  simp only at he
  split at he
  · split at he
    · split at he
      · cases he
      · split at he
        · cases he
        · simp only [Option.some.injEq] at he
          subst he
          rfl
    · split at he
      · simp only [Option.some.injEq] at he
        subst he
        rfl
      · simp only [Option.some.injEq] at he
        subst he
        rfl
  · split at he
    · simp only [Option.some.injEq] at he
      subst he
      rfl
    · split at he
      · cases he
      · simp only [Option.some.injEq] at he
        subst he
        rfl

/-! ### Interior integration: element groups -/

/-- C2, counterexample.  With a global integral that is not thread-safe and a patch
of two elements coloured into two groups, the groups that interior integration
loops over are the two colour groups, not one group with both elements. -/
theorem integrationGroups_not_threadSafe_coloured :
    (sampleCollab (fun _ => true) true true).threadSafe = false ∧
    integrationGroups (sampleCollab (fun _ => true) true true) twoGroupPatch = [[0], [1]] ∧
    integrationGroups (sampleCollab (fun _ => true) true true) twoGroupPatch
      ≠ oneGroup twoGroupPatch.nel := by
  decide

/-- C2, amended.  For a patch with bases and an available Gauss rule, interior
integration loops over the groups chosen at lines 303-305: the single group
`0 .. nel-1` when the global integral reports that it is thread-safe, and the
colour groups `threadGroups[0]` of the patch when it reports that it is not. -/
theorem integrate_groups_by_threadSafe {σ : Type} (G : Geometry) (C : Collab σ) (p : ASMu2Dmx)
    (s0 : σ) (xg wg : List ℚ) (hb : p.m_basis ≠ [])
    (hx : G.getCoord p.nGauss = some xg) (hw : G.getWeight p.nGauss = some wg) :
    integrate G C p s0
        = integrateGroups G C p xg wg (integrationGroups C p)
            { ok := true, col := s0, log := [], nA := 0 } ∧
    (C.threadSafe = true → integrationGroups C p = [List.range p.nel]) ∧
    (C.threadSafe = false → integrationGroups C p = p.threadGroups) := by
  refine ⟨?_, ?_, ?_⟩
  · unfold integrate
    simp only [hb, if_false, hx, hw]
  · intro h
    simp [integrationGroups, oneGroup, h]
  · intro h
    simp [integrationGroups, h]

/-- Witness of the amended C2 on the two-group patch. -/
theorem integrate_groups_by_threadSafe_witness :
    twoGroupPatch.m_basis ≠ [] ∧
    regularGeometry.getCoord twoGroupPatch.nGauss = some [-1, 1] ∧
    regularGeometry.getWeight twoGroupPatch.nGauss = some [1, 1] ∧
    (integrate regularGeometry (sampleCollab (fun _ => true) true true) twoGroupPatch ()
        = integrateGroups regularGeometry (sampleCollab (fun _ => true) true true) twoGroupPatch
            [-1, 1] [1, 1] (integrationGroups (sampleCollab (fun _ => true) true true) twoGroupPatch)
            { ok := true, col := (), log := [], nA := 0 } ∧
      ((sampleCollab (fun _ => true) true true).threadSafe = true →
        integrationGroups (sampleCollab (fun _ => true) true true) twoGroupPatch
          = [List.range twoGroupPatch.nel]) ∧
      ((sampleCollab (fun _ => true) true true).threadSafe = false →
        integrationGroups (sampleCollab (fun _ => true) true true) twoGroupPatch
          = twoGroupPatch.threadGroups)) :=
  ⟨by decide, rfl, rfl,
    integrate_groups_by_threadSafe regularGeometry (sampleCollab (fun _ => true) true true)
      twoGroupPatch () [-1, 1] [1, 1] (by decide) rfl rfl⟩

/-! ### Interior integration: runs on the sample patch -/

/-- C3, failing input.  When `finalizeElement` rejects the element (first run), or
`assemble` does (second run), the run ends after that call: the local integral
obtained for the element is never released. -/
theorem integrate_finalize_reject_no_destruct :
    (integrate regularGeometry (sampleCollab (fun _ => true) false true)
        sampleIntegrationPatch ()).map (fun r => (r.ok, r.log))
      = some (false,
          [Event.getParametricArea 1 false, Event.getElementCoordinates 1 true,
           Event.getLocalIntegral 0 1, Event.initElement 0 true,
           Event.evalIntMx 0 0 0 true, Event.evalIntMx 0 1 0 true,
           Event.evalIntMx 0 0 1 true, Event.evalIntMx 0 1 1 true,
           Event.finalizeElement 0 false]) ∧
    (integrate regularGeometry (sampleCollab (fun _ => true) true false)
        sampleIntegrationPatch ()).map (fun r => (r.ok, r.log))
      = some (false,
          [Event.getParametricArea 1 false, Event.getElementCoordinates 1 true,
           Event.getLocalIntegral 0 1, Event.initElement 0 true,
           Event.evalIntMx 0 0 0 true, Event.evalIntMx 0 1 0 true,
           Event.evalIntMx 0 0 1 true, Event.evalIntMx 0 1 1 true,
           Event.finalizeElement 0 true, Event.assemble 0 false]) := by
  decide

/-- C5, failing input.  When `evalIntMx` rejects the first Gauss point of the
element, it is still called for the three remaining points, and
`finalizeElement` and `assemble` are still called for the element. -/
theorem integrate_evalIntMx_reject_continues :
    (integrate regularGeometry (sampleCollab (fun iGP => iGP != 0) true true)
        sampleIntegrationPatch ()).map (fun r => (r.ok, r.log))
      = some (false,
          [Event.getParametricArea 1 false, Event.getElementCoordinates 1 true,
           Event.getLocalIntegral 0 1, Event.initElement 0 true,
           Event.evalIntMx 0 0 0 false, Event.evalIntMx 0 1 0 true,
           Event.evalIntMx 0 0 1 true, Event.evalIntMx 0 1 1 true,
           Event.finalizeElement 0 true, Event.assemble 0 true, Event.destruct 0]) := by
  decide

/-- Interior integration of the two-element patch when `evalIntMx` rejects the
first Gauss point of the first element: the first element is carried through to
the release of its local integral, and the second element, which sits in the
next group, is not started. -/
theorem integrate_reject_stops_later_elements :
    (integrate regularGeometry (sampleCollab (fun iGP => iGP != 0) true true)
        twoGroupPatch ()).map (fun r => (r.ok, r.log))
      = some (false,
          [Event.getParametricArea 1 false, Event.getElementCoordinates 1 true,
           Event.getLocalIntegral 0 1, Event.initElement 0 true,
           Event.evalIntMx 0 0 0 false, Event.evalIntMx 0 1 0 true,
           Event.evalIntMx 0 0 1 true, Event.evalIntMx 0 1 1 true,
           Event.finalizeElement 0 true, Event.assemble 0 true, Event.destruct 0]) := by
  with_unfolding_all decide

/-! ### Interior integration: the returned flag -/

theorem sound_quiet {g : Nat} {ok : Bool} {log : List Event} (h : Sound g ok log)
    (evs : List Event) (hq : ∀ ev ∈ evs, ev.rejects g = false) : Sound g ok (log ++ evs) := by
  unfold Sound at *
  rw [h]
  constructor
  · rintro ⟨ev, hev, hr⟩
    exact ⟨ev, List.mem_append_left _ hev, hr⟩
  · rintro ⟨ev, hev, hr⟩
    rcases List.mem_append.mp hev with h1 | h1
    · exact ⟨ev, h1, hr⟩
    · rw [hq ev h1] at hr
      cases hr

theorem sound_fail {g : Nat} (log evs : List Event)
    (hf : ∃ ev ∈ evs, ev.rejects g = true) : Sound g false (log ++ evs) := by
  unfold Sound
  obtain ⟨ev, hev, hr⟩ := hf
  exact ⟨fun _ => ⟨ev, List.mem_append_right _ hev, hr⟩, fun _ => rfl⟩

theorem sound_step {g : Nat} {ok : Bool} {log : List Event} (h : Sound g ok log)
    (b : Bool) (ev : Event) (hev : ev.rejects g = !b) : Sound g (ok && b) (log ++ [ev]) := by
  cases b with
  | true =>
    rw [Bool.and_true]
    refine sound_quiet h [ev] ?_
    intro e he
    rw [List.mem_singleton.mp he, hev]
    rfl
  | false =>
    rw [Bool.and_false]
    exact sound_fail log [ev] ⟨ev, List.mem_singleton.mpr rfl, by rw [hev]; rfl⟩

theorem hessianOthers_quiet (G : Geometry) (p : ASMu2Dmx) (d : ElementData) (i j : Nat)
    (u v : ℚ) : ∀ (bs : List Nat), ∀ ev ∈ hessianOthers G p d i j u v bs,
      ev.rejects (p.geoBasis - 1) = false := by
  intro bs
  induction bs with
  | nil => intro ev hev; simp [hessianOthers] at hev
  | cons b bs ih =>
    intro ev hev
    simp only [hessianOthers] at hev
    split at hev
    · rename_i hb
      rcases List.mem_cons.mp hev with rfl | h1
      · simp [Event.rejects, hb]
      · exact ih ev h1
    · exact ih ev hev

theorem gaussPoint_sound {σ : Type} (G : Geometry) (C : Collab σ) (p : ASMu2Dmx)
    (xg wg : List ℚ) (d : ElementData) (j i iGP : Nat) (s : Run σ)
    (h : Sound (p.geoBasis - 1) s.ok s.log) :
    Sound (p.geoBasis - 1) (gaussPoint G C p xg wg d j i iGP s).ok
      (gaussPoint G C p xg wg d j i iGP s).log := by
  unfold gaussPoint
  simp only
  split
  · exact h
  · split
    · split
      · refine sound_step ?_ _ _ (by simp [Event.rejects])
        simp only
        refine sound_quiet ?_ _ (hessianOthers_quiet G p d i j _ _ _)
        exact sound_step h _ _ (by simp [Event.rejects])
      · refine sound_step ?_ _ _ (by simp [Event.rejects])
        exact sound_step h _ _ (by simp [Event.rejects])
    · exact sound_step h _ _ (by simp [Event.rejects])

theorem gaussLoopI_sound {σ : Type} (G : Geometry) (C : Collab σ) (p : ASMu2Dmx)
    (xg wg : List ℚ) (d : ElementData) (j : Nat) :
    ∀ (is : List Nat) (iGP : Nat) (s : Run σ), Sound (p.geoBasis - 1) s.ok s.log →
      Sound (p.geoBasis - 1) (gaussLoopI G C p xg wg d j is iGP s).2.ok
        (gaussLoopI G C p xg wg d j is iGP s).2.log := by
  intro is
  induction is with
  | nil => intro iGP s h; exact h
  | cons i is ih =>
    intro iGP s h
    simp only [gaussLoopI]
    exact ih _ _ (gaussPoint_sound G C p xg wg d j i iGP s h)

theorem gaussLoopJ_sound {σ : Type} (G : Geometry) (C : Collab σ) (p : ASMu2Dmx)
    (xg wg : List ℚ) (d : ElementData) :
    ∀ (js : List Nat) (iGP : Nat) (s : Run σ), Sound (p.geoBasis - 1) s.ok s.log →
      Sound (p.geoBasis - 1) (gaussLoopJ G C p xg wg d js iGP s).2.ok
        (gaussLoopJ G C p xg wg d js iGP s).2.log := by
  intro js
  induction js with
  | nil => intro iGP s h; exact h
  | cons j js ih =>
    intro iGP s h
    simp only [gaussLoopJ]
    exact ih _ _ (gaussLoopI_sound G C p xg wg d j _ iGP s h)

theorem finishElement_sound {σ : Type} (G : Geometry) (C : Collab σ) (p : ASMu2Dmx)
    (xg wg : List ℚ) (d : ElementData) (s : Run σ) (h : Sound (p.geoBasis - 1) s.ok s.log) :
    Sound (p.geoBasis - 1) (finishElement G C p xg wg d s).ok
      (finishElement G C p xg wg d s).log := by
  have h4 := gaussLoopJ_sound G C p xg wg d (List.range p.nGauss)
    (p.firstIp + (d.loopIel - 1) * p.nGauss * p.nGauss) s h
  unfold finishElement
  dsimp only
  split
  · exact sound_fail _ _ ⟨_, List.mem_singleton.mpr rfl, rfl⟩
  · split
    · exact sound_fail _ _ ⟨_, List.mem_singleton.mpr rfl, rfl⟩
    · refine sound_quiet (sound_quiet h4 [Event.finalizeElement d.a true] ?_)
        [Event.assemble d.a true, Event.destruct d.a] ?_
      · intro ev hev
        rw [List.mem_singleton.mp hev]
        rfl
      · intro ev hev
        simp only [List.mem_cons, List.mem_singleton, List.not_mem_nil, or_false] at hev
        rcases hev with rfl | rfl <;> rfl

theorem integrateLocated_sound {σ : Type} (G : Geometry) (C : Collab σ) (p : ASMu2Dmx)
    (xg wg : List ℚ) (iel : Nat) (l : Located) (s r : Run σ)
    (h : Sound (p.geoBasis - 1) s.ok s.log)
    (hrun : integrateLocated G C p xg wg iel l s = some r) :
    Sound (p.geoBasis - 1) r.ok r.log := by
  unfold integrateLocated at hrun
  dsimp only at hrun
  split at hrun
  · simp only [Option.some.injEq] at hrun
    subst hrun
    exact sound_fail _ _ ⟨_, List.mem_singleton.mpr rfl, rfl⟩
  split at hrun
  · simp only [Option.some.injEq] at hrun
    subst hrun
    exact sound_fail _ _ ⟨_, List.mem_cons_of_mem _ (List.mem_singleton.mpr rfl), rfl⟩
  split at hrun
  · cases hrun
  split at hrun
  · simp only [Option.some.injEq] at hrun
    subst hrun
    exact sound_fail _ _ ⟨_, List.mem_cons_self _ _, rfl⟩
  · simp only [Option.some.injEq] at hrun
    subst hrun
    refine finishElement_sound G C p xg wg _ _ ?_
    refine sound_quiet (sound_quiet h _ ?_) _ ?_
    · intro ev hev
      simp only [List.mem_cons, List.mem_singleton, List.not_mem_nil, or_false] at hev
      rcases hev with rfl | rfl | rfl <;> rfl
    · intro ev hev
      rw [List.mem_singleton.mp hev]
      rfl

theorem integrateElement_sound {σ : Type} (G : Geometry) (C : Collab σ) (p : ASMu2Dmx)
    (xg wg : List ℚ) (e : Nat) (s r : Run σ) (h : Sound (p.geoBasis - 1) s.ok s.log)
    (hrun : integrateElement G C p xg wg e s = some r) :
    Sound (p.geoBasis - 1) r.ok r.log := by
  unfold integrateElement at hrun
  split at hrun
  · simp only [Option.some.injEq] at hrun
    subst hrun
    exact h
  · split at hrun
    · cases hrun
    · exact integrateLocated_sound G C p xg wg _ _ s r h hrun

theorem integrateGroup_sound {σ : Type} (G : Geometry) (C : Collab σ) (p : ASMu2Dmx)
    (xg wg : List ℚ) :
    ∀ (es : List Nat) (s r : Run σ), Sound (p.geoBasis - 1) s.ok s.log →
      integrateGroup G C p xg wg es s = some r → Sound (p.geoBasis - 1) r.ok r.log := by
  intro es
  induction es with
  | nil =>
    intro s r h hrun
    simp only [integrateGroup, Option.some.injEq] at hrun
    subst hrun
    exact h
  | cons e es ih =>
    intro s r h hrun
    simp only [integrateGroup] at hrun
    split at hrun
    · cases hrun
    · rename_i s1 hs1
      exact ih s1 r (integrateElement_sound G C p xg wg e s s1 h hs1) hrun

theorem integrateGroups_sound {σ : Type} (G : Geometry) (C : Collab σ) (p : ASMu2Dmx)
    (xg wg : List ℚ) :
    ∀ (gs : List (List Nat)) (s r : Run σ), Sound (p.geoBasis - 1) s.ok s.log →
      integrateGroups G C p xg wg gs s = some r → Sound (p.geoBasis - 1) r.ok r.log := by
  intro gs
  induction gs with
  | nil =>
    intro s r h hrun
    simp only [integrateGroups, Option.some.injEq] at hrun
    subst hrun
    exact h
  | cons g gs ih =>
    intro s r h hrun
    simp only [integrateGroups] at hrun
    split at hrun
    · simp only [Option.some.injEq] at hrun
      subst hrun
      exact h
    · split at hrun
      · cases hrun
      · rename_i s1 hs1
        exact ih s1 r (integrateGroup_sound G C p xg wg g s s1 h hs1) hrun

theorem gaussPoint_agrees {σ : Type} (G : Geometry) (C : Collab σ) (p : ASMu2Dmx)
    (H' : Nat → Nat → ℚ → ℚ → Bool)
    (hH : ∀ iel u v, H' iel (p.geoBasis - 1) u v = G.Hessian iel (p.geoBasis - 1) u v)
    (xg wg : List ℚ) (d : ElementData) (j i iGP : Nat) (s t : Run σ) (hst : s.agrees t) :
    (gaussPoint G C p xg wg d j i iGP s).agrees
      (gaussPoint { G with Hessian := H' } C p xg wg d j i iGP t) := by
  obtain ⟨h1, h2, h3⟩ := hst
  unfold gaussPoint
  dsimp only
  rw [hH]
  split
  · exact ⟨h1, h2, h3⟩
  · split
    · split <;> split <;> simp_all [Run.agrees]
    · simp_all [Run.agrees]

theorem gaussLoopI_agrees {σ : Type} (G : Geometry) (C : Collab σ) (p : ASMu2Dmx)
    (H' : Nat → Nat → ℚ → ℚ → Bool)
    (hH : ∀ iel u v, H' iel (p.geoBasis - 1) u v = G.Hessian iel (p.geoBasis - 1) u v)
    (xg wg : List ℚ) (d : ElementData) (j : Nat) :
    ∀ (is : List Nat) (iGP : Nat) (s t : Run σ), s.agrees t →
      (gaussLoopI G C p xg wg d j is iGP s).1
          = (gaussLoopI { G with Hessian := H' } C p xg wg d j is iGP t).1 ∧
      (gaussLoopI G C p xg wg d j is iGP s).2.agrees
        (gaussLoopI { G with Hessian := H' } C p xg wg d j is iGP t).2 := by
  intro is
  induction is with
  | nil => intro iGP s t h; exact ⟨rfl, h⟩
  | cons i is ih =>
    intro iGP s t h
    simp only [gaussLoopI]
    exact ih _ _ _ (gaussPoint_agrees G C p H' hH xg wg d j i iGP s t h)

theorem gaussLoopJ_agrees {σ : Type} (G : Geometry) (C : Collab σ) (p : ASMu2Dmx)
    (H' : Nat → Nat → ℚ → ℚ → Bool)
    (hH : ∀ iel u v, H' iel (p.geoBasis - 1) u v = G.Hessian iel (p.geoBasis - 1) u v)
    (xg wg : List ℚ) (d : ElementData) :
    ∀ (js : List Nat) (iGP : Nat) (s t : Run σ), s.agrees t →
      (gaussLoopJ G C p xg wg d js iGP s).2.agrees
        (gaussLoopJ { G with Hessian := H' } C p xg wg d js iGP t).2 := by
  intro js
  induction js with
  | nil => intro iGP s t h; exact h
  | cons j js ih =>
    intro iGP s t h
    simp only [gaussLoopJ]
    obtain ⟨h1, h2⟩ := gaussLoopI_agrees G C p H' hH xg wg d j (List.range p.nGauss) iGP s t h
    rw [← h1]
    exact ih _ _ _ h2

theorem finishElement_agrees {σ : Type} (G : Geometry) (C : Collab σ) (p : ASMu2Dmx)
    (H' : Nat → Nat → ℚ → ℚ → Bool)
    (hH : ∀ iel u v, H' iel (p.geoBasis - 1) u v = G.Hessian iel (p.geoBasis - 1) u v)
    (xg wg : List ℚ) (d : ElementData) (s t : Run σ) (hst : s.agrees t) :
    (finishElement G C p xg wg d s).agrees
      (finishElement { G with Hessian := H' } C p xg wg d t) := by
  obtain ⟨h1, h2, h3⟩ := gaussLoopJ_agrees G C p H' hH xg wg d (List.range p.nGauss)
    (p.firstIp + (d.loopIel - 1) * p.nGauss * p.nGauss) s t hst
  unfold finishElement
  dsimp only
  rw [← h2]
  split
  · exact ⟨rfl, rfl, h3⟩
  · split
    · exact ⟨rfl, rfl, h3⟩
    · exact ⟨h1, rfl, h3⟩

theorem integrateLocated_agrees {σ : Type} (G : Geometry) (C : Collab σ) (p : ASMu2Dmx)
    (H' : Nat → Nat → ℚ → ℚ → Bool)
    (hH : ∀ iel u v, H' iel (p.geoBasis - 1) u v = G.Hessian iel (p.geoBasis - 1) u v)
    (xg wg : List ℚ) (iel : Nat) (l : Located) (s t r : Run σ) (hst : s.agrees t)
    (hrun : integrateLocated G C p xg wg iel l s = some r) :
    ∃ r', integrateLocated { G with Hessian := H' } C p xg wg iel l t = some r' ∧
      r.agrees r' := by
  obtain ⟨h1, h2, h3⟩ := hst
  unfold integrateLocated at hrun ⊢
  dsimp only at hrun ⊢
  rw [← h2, ← h3]
  split at hrun
  · rename_i hdA
    simp only [Option.some.injEq] at hrun
    subst hrun
    rw [if_pos hdA]
    exact ⟨_, rfl, ⟨rfl, rfl, rfl⟩⟩
  rename_i hdA
  rw [if_neg hdA]
  split at hrun
  · rename_i hco
    simp only [Option.some.injEq] at hrun
    subst hrun
    rw [if_pos hco]
    exact ⟨_, rfl, ⟨rfl, rfl, rfl⟩⟩
  rename_i hco
  rw [if_neg hco]
  cases hm : p.myMNPC[l.geoEl - 1]? with
  | none => simp [hm] at hrun
  | some mnpc =>
    simp only [hm] at hrun ⊢
    split at hrun
    · rename_i hin
      simp only [Option.some.injEq] at hrun
      subst hrun
      rw [if_pos hin]
      exact ⟨_, rfl, ⟨rfl, rfl, rfl⟩⟩
    · rename_i hin
      simp only [Option.some.injEq] at hrun
      subst hrun
      rw [if_neg hin]
      exact ⟨_, rfl, finishElement_agrees G C p H' hH xg wg _ _ _ ⟨h1, rfl, rfl⟩⟩

theorem integrateElement_agrees {σ : Type} (G : Geometry) (C : Collab σ) (p : ASMu2Dmx)
    (H' : Nat → Nat → ℚ → ℚ → Bool)
    (hH : ∀ iel u v, H' iel (p.geoBasis - 1) u v = G.Hessian iel (p.geoBasis - 1) u v)
    (xg wg : List ℚ) (e : Nat) (s t r : Run σ) (hst : s.agrees t)
    (hrun : integrateElement G C p xg wg e s = some r) :
    ∃ r', integrateElement { G with Hessian := H' } C p xg wg e t = some r' ∧ r.agrees r' := by
  unfold integrateElement at hrun ⊢
  rw [← hst.1]
  split at hrun
  · rename_i hok
    simp only [Option.some.injEq] at hrun
    subst hrun
    rw [if_pos hok]
    exact ⟨_, rfl, hst⟩
  · rename_i hok
    rw [if_neg hok]
    cases hl : locate p (e + 1) with
    | none => simp [hl] at hrun
    | some l =>
      simp only [hl] at hrun ⊢
      exact integrateLocated_agrees G C p H' hH xg wg _ l s t r hst hrun

theorem integrateGroup_agrees {σ : Type} (G : Geometry) (C : Collab σ) (p : ASMu2Dmx)
    (H' : Nat → Nat → ℚ → ℚ → Bool)
    (hH : ∀ iel u v, H' iel (p.geoBasis - 1) u v = G.Hessian iel (p.geoBasis - 1) u v)
    (xg wg : List ℚ) :
    ∀ (es : List Nat) (s t r : Run σ), s.agrees t →
      integrateGroup G C p xg wg es s = some r →
      ∃ r', integrateGroup { G with Hessian := H' } C p xg wg es t = some r' ∧ r.agrees r' := by
  intro es
  induction es with
  | nil =>
    intro s t r hst hrun
    simp only [integrateGroup, Option.some.injEq] at hrun ⊢
    subst hrun
    exact ⟨t, rfl, hst⟩
  | cons e es ih =>
    intro s t r hst hrun
    simp only [integrateGroup] at hrun ⊢
    cases h1 : integrateElement G C p xg wg e s with
    | none => simp [h1] at hrun
    | some s1 =>
      simp only [h1] at hrun
      obtain ⟨t1, ht1, hag⟩ := integrateElement_agrees G C p H' hH xg wg e s t s1 hst h1
      simp only [ht1]
      exact ih s1 t1 r hag hrun

theorem integrateGroups_agrees {σ : Type} (G : Geometry) (C : Collab σ) (p : ASMu2Dmx)
    (H' : Nat → Nat → ℚ → ℚ → Bool)
    (hH : ∀ iel u v, H' iel (p.geoBasis - 1) u v = G.Hessian iel (p.geoBasis - 1) u v)
    (xg wg : List ℚ) :
    ∀ (gs : List (List Nat)) (s t r : Run σ), s.agrees t →
      integrateGroups G C p xg wg gs s = some r →
      ∃ r', integrateGroups { G with Hessian := H' } C p xg wg gs t = some r' ∧ r.agrees r' := by
  intro gs
  induction gs with
  | nil =>
    intro s t r hst hrun
    simp only [integrateGroups, Option.some.injEq] at hrun ⊢
    subst hrun
    exact ⟨t, rfl, hst⟩
  | cons g gs ih =>
    intro s t r hst hrun
    simp only [integrateGroups] at hrun ⊢
    rw [← hst.1]
    split at hrun
    · rename_i hok
      simp only [Option.some.injEq] at hrun
      subst hrun
      rw [if_pos hok]
      exact ⟨t, rfl, hst⟩
    · rename_i hok
      rw [if_neg hok]
      cases h1 : integrateGroup G C p xg wg g s with
      | none => simp [h1] at hrun
      | some s1 =>
        simp only [h1] at hrun
        obtain ⟨t1, ht1, hag⟩ := integrateGroup_agrees G C p H' hH xg wg g s t s1 hst h1
        simp only [ht1]
        exact ih s1 t1 r hag hrun

theorem integrateElement_defined {σ : Type} (G : Geometry) (C : Collab σ) (p : ASMu2Dmx)
    (xg wg : List ℚ) (e : Nat) (s : Run σ)
    (h : ∃ l, locate p (e + 1) = some l ∧ ∃ mnpc, p.myMNPC[l.geoEl - 1]? = some mnpc) :
    ∃ r, integrateElement G C p xg wg e s = some r := by
  obtain ⟨l, hl, mnpc, hm⟩ := h
  unfold integrateElement
  split
  · exact ⟨_, rfl⟩
  · simp only [hl]
    unfold integrateLocated
    dsimp only
    split
    · exact ⟨_, rfl⟩
    · split
      · exact ⟨_, rfl⟩
      · simp only [hm]
        split <;> exact ⟨_, rfl⟩

theorem integrateGroup_defined {σ : Type} (G : Geometry) (C : Collab σ) (p : ASMu2Dmx)
    (xg wg : List ℚ) :
    ∀ (es : List Nat) (s : Run σ),
      (∀ e ∈ es, ∃ l, locate p (e + 1) = some l ∧ ∃ mnpc, p.myMNPC[l.geoEl - 1]? = some mnpc) →
      ∃ r, integrateGroup G C p xg wg es s = some r := by
  intro es
  induction es with
  | nil => intro s _; exact ⟨s, rfl⟩
  | cons e es ih =>
    intro s h
    obtain ⟨s1, hs1⟩ := integrateElement_defined G C p xg wg e s (h e (List.mem_cons_self _ _))
    simp only [integrateGroup, hs1]
    exact ih s1 (fun x hx => h x (List.mem_cons_of_mem _ hx))

theorem integrateGroups_defined {σ : Type} (G : Geometry) (C : Collab σ) (p : ASMu2Dmx)
    (xg wg : List ℚ) :
    ∀ (gs : List (List Nat)) (s : Run σ), Schedulable p gs →
      ∃ r, integrateGroups G C p xg wg gs s = some r := by
  intro gs
  induction gs with
  | nil => intro s _; exact ⟨s, rfl⟩
  | cons g gs ih =>
    intro s h
    simp only [integrateGroups]
    split
    · exact ⟨s, rfl⟩
    · obtain ⟨s1, hs1⟩ := integrateGroup_defined G C p xg wg g s (h g (List.mem_cons_self _ _))
      simp only [hs1]
      exact ih s1 (fun x hx => h x (List.mem_cons_of_mem _ hx))

/-- C4. For a patch with at least one basis and an available Gauss rule, interior
integration (elements processed sequentially) returns a flag whenever the
element lookups of the scheduled elements are defined, and the flag it returns
is failure if and only if the calls made for the processed elements contain a
failure: a negative parametric area, element coordinates that cannot be
obtained, or a rejection by `initElement`, by `utl::Hessian` for the geometry
basis at an evaluated point, by `evalIntMx`, by `finalizeElement` or by
`assemble`.  Replacing the outcomes of `utl::Hessian` for the other bases changes
neither the returned flag nor the state of the collaborators, and a patch
without bases returns success. -/
theorem integrate_fails_iff {σ : Type} (G : Geometry) (C : Collab σ) (p : ASMu2Dmx) (s0 : σ)
    (xg wg : List ℚ) (hb : p.m_basis ≠ [])
    (hx : G.getCoord p.nGauss = some xg) (hw : G.getWeight p.nGauss = some wg) :
    (Schedulable p (integrationGroups C p) → ∃ r, integrate G C p s0 = some r) ∧
    (∀ r, integrate G C p s0 = some r →
      (r.ok = false ↔ ∃ ev ∈ r.log, ev.rejects (p.geoBasis - 1) = true) ∧
      (∀ H' : Nat → Nat → ℚ → ℚ → Bool,
        (∀ iel u v, H' iel (p.geoBasis - 1) u v = G.Hessian iel (p.geoBasis - 1) u v) →
        ∃ r', integrate { G with Hessian := H' } C p s0 = some r' ∧
          r'.ok = r.ok ∧ r'.col = r.col)) ∧
    (∀ (G0 : Geometry) (q : ASMu2Dmx), q.m_basis = [] →
      integrate G0 C q s0 = some { ok := true, col := s0, log := [], nA := 0 }) := by
  have hunfold : ∀ H : Nat → Nat → ℚ → ℚ → Bool,
      integrate { G with Hessian := H } C p s0
        = integrateGroups { G with Hessian := H } C p xg wg (integrationGroups C p)
            { ok := true, col := s0, log := [], nA := 0 } := by
    intro H
    unfold integrate
    simp only [hb, if_false, hx, hw]
  have hG : integrate G C p s0
      = integrateGroups G C p xg wg (integrationGroups C p)
          { ok := true, col := s0, log := [], nA := 0 } := hunfold G.Hessian
  refine ⟨?_, ?_, ?_⟩
  · intro hs
    rw [hG]
    exact integrateGroups_defined G C p xg wg _ _ hs
  · intro r hrun
    rw [hG] at hrun
    refine ⟨?_, ?_⟩
    · refine integrateGroups_sound G C p xg wg _ _ r ?_ hrun
      unfold Sound
      simp
    · intro H' hH
      obtain ⟨r', hr', hag⟩ := integrateGroups_agrees G C p H' hH xg wg _ _ _ r
        ⟨rfl, rfl, rfl⟩ hrun
      exact ⟨r', by rw [hunfold H']; exact hr', hag.1.symm, hag.2.1.symm⟩
  · intro G0 q hq
    unfold integrate
    simp only [hq, if_true]

theorem sample_schedulable (C : Collab Unit) :
    Schedulable sampleIntegrationPatch (integrationGroups C sampleIntegrationPatch) := by
  have h1 : Schedulable sampleIntegrationPatch [[0]] := by
    intro g hg e he
    rw [List.mem_singleton.mp hg] at he
    rw [List.mem_singleton.mp he]
    exact ⟨_, rfl, _, rfl⟩
  unfold integrationGroups
  split
  · exact h1
  · exact h1

/-- Witness of C4: the run on the sample patch, with second derivatives, in which
`finalizeElement` rejects. -/
theorem integrate_fails_iff_witness :
    sampleIntegrationPatch.m_basis ≠ [] ∧
    regularGeometry.getCoord sampleIntegrationPatch.nGauss = some [-1, 1] ∧
    regularGeometry.getWeight sampleIntegrationPatch.nGauss = some [1, 1] ∧
    Schedulable sampleIntegrationPatch (integrationGroups rejectingCollab sampleIntegrationPatch) ∧
    (integrate regularGeometry rejectingCollab sampleIntegrationPatch ()).map (fun r => r.ok)
      = some false ∧
    (Schedulable sampleIntegrationPatch
        (integrationGroups rejectingCollab sampleIntegrationPatch) →
      ∃ r, integrate regularGeometry rejectingCollab sampleIntegrationPatch () = some r) ∧
    (∀ r, integrate regularGeometry rejectingCollab sampleIntegrationPatch () = some r →
      (r.ok = false ↔ ∃ ev ∈ r.log, ev.rejects (sampleIntegrationPatch.geoBasis - 1) = true) ∧
      (∀ H' : Nat → Nat → ℚ → ℚ → Bool,
        (∀ iel u v, H' iel (sampleIntegrationPatch.geoBasis - 1) u v
            = regularGeometry.Hessian iel (sampleIntegrationPatch.geoBasis - 1) u v) →
        ∃ r', integrate { regularGeometry with Hessian := H' } rejectingCollab
            sampleIntegrationPatch () = some r' ∧
          r'.ok = r.ok ∧ r'.col = r.col)) ∧
    (∀ (G0 : Geometry) (q : ASMu2Dmx), q.m_basis = [] →
      integrate G0 rejectingCollab q () = some { ok := true, col := (), log := [], nA := 0 }) :=
  ⟨by decide, rfl, rfl, sample_schedulable rejectingCollab, rfl,
    integrate_fails_iff regularGeometry rejectingCollab sampleIntegrationPatch () [-1, 1] [1, 1]
      (by decide) rfl rfl⟩

/-! ### Singular quadrature points -/

theorem bouLoop_stopped {σ : Type} (G : Geometry) (C : Collab σ) (xg wg : List ℚ)
    (d : BouData) (is : List Nat) (fe : FiniteElement) (s : Run σ) (h : s.ok = false) :
    (bouLoop G C xg wg d is fe s).2 = s := by
  cases is with
  | nil => rfl
  | cons i is => simp only [bouLoop, h, if_true]

/-- C6. At a quadrature point where the Jacobian determinant returned by the
coordinate mapping is exactly zero, the body of the Gauss loop of interior
integration and of boundary integration leaves the run as it is: no call of
`evalIntMx` / `evalBouMx` (nor any other call) is made, the collaborators keep
their state and `ok` keeps its value; the loop then goes on with the remaining
points of the element, the integration point counter advanced by one. -/
theorem singular_point_skipped {σ : Type} (G : Geometry) (C : Collab σ) (p : ASMu2Dmx)
    (xg wg : List ℚ) (d : ElementData) (j i iGP : Nat) (is : List Nat) (s : Run σ)
    (bd : BouData) (k : Nat) (ks : List Nat) (fe : FiniteElement) (t : Run σ)
    (hint : G.Jacobian d.geoEl (d.gpar0.getD i 0) (d.gpar1.getD j 0) = 0)
    (hbou : (G.JacobianBou bd.geoEl (Int.natAbs bd.edgeDir) (3 - Int.natAbs bd.edgeDir)
      (bd.gpar0.getD k 0) (bd.gpar1.getD k 0)).1 = 0) :
    gaussPoint G C p xg wg d j i iGP s = s ∧
    gaussLoopI G C p xg wg d j (i :: is) iGP s = gaussLoopI G C p xg wg d j is (iGP + 1) s ∧
    (bouPoint G C xg wg bd k fe t).2 = t ∧
    (bouLoop G C xg wg bd (k :: ks) fe t).2
      = (bouLoop G C xg wg bd ks
          { (bouPoint G C xg wg bd k fe t).1 with iGP := (bouPoint G C xg wg bd k fe t).1.iGP + 1 }
          t).2 := by
  have h1 : gaussPoint G C p xg wg d j i iGP s = s := by
    unfold gaussPoint
    simp only [hint, if_true]
  have h2 : (bouPoint G C xg wg bd k fe t).2 = t := by
    unfold bouPoint
    simp only [hbou, if_true]
  refine ⟨h1, ?_, h2, ?_⟩
  · simp only [gaussLoopI, h1]
  · simp only [bouLoop]
    split
    · rename_i hok
      rw [bouLoop_stopped G C xg wg bd ks _ t hok]
    · rw [h2]

/-- Witness of C6 on the sample geometry, whose Jacobian vanishes at `u = 0`. -/
theorem singular_point_skipped_witness :
    sampleGeometry.Jacobian sampleElementData.geoEl
        (sampleElementData.gpar0.getD 0 0) (sampleElementData.gpar1.getD 1 0) = 0 ∧
    (sampleGeometry.JacobianBou sampleBouData.geoEl (Int.natAbs sampleBouData.edgeDir)
        (3 - Int.natAbs sampleBouData.edgeDir)
        (sampleBouData.gpar0.getD 0 0) (sampleBouData.gpar1.getD 0 0)).1 = 0 ∧
    (gaussPoint sampleGeometry rejectingCollab sampleIntegrationPatch [-1, 1] [1, 1]
        sampleElementData 1 0 2 sampleRun = sampleRun ∧
      gaussLoopI sampleGeometry rejectingCollab sampleIntegrationPatch [-1, 1] [1, 1]
          sampleElementData 1 [0, 1] 2 sampleRun
        = gaussLoopI sampleGeometry rejectingCollab sampleIntegrationPatch [-1, 1] [1, 1]
          sampleElementData 1 [1] (2 + 1) sampleRun ∧
      (bouPoint sampleGeometry rejectingCollab [-1, 1] [1, 1] sampleBouData 0
          (sampleGeometry.MxFiniteElement [9, 4] 0) sampleRun).2 = sampleRun ∧
      (bouLoop sampleGeometry rejectingCollab [-1, 1] [1, 1] sampleBouData [0, 1]
          (sampleGeometry.MxFiniteElement [9, 4] 0) sampleRun).2
        = (bouLoop sampleGeometry rejectingCollab [-1, 1] [1, 1] sampleBouData [1]
            { (bouPoint sampleGeometry rejectingCollab [-1, 1] [1, 1] sampleBouData 0
                (sampleGeometry.MxFiniteElement [9, 4] 0) sampleRun).1 with
              iGP := (bouPoint sampleGeometry rejectingCollab [-1, 1] [1, 1] sampleBouData 0
                (sampleGeometry.MxFiniteElement [9, 4] 0) sampleRun).1.iGP + 1 }
            sampleRun).2) :=
  ⟨by decide, by decide,
    singular_point_skipped sampleGeometry rejectingCollab sampleIntegrationPatch [-1, 1] [1, 1]
      sampleElementData 1 0 2 [1] sampleRun sampleBouData 0 [1]
      (sampleGeometry.MxFiniteElement [9, 4] 0) sampleRun (by decide) (by decide)⟩

/-- Interior integration of the sample patch with the singular geometry: the
integrand is called at the regular points only and the call succeeds. -/
theorem integrate_singular_sample :
    (integrate sampleGeometry (sampleCollab (fun _ => true) true true)
        sampleIntegrationPatch ()).map (fun r => (r.ok, r.log))
      = some (true,
          [Event.getParametricArea 1 false, Event.getElementCoordinates 1 true,
           Event.getLocalIntegral 0 1, Event.initElement 0 true,
           Event.evalIntMx 0 1 0 true, Event.evalIntMx 0 1 1 true,
           Event.finalizeElement 0 true, Event.assemble 0 true, Event.destruct 0]) := by
  decide

/-- Boundary integration of the sample patch along the edge `u = 0` with the
singular geometry: the first edge point is singular and is skipped, the second
is integrated, and the call succeeds. -/
theorem integrateBou_singular_sample :
    (integrateBou sampleGeometry (sampleCollab (fun _ => true) true true)
        sampleIntegrationPatch 1 ()).map (fun r => (r.ok, r.log))
      = some (true,
          [Event.getParametricLength 1 false, Event.getElementCoordinates 1 true,
           Event.getLocalIntegral 0 1, Event.initElementBou 0 true,
           Event.evalBouMx 0 1 true,
           Event.finalizeElementBou 0 true, Event.assemble 0 true, Event.destruct 0]) := by
  with_unfolding_all decide

/-! ### Refinement -/

theorem renumber_len (K : External) (nfx : List Nat) :
    ∀ (ptrs : List Nat) (j : Nat) (h : Heap) (nb : List Nat) (len : Nat)
      (out : Heap × List Nat × Nat),
      renumber K nfx ptrs j h nb len = some out →
        out.2.1.length = nb.length ∧ (∀ k, k < j → out.2.1[k]? = nb[k]?) ∧
        out.2.2 = len +
          ((List.range' j ptrs.length).map (fun k => nfx.getD k 0 * out.2.1.getD k 0)).sum := by
  intro ptrs
  induction ptrs with
  | nil =>
    intro j h nb len out hr
    simp only [renumber, Option.some.injEq] at hr
    subst hr
    simp
  | cons a as ih =>
    intro j h nb len out hr
    simp only [renumber] at hr
    cases hu : h.update a K.generateIDs with
    | none => simp [hu] at hr
    | some h1 =>
      simp only [hu] at hr
      cases hb : h1[a]? with
      | none => simp [hb] at hr
      | some b =>
        cases hn : nfx[j]? with
        | none => simp [hb, hn] at hr
        | some nf =>
          simp only [hb, hn] at hr
          split at hr
          · rename_i hj
            obtain ⟨h1', h2', h3'⟩ := ih _ _ _ _ _ hr
            rw [List.length_set] at h1'
            have hjj : out.2.1[j]? = some b.nBasisFunctions := by
              rw [h2' j (Nat.lt_succ_self j)]
              simp [List.getElem?_set, hj]
            refine ⟨h1', ?_, ?_⟩
            · intro k hk
              rw [h2' k (by omega)]
              simp only [List.getElem?_set]
              rw [if_neg (by omega)]
            · rw [h3']
              simp only [List.length_cons, List.range'_succ, List.map_cons, List.sum_cons]
              have e1 : nfx.getD j 0 = nf := by simp [List.getD_eq_getElem?_getD, hn]
              have e2 : out.2.1.getD j 0 = b.nBasisFunctions := by
                simp [List.getD_eq_getElem?_getD, hjj]
              rw [e1, e2]
              omega
          · cases hr

theorem contractBases_length (K : External) (nfx nb : List Nat) (len i : Nat)
    (hinplace : ∀ b v nf ofs, (K.contractControlPoints b v nf ofs).2.length = v.length) :
    ∀ (ptrs : List Nat) (j : Nat) (v : List ℚ) (st : ContractState)
      (out : List ℚ × ContractState),
      contractBases K nfx nb len i ptrs j v st = some out →
        (ptrs = [] → out.1 = v) ∧ (ptrs ≠ [] → out.1.length = len) := by
  intro ptrs
  induction ptrs with
  | nil =>
    intro j v st out hr
    simp only [contractBases, Option.some.injEq] at hr
    subst hr
    simp
  | cons a as ih =>
    intro j v st out hr
    simp only [contractBases] at hr
    split at hr
    · obtain ⟨h1, h2⟩ := ih _ _ _ _ hr
      refine ⟨fun h => (by cases h), fun _ => ?_⟩
      by_cases has : as = []
      · rw [h1 has, hinplace, resize_length]
      · exact h2 has
    · cases hr

theorem contractAll_length (K : External) (nfx nb : List Nat) (len : Nat) (ptrs : List Nat)
    (hinplace : ∀ b v nf ofs, (K.contractControlPoints b v nf ofs).2.length = v.length)
    (hp : ptrs ≠ []) :
    ∀ (vs : List (List ℚ)) (st : ContractState) (out : List (List ℚ) × ContractState),
      contractAll K nfx nb len ptrs vs st = some out →
        out.1.length = vs.length ∧ ∀ v ∈ out.1, v.length = len := by
  intro vs
  induction vs with
  | nil =>
    intro st out hr
    simp only [contractAll, Option.some.injEq] at hr
    subst hr
    simp
  | cons v vs ih =>
    intro st out hr
    simp only [contractAll] at hr
    cases hc : contractBases K nfx nb len vs.length ptrs 0 v st with
    | none => simp [hc] at hr
    | some r =>
      simp only [hc] at hr
      cases ha : contractAll K nfx nb len ptrs vs r.2 with
      | none => simp [ha] at hr
      | some rs =>
        simp only [ha, Option.some.injEq] at hr
        subst hr
        obtain ⟨h1, h2⟩ := ih _ _ ha
        have h3 := (contractBases_length K nfx nb len vs.length hinplace ptrs 0 v st r hc).2 hp
        refine ⟨by simp [h1], ?_⟩
        intro w hw
        rcases List.mem_cons.mp hw with rfl | hw
        · exact h3
        · exact h2 w hw

theorem subgrid_bases (K : External) (p q : ASMu2Dmx) (h : subgrid K p = some q)
    (hb : p.m_basis ≠ []) :
    q.m_basis ≠ [] ∧ q.m_basis.length = p.m_basis.length ∧ q.nfx = p.nfx := by
  unfold subgrid at h
  split at h
  · split at h
    · rename_i rb x rest hrb hm
      simp only [Option.some.injEq] at h
      subst h
      simp [hm]
    · cases h
  · simp only [Option.some.injEq] at h
    subst h
    exact ⟨hb, rfl, rfl⟩

theorem update_defined (h : Heap) (a : Nat) (f : LRSplineSurface → LRSplineSurface)
    (ha : a < h.length) : ∃ h1, h.update a f = some h1 ∧ h1.length = h.length := by
  unfold Heap.update
  rw [List.getElem?_eq_getElem ha]
  exact ⟨_, rfl, List.length_set _ _ _⟩

theorem getElem?_defined {α : Type} (l : List α) (k : Nat) (hk : k < l.length) :
    ∃ x, l[k]? = some x :=
  ⟨l[k], List.getElem?_eq_getElem hk⟩

theorem extendBases_defined (K : External) (p : ASMu2Dmx) (solvec : List ℚ) :
    ∀ (ptrs : List Nat) (j : Nat) (h : Heap), (∀ a ∈ ptrs, a < h.length) →
      j + ptrs.length ≤ p.nfx.length →
      ∃ h1, extendBases K p solvec ptrs j h = some h1 ∧ h1.length = h.length := by
  intro ptrs
  induction ptrs with
  | nil => intro j h _ _; exact ⟨h, rfl, rfl⟩
  | cons a as ih =>
    intro j h hp hn
    simp only [List.length_cons] at hn
    simp only [extendBases]
    rw [List.getElem?_eq_getElem (show j < p.nfx.length by omega)]
    obtain ⟨h1, hu, hl⟩ := update_defined h a (fun b => K.extendControlPoints b
      (K.extractNodeVecMx { p with heap := h } solvec (j + 1)) p.nfx[j])
      (hp a (List.mem_cons_self _ _))
    simp only [hu]
    obtain ⟨h2, he, hl2⟩ := ih (j + 1) h1
      (fun x hx => by rw [hl]; exact hp x (List.mem_cons_of_mem _ hx)) (by omega)
    exact ⟨h2, he, by rw [hl2, hl]⟩

theorem extendAll_defined (K : External) (p : ASMu2Dmx) (hn : p.m_basis.length ≤ p.nfx.length) :
    ∀ (sol : List (List ℚ)) (h : Heap), (∀ a ∈ p.m_basis, a < h.length) →
      ∃ h1, extendAll K p sol h = some h1 ∧ h1.length = h.length := by
  intro sol
  induction sol with
  | nil => intro h _; exact ⟨h, rfl, rfl⟩
  | cons v vs ih =>
    intro h hp
    obtain ⟨h1, he, hl⟩ := extendBases_defined K p v p.m_basis 0 h hp (by omega)
    simp only [extendAll, he]
    obtain ⟨h2, he2, hl2⟩ := ih h1 (fun x hx => by rw [hl]; exact hp x hx)
    exact ⟨h2, he2, by rw [hl2, hl]⟩

theorem propagate_defined (K : External) (p : ASMu2Dmx) (r : Nat) (hr : p.refBasis = some r) :
    ∀ (ptrs : List Nat) (j : Nat) (h : Heap), (∀ a ∈ ptrs, a < h.length) → r < h.length →
      ∃ h1, propagate K p ptrs j h = some h1 ∧ h1.length = h.length := by
  intro ptrs
  induction ptrs with
  | nil => intro j h _ _; exact ⟨h, rfl, rfl⟩
  | cons a as ih =>
    intro j h hp hrl
    simp only [propagate]
    split
    · unfold copyRefinement
      simp only [hr, Option.some_bind, List.getElem?_eq_getElem hrl]
      obtain ⟨h1, hu, hl⟩ := update_defined h a
        (copyRefinementLines K (if (j = 0 ∧ p.Type_ = MixedType.REDUCED_CONT_RAISE_BASIS1) ∨
          (j = 1 ∧ p.Type_ = MixedType.REDUCED_CONT_RAISE_BASIS2) then 2 else 1)
          h[r].meshlines) (hp a (List.mem_cons_self _ _))
      simp only [hu]
      obtain ⟨h2, he, hl2⟩ := ih (j + 1) h1
        (fun x hx => by rw [hl]; exact hp x (List.mem_cons_of_mem _ hx)) (by rw [hl]; exact hrl)
      exact ⟨h2, he, by rw [hl2, hl]⟩
    · exact ih (j + 1) h (fun x hx => hp x (List.mem_cons_of_mem _ hx)) hrl

theorem subgrid_defined (K : External) (p : ASMu2Dmx) (r : Nat) (hr : p.refBasis = some r)
    (hrl : r < p.heap.length) (hp : ∀ a ∈ p.m_basis, a < p.heap.length)
    (hs : p.Type_ = MixedType.SUBGRID → p.m_basis ≠ []) :
    ∃ q, subgrid K p = some q ∧ (∀ a ∈ q.m_basis, a < q.heap.length) ∧
      q.m_basis.length = p.m_basis.length ∧ q.nfx = p.nfx ∧ q.nb = p.nb := by
  unfold subgrid
  split
  · rename_i ht
    simp only [hr, Option.some_bind, List.getElem?_eq_getElem hrl]
    cases hm : p.m_basis with
    | nil => exact absurd hm (hs ht)
    | cons a rest =>
      refine ⟨_, rfl, ?_, by simp, rfl, rfl⟩
      intro x hx
      simp only [Heap.alloc, List.length_append, List.length_singleton] at hx ⊢
      rcases List.mem_cons.mp hx with rfl | hx
      · omega
      · have := hp x (by rw [hm]; exact List.mem_cons_of_mem _ hx)
        omega
  · exact ⟨p, rfl, hp, rfl, rfl, rfl⟩

theorem renumber_defined (K : External) (nfx : List Nat) :
    ∀ (ptrs : List Nat) (j : Nat) (h : Heap) (nb : List Nat) (len : Nat),
      (∀ a ∈ ptrs, a < h.length) → j + ptrs.length ≤ nfx.length → j + ptrs.length ≤ nb.length →
      ∃ out, renumber K nfx ptrs j h nb len = some out ∧ out.1.length = h.length := by
  intro ptrs
  induction ptrs with
  | nil => intro j h nb len _ _ _; exact ⟨_, rfl, rfl⟩
  | cons a as ih =>
    intro j h nb len hp hn hb
    simp only [List.length_cons] at hn hb
    simp only [renumber]
    obtain ⟨h1, hu, hl⟩ := update_defined h a K.generateIDs (hp a (List.mem_cons_self _ _))
    obtain ⟨b, hb1⟩ := getElem?_defined h1 a (by rw [hl]; exact hp a (List.mem_cons_self _ _))
    obtain ⟨nf, hnf⟩ := getElem?_defined nfx j (by omega)
    simp only [hu, hb1, hnf]
    rw [if_pos (show j < nb.length by omega)]
    obtain ⟨out, ho, hlo⟩ := ih (j + 1) h1 (nb.set j b.nBasisFunctions)
      (len + nf * b.nBasisFunctions)
      (fun x hx => by rw [hl]; exact hp x (List.mem_cons_of_mem _ hx)) (by omega)
      (by rw [List.length_set]; omega)
    exact ⟨out, ho, by rw [hlo, hl]⟩

theorem contractBases_defined (K : External) (nfx nb : List Nat) (len i : Nat) :
    ∀ (ptrs : List Nat) (j : Nat) (v : List ℚ) (st : ContractState),
      (∀ a ∈ ptrs, a < st.heap.length) → j + ptrs.length ≤ nfx.length →
      j + ptrs.length ≤ nb.length →
      ∃ out, contractBases K nfx nb len i ptrs j v st = some out ∧
        out.2.heap.length = st.heap.length := by
  intro ptrs
  induction ptrs with
  | nil => intro j v st _ _ _; exact ⟨_, rfl, rfl⟩
  | cons a as ih =>
    intro j v st hp hn hb
    simp only [List.length_cons] at hn hb
    simp only [contractBases]
    obtain ⟨b, hb1⟩ := getElem?_defined st.heap a (hp a (List.mem_cons_self _ _))
    obtain ⟨nf, hnf⟩ := getElem?_defined nfx j (by omega)
    obtain ⟨n, hn1⟩ := getElem?_defined nb j (by omega)
    simp only [hb1, hnf, hn1]
    obtain ⟨out, ho, hlo⟩ := ih (j + 1)
      (K.contractControlPoints b (resize v len 0) nf st.ofs).2
      { heap := st.heap.set a (K.contractControlPoints b (resize v len 0) nf st.ofs).1,
        ofs := st.ofs + nf * n, calls := st.calls ++ [(i, j, st.ofs)] }
      (fun x hx => by
        simp only [List.length_set]
        exact hp x (List.mem_cons_of_mem _ hx))
      (by omega) (by omega)
    exact ⟨out, ho, by rw [hlo]; simp⟩

theorem contractAll_defined (K : External) (nfx nb : List Nat) (len : Nat) (ptrs : List Nat)
    (hn : ptrs.length ≤ nfx.length) (hb : ptrs.length ≤ nb.length) :
    ∀ (vs : List (List ℚ)) (st : ContractState), (∀ a ∈ ptrs, a < st.heap.length) →
      ∃ out, contractAll K nfx nb len ptrs vs st = some out := by
  intro vs
  induction vs with
  | nil => intro st _; exact ⟨_, rfl⟩
  | cons v vs ih =>
    intro st hp
    obtain ⟨r, hr, hl⟩ := contractBases_defined K nfx nb len vs.length ptrs 0 v st hp
      (by omega) (by omega)
    simp only [contractAll, hr]
    obtain ⟨rs, hrs⟩ := ih r.2 (fun x hx => by rw [hl]; exact hp x hx)
    simp only [hrs]
    exact ⟨_, rfl⟩

theorem refine_defined (K : External) (p : ASMu2Dmx) (prm : RefineData) (sol : List (List ℚ))
    (hwf : RefineReady p) : ∃ out, refine K p prm sol = some out := by
  obtain ⟨hp, ⟨r, hr, hrl⟩, hn, hb, hs⟩ := hwf
  unfold refine
  split
  · exact ⟨_, rfl⟩
  split
  · exact ⟨_, rfl⟩
  obtain ⟨h1, he, hl1⟩ := extendAll_defined K p hn sol p.heap hp
  obtain ⟨rb, hrb⟩ := getElem?_defined h1 r (by rw [hl1]; exact hrl)
  have hbind : (p.refBasis.bind fun a => Option.map (fun b => (a, b)) h1[a]?) = some (r, rb) := by
    simp [hr, hrb]
  simp only [he, hbind]
  split
  swap
  · exact ⟨_, rfl⟩
  have hl2 : (h1.set r (K.doRefine prm rb).2).length = p.heap.length := by
    rw [List.length_set, hl1]
  obtain ⟨h3, hpr, hl3⟩ := propagate_defined K
    { p with heap := h1.set r (K.doRefine prm rb).2 } r hr p.m_basis 0
    (h1.set r (K.doRefine prm rb).2) (fun x hx => by rw [hl2]; exact hp x hx)
    (by rw [hl2]; exact hrl)
  simp only [hpr]
  obtain ⟨p4, hsg, hp4, hlen4, hnfx4, hnb4⟩ := subgrid_defined K
    { p with heap := h3 } r hr (by rw [hl3, hl2]; exact hrl)
    (fun x hx => by rw [hl3, hl2]; exact hp x hx) hs
  simp only [hsg]
  dsimp only at hlen4 hnfx4 hnb4
  obtain ⟨n, hrn, hln⟩ := renumber_defined K p4.nfx p4.m_basis 0 p4.heap p4.nb 0 hp4
    (by rw [hnfx4, hlen4]; omega) (by rw [hnb4, hlen4]; omega)
  simp only [hrn]
  obtain ⟨hnbl, _, _⟩ := renumber_len K p4.nfx p4.m_basis 0 p4.heap p4.nb 0 n hrn
  obtain ⟨c, hc⟩ := contractAll_defined K p4.nfx n.2.1 n.2.2 p4.m_basis
    (by rw [hnfx4, hlen4]; exact hn) (by rw [hnbl, hnb4, hlen4]; exact hb) sol.reverse
    { heap := n.1, ofs := 0, calls := [] } (fun x hx => by rw [hln]; exact hp4 x hx)
  simp only [hc]
  exact ⟨_, rfl⟩

/-- C7, failing input.  With two solution vectors on the sample patch (new function
counts 10 and 4, field counts 2 and 1, new length 24) the vector `sol[1]` is
contracted at the offsets 0 and 20, but `sol[0]`, which is processed after it, at
the offsets 24 and 44: the running offset is not reset between the vectors. -/
theorem refine_offsets_two_generations :
    (refine sampleExternal sampleIntegrationPatch sampleRefineData [[1], [2]]).map
        (fun r => (r.ok, r.patch.nfx, r.patch.nb, r.contracted))
      = some (true, [2, 1], [10, 4], [(1, 0, 0), (1, 1, 20), (0, 0, 24), (0, 1, 44)]) := by
  rfl

/-- C9. `refine` returns success and leaves the patch (all bases, the function counts
`nb`) and every solution vector as they are, without any call of the library,
whenever the patch shares FE data (`shareFE` set) or the refinement record has
both an empty error list and an empty element list. -/
theorem refine_noop (K : External) (p : ASMu2Dmx) (prm : RefineData) (sol : List (List ℚ))
    (h : p.shareFE ≠ Char.ofNat 0 ∨ (prm.errors = [] ∧ prm.elements = [])) :
    refine K p prm sol = some { ok := true, patch := p, sol := sol, contracted := [] } := by
  unfold refine
  rcases h with h | ⟨h1, h2⟩
  · rw [if_pos h]
  · by_cases hs : p.shareFE ≠ Char.ofNat 0
    · rw [if_pos hs]
    · rw [if_neg hs, if_pos]
      simp [h1, h2]

/-- Witness of C9: an empty refinement record on the sample patch. -/
theorem refine_noop_witness :
    (samplePatchGenerated.shareFE ≠ Char.ofNat 0 ∨
      (({ errors := [], elements := [], options := [] } : RefineData).errors = [] ∧
       ({ errors := [], elements := [], options := [] } : RefineData).elements = [])) ∧
    refine sampleExternal samplePatchGenerated { errors := [], elements := [], options := [] }
        [[1, 2, 3]]
      = some { ok := true, patch := samplePatchGenerated, sol := [[1, 2, 3]], contracted := [] } :=
  ⟨Or.inr ⟨rfl, rfl⟩,
    refine_noop sampleExternal samplePatchGenerated { errors := [], elements := [], options := [] }
      [[1, 2, 3]] (Or.inr ⟨rfl, rfl⟩)⟩

/-- C10. For a patch that does not share FE data and a refinement record that is
not empty, `refine` returns a flag whenever the pointers and tables it reads are
in range, and a call that returns has extended the control points of the bases
and applied `doRefine` to the refinement basis, and returns failure if and only
if that call of `doRefine` fails: no later step turns a successful refinement
into a failure. -/
theorem refine_fails_iff_doRefine (K : External) (p : ASMu2Dmx) (prm : RefineData)
    (sol : List (List ℚ)) (hshare : p.shareFE = Char.ofNat 0)
    (hrec : ¬ (prm.errors = [] ∧ prm.elements = [])) :
    (RefineReady p → ∃ out, refine K p prm sol = some out) ∧
    ∀ out, refine K p prm sol = some out →
      ∃ h1 a rb, extendAll K p sol p.heap = some h1 ∧ p.refBasis = some a ∧
        h1[a]? = some rb ∧ (out.ok = false ↔ (K.doRefine prm rb).1 = false) := by
  refine ⟨refine_defined K p prm sol, ?_⟩
  intro out hrun
  unfold refine at hrun
  rw [if_neg (by simp [hshare])] at hrun
  rw [if_neg (by simpa [List.isEmpty_iff] using hrec)] at hrun
  cases he : extendAll K p sol p.heap with
  | none => simp [he] at hrun
  | some h1 =>
    simp only [he] at hrun
    cases hr : p.refBasis with
    | none => simp [hr] at hrun
    | some a =>
      cases hb : h1[a]? with
      | none => simp [hr, hb] at hrun
      | some rb =>
        simp only [hr, hb, Option.some_bind, Option.map_some'] at hrun
        refine ⟨h1, a, rb, rfl, rfl, hb, ?_⟩
        cases hd : (K.doRefine prm rb).1 with
        | false =>
          simp only [hd] at hrun
          simp only [Bool.false_eq_true, if_false, Option.some.injEq] at hrun
          subst hrun
          simp
        | true =>
          simp only [hd, if_true] at hrun
          split at hrun
          · cases hrun
          split at hrun
          · cases hrun
          split at hrun
          · cases hrun
          split at hrun
          · cases hrun
          simp only [Option.some.injEq] at hrun
          subst hrun
          simp

theorem sample_refineReady : RefineReady sampleIntegrationPatch := by
  refine ⟨?_, ⟨0, rfl, by decide⟩, by decide, by decide, fun h => by cases h⟩
  intro a ha
  have : a = 0 ∨ a = 1 := by simpa [sampleIntegrationPatch, samplePatchGenerated, samplePatch] using ha
  rcases this with rfl | rfl <;> decide

/-- Witness of C10: the refinement primitive fails on the sample patch. -/
theorem refine_fails_iff_doRefine_witness :
    sampleIntegrationPatch.shareFE = Char.ofNat 0 ∧
    ¬ (sampleRefineData.errors = [] ∧ sampleRefineData.elements = []) ∧
    RefineReady sampleIntegrationPatch ∧
    (refine failingExternal sampleIntegrationPatch sampleRefineData [[1]]).map
        (fun r => r.ok) = some false ∧
    (RefineReady sampleIntegrationPatch →
      ∃ out, refine failingExternal sampleIntegrationPatch sampleRefineData [[1]] = some out) ∧
    ∀ out, refine failingExternal sampleIntegrationPatch sampleRefineData [[1]] = some out →
      ∃ h1 a rb, extendAll failingExternal sampleIntegrationPatch [[1]]
          sampleIntegrationPatch.heap = some h1 ∧
        sampleIntegrationPatch.refBasis = some a ∧ h1[a]? = some rb ∧
        (out.ok = false ↔ (failingExternal.doRefine sampleRefineData rb).1 = false) :=
  ⟨by decide, by decide, sample_refineReady, by decide,
    refine_fails_iff_doRefine failingExternal sampleIntegrationPatch sampleRefineData [[1]]
      (by decide) (by decide)⟩

theorem set_keeps {α : Type} (f : LRSplineSurface → α) (h : Heap) (a : Nat)
    (b x : LRSplineSurface) (hb : h[a]? = some b) (hx : f x = f b) :
    ∀ a' : Nat, (h.set a x)[a']?.map f = h[a']?.map f := by
  intro a'
  by_cases he : a = a'
  · subst he
    have ha : a < h.length := by
      by_contra hcon
      rw [List.getElem?_eq_none (Nat.le_of_not_lt hcon)] at hb
      cases hb
    rw [List.getElem?_set_self ha, hb]
    simp [hx]
  · rw [List.getElem?_set_ne he]

theorem renumber_keeps {α : Type} (f : LRSplineSurface → α) (K : External)
    (hf : ∀ b, f (K.generateIDs b) = f b) (nfx : List Nat) :
    ∀ (ptrs : List Nat) (j : Nat) (h : Heap) (nb : List Nat) (len : Nat)
      (out : Heap × List Nat × Nat),
      renumber K nfx ptrs j h nb len = some out →
        ∀ a : Nat, out.1[a]?.map f = h[a]?.map f := by
  intro ptrs
  induction ptrs with
  | nil =>
    intro j h nb len out hr a
    simp only [renumber, Option.some.injEq] at hr
    subst hr
    rfl
  | cons a0 as ih =>
    intro j h nb len out hr a
    simp only [renumber] at hr
    unfold Heap.update at hr
    cases hb0 : h[a0]? with
    | none => simp [hb0] at hr
    | some b0 =>
      simp only [hb0] at hr
      split at hr
      · split at hr
        · rw [ih _ _ _ _ _ hr a]
          exact set_keeps f h a0 b0 _ hb0 (hf b0) a
        · cases hr
      · cases hr

theorem contractBases_keeps {α : Type} (f : LRSplineSurface → α) (K : External)
    (hf : ∀ b v nf ofs, f (K.contractControlPoints b v nf ofs).1 = f b)
    (nfx nb : List Nat) (len i : Nat) :
    ∀ (ptrs : List Nat) (j : Nat) (v : List ℚ) (st : ContractState)
      (out : List ℚ × ContractState),
      contractBases K nfx nb len i ptrs j v st = some out →
        ∀ a : Nat, out.2.heap[a]?.map f = st.heap[a]?.map f := by
  intro ptrs
  induction ptrs with
  | nil =>
    intro j v st out hr a
    simp only [contractBases, Option.some.injEq] at hr
    subst hr
    rfl
  | cons a0 as ih =>
    intro j v st out hr a
    simp only [contractBases] at hr
    split at hr
    · rename_i b nf n hb _ _
      rw [ih _ _ _ _ hr a]
      exact set_keeps f st.heap a0 b _ hb (hf b _ nf st.ofs) a
    · cases hr

theorem contractAll_keeps {α : Type} (f : LRSplineSurface → α) (K : External)
    (hf : ∀ b v nf ofs, f (K.contractControlPoints b v nf ofs).1 = f b)
    (nfx nb : List Nat) (len : Nat) (ptrs : List Nat) :
    ∀ (vs : List (List ℚ)) (st : ContractState) (out : List (List ℚ) × ContractState),
      contractAll K nfx nb len ptrs vs st = some out →
        ∀ a : Nat, out.2.heap[a]?.map f = st.heap[a]?.map f := by
  intro vs
  induction vs with
  | nil =>
    intro st out hr a
    simp only [contractAll, Option.some.injEq] at hr
    subst hr
    rfl
  | cons v vs ih =>
    intro st out hr a
    simp only [contractAll] at hr
    cases hc : contractBases K nfx nb len vs.length ptrs 0 v st with
    | none => simp [hc] at hr
    | some r =>
      simp only [hc] at hr
      cases ha : contractAll K nfx nb len ptrs vs r.2 with
      | none => simp [ha] at hr
      | some rs =>
        simp only [ha, Option.some.injEq] at hr
        subst hr
        rw [ih _ _ ha a]
        exact contractBases_keeps f K hf nfx nb len vs.length ptrs 0 v st r hc a

/-- C8. On a patch with at least one basis that does not share FE data, and for a
refinement record that is not empty, `refine` returns a flag whenever the
pointers and tables it reads are in range; after a call that returned success
there are as many solution vectors as before and each has length
`sum_j nfx[j]*nb[j]` over all bases `j`, where `nb[j]` is the number of functions
of basis `j` of the returned patch, the basis after the refinement.
`LR::contractControlPoints` writes into the vector it is given without resizing
it; that `nb[j]` is the function count of the returned basis uses that
`generateIDs` and `contractControlPoints` keep the number of functions of a
basis. -/
theorem refine_solution_length (K : External) (p : ASMu2Dmx) (prm : RefineData)
    (sol : List (List ℚ))
    (hshare : p.shareFE = Char.ofNat 0)
    (hrec : ¬ (prm.errors = [] ∧ prm.elements = []))
    (hb : p.m_basis ≠ [])
    (hinplace : ∀ b v nf ofs, (K.contractControlPoints b v nf ofs).2.length = v.length) :
    (RefineReady p → ∃ out, refine K p prm sol = some out) ∧
    ∀ out, refine K p prm sol = some out → out.ok = true →
      out.sol.length = sol.length ∧
      (∀ v ∈ out.sol,
        v.length = dofLength out.patch.nfx out.patch.nb out.patch.m_basis.length) ∧
      ((∀ b, (K.generateIDs b).nBasisFunctions = b.nBasisFunctions) →
        (∀ b v nf ofs,
          (K.contractControlPoints b v nf ofs).1.nBasisFunctions = b.nBasisFunctions) →
        ∀ (j a : Nat), out.patch.m_basis[j]? = some a →
          ∃ b, out.patch.heap[a]? = some b ∧ out.patch.nb[j]? = some b.nBasisFunctions) := by
  refine ⟨refine_defined K p prm sol, ?_⟩
  intro out hrun hok
  unfold refine at hrun
  rw [if_neg (by simp [hshare])] at hrun
  rw [if_neg (by simpa [List.isEmpty_iff] using hrec)] at hrun
  split at hrun
  · cases hrun
  split at hrun
  · cases hrun
  dsimp only at hrun
  split at hrun
  swap
  · simp only [Option.some.injEq] at hrun
    subst hrun
    cases hok
  split at hrun
  · cases hrun
  split at hrun
  · cases hrun
  rename_i p4 hp4
  split at hrun
  · cases hrun
  rename_i n hn
  split at hrun
  · cases hrun
  rename_i c hc
  simp only [Option.some.injEq] at hrun
  subst hrun
  obtain ⟨hne, _, _⟩ := subgrid_bases K _ p4 hp4 hb
  obtain ⟨_, _, hlen⟩ := renumber_len K p4.nfx p4.m_basis 0 p4.heap p4.nb 0 n hn
  obtain ⟨h1, h2⟩ := contractAll_length K p4.nfx n.2.1 n.2.2 p4.m_basis hinplace hne
    sol.reverse _ c hc
  refine ⟨by simp [h1], ?_, ?_⟩
  · intro v hv
    rw [h2 v (List.mem_reverse.mp hv), hlen]
    simp [dofLength, List.range_eq_range']
  · intro hgen hcount j a hja
    have hcounts : ∀ (ptrs : List Nat) (j : Nat) (h : Heap) (nb : List Nat) (len : Nat)
        (out : Heap × List Nat × Nat),
        renumber K p4.nfx ptrs j h nb len = some out →
          ∀ (k a : Nat), ptrs[k]? = some a →
            ∃ b, h[a]? = some b ∧ out.2.1[j + k]? = some b.nBasisFunctions := by
      intro ptrs
      induction ptrs with
      | nil =>
        intro j h nb len out _ k a hk
        simp at hk
      | cons a0 as ih =>
        intro j h nb len out hr k a hk
        have hr0 := hr
        simp only [renumber] at hr
        unfold Heap.update at hr
        cases hb0 : h[a0]? with
        | none => simp [hb0] at hr
        | some b0 =>
          simp only [hb0] at hr
          have ha0 : a0 < h.length := by
            by_contra hcon
            rw [List.getElem?_eq_none (Nat.le_of_not_lt hcon)] at hb0
            cases hb0
          rw [List.getElem?_set_self ha0] at hr
          cases hn : p4.nfx[j]? with
          | none => simp [hn] at hr
          | some nf =>
            simp only [hn] at hr
            split at hr
            swap
            · cases hr
            rename_i hj
            cases k with
            | zero =>
              simp only [List.getElem?_cons_zero, Option.some.injEq] at hk
              subst hk
              obtain ⟨_, hkeep, _⟩ := renumber_len K p4.nfx as (j + 1) _ _ _ out hr
              refine ⟨b0, hb0, ?_⟩
              rw [Nat.add_zero, hkeep j (Nat.lt_succ_self j), List.getElem?_set_self hj, hgen]
            | succ k =>
              simp only [List.getElem?_cons_succ] at hk
              obtain ⟨b, hb, hout⟩ := ih (j + 1) _ _ _ out hr k a hk
              have hkeep := set_keeps LRSplineSurface.nBasisFunctions h a0 b0 (K.generateIDs b0) hb0
                (hgen b0) a
              rw [hb] at hkeep
              cases hba : h[a]? with
              | none => rw [hba] at hkeep; cases hkeep
              | some b' =>
                rw [hba] at hkeep
                simp only [Option.map_some', Option.some.injEq] at hkeep
                refine ⟨b', rfl, ?_⟩
                rw [← hkeep, ← hout]
                congr 1
                omega
    obtain ⟨b, hb4, hnb⟩ := hcounts p4.m_basis 0 p4.heap p4.nb 0 n hn j a hja
    have hk1 := renumber_keeps LRSplineSurface.nBasisFunctions K hgen p4.nfx p4.m_basis 0
      p4.heap p4.nb 0 n hn a
    have hk2 := contractAll_keeps LRSplineSurface.nBasisFunctions K hcount p4.nfx n.2.1 n.2.2
      p4.m_basis sol.reverse _ c hc a
    dsimp only at hk2 ⊢
    rw [hk1, hb4] at hk2
    cases hfin : c.2.heap[a]? with
    | none => rw [hfin] at hk2; cases hk2
    | some b' =>
      rw [hfin] at hk2
      simp only [Option.map_some', Option.some.injEq] at hk2
      refine ⟨b', rfl, ?_⟩
      rw [hk2]
      simpa using hnb

/-- Evaluation of `refine` on the sample patch with two solution vectors: the
new function counts are 10 and 4, and both vectors get the length
`2*10 + 1*4 = 24`. -/
theorem refine_sample_lengths :
    (refine sampleExternal sampleIntegrationPatch sampleRefineData [[1], [2]]).map
        (fun r => (r.ok, r.patch.nfx, r.patch.nb, r.sol.map List.length))
      = some (true, [2, 1], [10, 4], [24, 24]) := by
  rfl

/-- Witness of C8: two solution vectors on the sample patch, whose bases have 10
and 4 functions after the refinement. -/
theorem refine_solution_length_witness :
    sampleIntegrationPatch.shareFE = Char.ofNat 0 ∧
    ¬ (sampleRefineData.errors = [] ∧ sampleRefineData.elements = []) ∧
    sampleIntegrationPatch.m_basis ≠ [] ∧
    (∀ b v nf ofs, (sampleExternal.contractControlPoints b v nf ofs).2.length = v.length) ∧
    RefineReady sampleIntegrationPatch ∧
    (∀ b, (sampleExternal.generateIDs b).nBasisFunctions = b.nBasisFunctions) ∧
    (∀ b v nf ofs,
      (sampleExternal.contractControlPoints b v nf ofs).1.nBasisFunctions
        = b.nBasisFunctions) ∧
    (refine sampleExternal sampleIntegrationPatch sampleRefineData [[1], [2]]).map
        (fun r => (r.ok, r.patch.nb,
          r.patch.m_basis.map (fun a => r.patch.heap[a]?.map (fun b => b.nBasisFunctions)),
          r.sol.map List.length))
      = some (true, [10, 4], [some 10, some 4], [24, 24]) ∧
    (RefineReady sampleIntegrationPatch →
      ∃ out, refine sampleExternal sampleIntegrationPatch sampleRefineData [[1], [2]]
        = some out) ∧
    ∀ out, refine sampleExternal sampleIntegrationPatch sampleRefineData [[1], [2]] = some out →
      out.ok = true →
      out.sol.length = ([[1], [2]] : List (List ℚ)).length ∧
      (∀ v ∈ out.sol,
        v.length = dofLength out.patch.nfx out.patch.nb out.patch.m_basis.length) ∧
      ((∀ b, (sampleExternal.generateIDs b).nBasisFunctions = b.nBasisFunctions) →
        (∀ b v nf ofs,
          (sampleExternal.contractControlPoints b v nf ofs).1.nBasisFunctions
            = b.nBasisFunctions) →
        ∀ (j a : Nat), out.patch.m_basis[j]? = some a →
          ∃ b, out.patch.heap[a]? = some b ∧ out.patch.nb[j]? = some b.nBasisFunctions) :=
  ⟨by decide, by decide, by decide, fun _ _ _ _ => rfl, sample_refineReady,
    fun _ => rfl, fun _ _ _ _ => rfl, by rfl,
    refine_solution_length sampleExternal sampleIntegrationPatch sampleRefineData [[1], [2]]
      (by decide) (by decide) (by decide) (fun _ _ _ _ => rfl)⟩

/-! ### generateFEMTopology: the element connectivity -/

theorem derefAll_defined (h : Heap) :
    ∀ (l : List Nat), (∀ a ∈ l, a < h.length) → ∃ bs, h.derefAll l = some bs := by
  intro l
  induction l with
  | nil => intro _; exact ⟨[], rfl⟩
  | cons a as ih =>
    intro hl
    obtain ⟨b, hb⟩ := getElem?_defined h a (hl a (List.mem_cons_self _ _))
    obtain ⟨bs, hbs⟩ := ih (fun x hx => hl x (List.mem_cons_of_mem _ hx))
    exact ⟨b :: bs, by simp only [Heap.derefAll, hb, hbs]⟩

theorem update_count (K : External)
    (hK : ∀ b, (K.generateIDs b).elements.length = b.elements.length)
    (h h1 : Heap) (a : Nat) (hu : h.update a K.generateIDs = some h1) :
    h1.length = h.length ∧
    ∀ (g : Nat) (x y : LRSplineSurface), h[g]? = some x → h1[g]? = some y →
      y.elements.length = x.elements.length := by
  unfold Heap.update at hu
  cases ha : h[a]? with
  | none => simp [ha] at hu
  | some b =>
    simp only [ha, Option.some.injEq] at hu
    subst hu
    refine ⟨List.length_set _ _ _, ?_⟩
    intro g x y hx hy
    rw [List.getElem?_set] at hy
    split at hy
    · rename_i hag
      subst hag
      split at hy
      · simp only [Option.some.injEq] at hy
        rw [ha] at hx
        simp only [Option.some.injEq] at hx
        rw [← hy, ← hx, hK]
      · cases hy
    · rw [hx] at hy
      simp only [Option.some.injEq] at hy
      rw [hy]

theorem generateAllIDs_defined (K : External)
    (hK : ∀ b, (K.generateIDs b).elements.length = b.elements.length) :
    ∀ (l : List Nat) (h : Heap), (∀ a ∈ l, a < h.length) →
      ∃ h1, generateAllIDs K h l = some h1 ∧ h1.length = h.length ∧
        ∀ (g : Nat) (x y : LRSplineSurface), h[g]? = some x → h1[g]? = some y →
          y.elements.length = x.elements.length := by
  intro l
  induction l with
  | nil =>
    intro h _
    refine ⟨h, rfl, rfl, ?_⟩
    intro g x y hx hy
    rw [hx] at hy
    simp only [Option.some.injEq] at hy
    rw [hy]
  | cons a as ih =>
    intro h hl
    obtain ⟨h1, hu, hl1⟩ := update_defined h a K.generateIDs (hl a (List.mem_cons_self _ _))
    obtain ⟨_, hc1⟩ := update_count K hK h h1 a hu
    obtain ⟨h2, hg, hl2, hc2⟩ := ih h1 (fun x hx => by rw [hl1]; exact hl x (List.mem_cons_of_mem _ hx))
    refine ⟨h2, by simp only [generateAllIDs, hu, hg], by rw [hl2, hl1], ?_⟩
    intro g x y hx hy
    have hg1 : g < h1.length := by
      rw [hl1]
      by_contra hcon
      rw [List.getElem?_eq_none (Nat.le_of_not_lt hcon)] at hx
      cases hx
    obtain ⟨z, hz⟩ := getElem?_defined h1 g hg1
    rw [hc2 g z y hz hy, hc1 g x z hx hz]

theorem countFunctions_defined (mid : ℚ × ℚ) :
    ∀ (bases : List LRSplineSurface) (n0 : Nat),
      (∀ it ∈ bases, ∃ el2, it.elementAt mid = some el2) →
      ∃ nfunc, countFunctions mid bases n0 = some nfunc := by
  intro bases
  induction bases with
  | nil => intro n0 _; exact ⟨n0, rfl⟩
  | cons it rest ih =>
    intro n0 hloc
    obtain ⟨el2, hel⟩ := hloc it (List.mem_cons_self _ _)
    simp only [countFunctions, hel]
    exact ih _ (fun x hx => hloc x (List.mem_cons_of_mem _ hx))

theorem elementLoop_defined (bases : List LRSplineSurface) :
    ∀ (els : List Element) (iel : Nat) (s : Numbering),
      (∀ el1 ∈ els, ∀ it ∈ bases, ∃ el2, it.elementAt el1.midpoint = some el2) →
      iel + els.length ≤ s.myMNPC.length → iel + els.length ≤ s.myMLGE.length →
      ∃ s', elementLoop bases els iel s = some s' := by
  intro els
  induction els with
  | nil => intro iel s _ _ _; exact ⟨s, rfl⟩
  | cons el1 els ih =>
    intro iel s hloc h1 h2
    simp only [List.length_cons] at h1 h2
    have hl := hloc el1 (List.mem_cons_self _ _)
    obtain ⟨nfunc, hc⟩ := countFunctions_defined el1.midpoint bases 0 hl
    obtain ⟨old, ho⟩ := getElem?_defined s.myMNPC iel (by omega)
    obtain ⟨_, hn⟩ := countFunctions_eq el1.midpoint bases 0 nfunc 0 hc
    have hfr := fillRow_append el1.midpoint bases [] (resize old nfunc 0) [] 0 hl
      (by rw [resize_length, hn]; simp)
    simp only [List.nil_append, List.append_nil, List.length_nil] at hfr
    simp only [elementLoop, hc, ho, hfr]
    rw [if_pos (by omega)]
    exact ih _ _ (fun x hx => hloc x (List.mem_cons_of_mem _ hx))
      (by simp only [List.length_set]; omega) (by simp only [List.length_set]; omega)

theorem generateFEMTopology_defined (K : External) (p : ASMu2Dmx) (hwf : GenReady K p) :
    ∃ out, generateFEMTopology K p = some out := by
  obtain ⟨ht, hb, ⟨pr, hpr, hprl⟩, ⟨rf, hrf, hrfl⟩, hp, hg0, hg1, hK, hloc⟩ := hwf
  unfold generateFEMTopology
  split
  · exact ⟨_, rfl⟩
  simp only [ht, hb, if_false]
  obtain ⟨h3, hu3, hl3⟩ := update_defined p.heap pr K.generateIDs hprl
  obtain ⟨h4, hu4, hl4⟩ := update_defined h3 rf K.generateIDs (by rw [hl3]; exact hrfl)
  have hup3 : p.heap.updatePtr p.projBasis K.generateIDs = some h3 := by
    simp only [Heap.updatePtr, hpr, hu3]
  have hup4 : h3.updatePtr p.refBasis K.generateIDs = some h4 := by
    simp only [Heap.updatePtr, hrf, hu4]
  have hp4 : ∀ a ∈ p.m_basis, a < h4.length := fun a ha => by
    rw [hl4, hl3]; exact hp a ha
  obtain ⟨g, hg⟩ := getElem?_defined p.m_basis (p.geoBasis - 1) (by omega)
  obtain ⟨bs, hbs⟩ := derefAll_defined h4 p.m_basis hp4
  simp only [hup3, hup4, hg, hbs]
  rw [if_neg (by omega)]
  split
  · exact ⟨_, rfl⟩
  have hgm : g ∈ p.m_basis := List.getElem?_mem hg
  obtain ⟨gb, hgb⟩ := getElem?_defined h4 g (hp4 g hgm)
  obtain ⟨h6, hg6, hl6, hc6⟩ := generateAllIDs_defined K hK p.m_basis h4 hp4
  obtain ⟨bases, hbases⟩ := derefAll_defined h6 p.m_basis (fun a ha => by rw [hl6]; exact hp4 a ha)
  obtain ⟨geo, hgeo⟩ := getElem?_defined h6 g (by rw [hl6]; exact hp4 g hgm)
  simp only [hgb, hg6, hbases, hgeo]
  have hids : idsGenerated K p = some h6 := by
    simp only [idsGenerated, hup3, hup4, hg6]
  have hcount : geo.elements.length = gb.elements.length := hc6 g gb geo hgb hgeo
  obtain ⟨s', hs'⟩ := elementLoop_defined bases geo.elements 0
    { myMNPC := resize p.myMNPC gb.nElements [], myMLGE := resize p.myMLGE gb.nElements 0,
      gEl := p.gEl }
    (hloc h6 bases g geo hids hbases hg hgeo)
    (by simp only [resize_length, LRSplineSurface.nElements]; omega)
    (by simp only [resize_length, LRSplineSurface.nElements]; omega)
  simp only [hs']
  exact ⟨_, rfl⟩

theorem sample_genReady : GenReady sampleExternal samplePatch := by
  refine ⟨rfl, by decide, ⟨0, rfl, by decide⟩, ⟨0, rfl, by decide⟩, ?_, by decide, by decide,
    fun _ => rfl, ?_⟩
  · intro a ha
    have : a = 0 ∨ a = 1 := by simpa [samplePatch] using ha
    rcases this with rfl | rfl <;> decide
  · intro h6 bases g geo hids hbases hg hgeo el1 _ it hit
    have h1 : idsGenerated sampleExternal samplePatch = some [unitBasis 9 3, unitBasis 4 2] := rfl
    rw [h1] at hids
    simp only [Option.some.injEq] at hids
    subst hids
    have h2 : Heap.derefAll [unitBasis 9 3, unitBasis 4 2] samplePatch.m_basis
        = some [unitBasis 9 3, unitBasis 4 2] := rfl
    rw [h2] at hbases
    simp only [Option.some.injEq] at hbases
    subst hbases
    simp only [List.mem_cons, List.mem_singleton, List.not_mem_nil, or_false] at hit
    rcases hit with rfl | rfl
    · exact ⟨_, rfl⟩
    · exact ⟨_, rfl⟩

/-- C1. `generateFEMTopology` returns whenever the pointers and indices it reads are
in range and the midpoints of the geometry elements are located in every basis.
After a call on a patch that does not share FE data (and whose numbering is
generated by this call), for every element `e` of the geometry basis the row
`MNPC[e]` is the concatenation, in basis order, of one block per basis; the
block of basis `i` is `id(b) + ofs_i` over the support of the basis-`i` element
that contains the midpoint of `e`, with `ofs_i` the sum of the function counts
of the bases before `i`.  Hence, for ids below the function count `n_i`, the
block lies in `[ofs_i, ofs_i + n_i)`, and these ranges of two different bases
do not overlap. -/
theorem generateFEMTopology_connectivity (K : External) (p : ASMu2Dmx)
    (hfresh : p.myMLGN = []) (hshare : p.shareFE ≠ 'F') :
    (GenReady K p → ∃ out, generateFEMTopology K p = some out) ∧
    ∀ (r : Bool) (p' : ASMu2Dmx), generateFEMTopology K p = some (r, p') →
    ∃ bases geo, p'.bases = some bases ∧ bases[p'.geoBasis - 1]? = some geo ∧
      ∀ (e : Nat) (el1 : Element), geo.elements[e]? = some el1 →
        p'.myMNPC[e]? = some (connectivityBlocks el1.midpoint 0 bases).flatten ∧
        ∀ (i : Nat) (it : LRSplineSurface), bases[i]? = some it →
          (∃ el2, it.elementAt el1.midpoint = some el2 ∧
            (connectivityBlocks el1.midpoint 0 bases)[i]?
              = some (el2.support.map (· + basisOffset bases i)) ∧
            ((∀ b ∈ el2.support, b < it.nBasisFunctions) →
              ∀ x ∈ el2.support.map (· + basisOffset bases i),
                basisOffset bases i ≤ x ∧ x < basisOffset bases i + it.nBasisFunctions)) ∧
          ∀ (j : Nat), i < j → j < bases.length →
            basisOffset bases i + it.nBasisFunctions ≤ basisOffset bases j := by
  refine ⟨generateFEMTopology_defined K p, ?_⟩
  intro r p' hrun
  unfold generateFEMTopology at hrun
  rw [if_neg (by simp [hfresh])] at hrun
  simp only at hrun
  split at hrun
  · cases hrun
  rename_i p2 hp2
  split at hrun
  · cases hrun
  rename_i h3 hh3
  split at hrun
  · cases hrun
  rename_i h4 hh4
  split at hrun
  swap
  · cases hrun
  rename_i g bs hg hbs
  split at hrun
  · cases hrun
  rename_i hgeo
  have hsh2 : p2.shareFE = p.shareFE := by
    split at hp2
    · rw [establish_shareFE K _ _ hp2]
      split <;> rfl
    · simp only [Option.some.injEq] at hp2
      subst hp2
      split <;> rfl
  rw [if_neg (by simp only [hsh2]; exact hshare)] at hrun
  split at hrun
  · cases hrun
  rename_i gb hgb
  split at hrun
  · cases hrun
  rename_i h6 hh6
  split at hrun
  swap
  · cases hrun
  rename_i bases geo hbases hgeo6
  split at hrun
  · cases hrun
  rename_i s hs
  simp only [Option.some.injEq, Prod.mk.injEq] at hrun
  obtain ⟨_, hp'⟩ := hrun
  subst hp'
  obtain ⟨hlen, hidx⟩ := derefAll_getElem h6 p2.m_basis bases hbases
  obtain ⟨_, hrows⟩ := elementLoop_rows bases geo.elements 0 _ s hs
  refine ⟨bases, geo, hbases, ?_, ?_⟩
  · simp only
    rw [hidx _ g hg]
    exact hgeo6
  · intro e el1 he
    obtain ⟨hloc, hrow⟩ := hrows e el1 he
    rw [Nat.zero_add] at hrow
    refine ⟨hrow, ?_⟩
    intro i it hi
    have hmem : it ∈ bases := List.getElem?_mem hi
    obtain ⟨el2, hel⟩ := hloc it hmem
    have hblk := connectivityBlocks_getElem el1.midpoint bases 0 i it hi
    simp only [supportOf, hel, Nat.zero_add] at hblk
    refine ⟨⟨el2, hel, hblk, ?_⟩, ?_⟩
    · intro hids x hx
      obtain ⟨b, hb, rfl⟩ := List.mem_map.mp hx
      have := hids b hb
      omega
    · intro j hij _
      have h1 := basisOffset_succ bases i it hi
      have h2 := basisOffset_mono bases (i + 1) j (by omega)
      omega

/-- Evaluation of `generateFEMTopology` on the sample patch. -/
theorem generateFEMTopology_sample :
    generateFEMTopology sampleExternal samplePatch = some (true, samplePatchGenerated) := by
  rfl

/-- Witness of C1 on the sample patch. -/
theorem generateFEMTopology_connectivity_witness :
    samplePatch.myMLGN = [] ∧ samplePatch.shareFE ≠ 'F' ∧
    GenReady sampleExternal samplePatch ∧
    generateFEMTopology sampleExternal samplePatch = some (true, samplePatchGenerated) ∧
    (GenReady sampleExternal samplePatch →
      ∃ out, generateFEMTopology sampleExternal samplePatch = some out) ∧
    ∀ (r : Bool) (p' : ASMu2Dmx),
      generateFEMTopology sampleExternal samplePatch = some (r, p') →
    ∃ bases geo, p'.bases = some bases ∧ bases[p'.geoBasis - 1]? = some geo ∧
      ∀ (e : Nat) (el1 : Element), geo.elements[e]? = some el1 →
        p'.myMNPC[e]? = some (connectivityBlocks el1.midpoint 0 bases).flatten ∧
        ∀ (i : Nat) (it : LRSplineSurface), bases[i]? = some it →
          (∃ el2, it.elementAt el1.midpoint = some el2 ∧
            (connectivityBlocks el1.midpoint 0 bases)[i]?
              = some (el2.support.map (· + basisOffset bases i)) ∧
            ((∀ b ∈ el2.support, b < it.nBasisFunctions) →
              ∀ x ∈ el2.support.map (· + basisOffset bases i),
                basisOffset bases i ≤ x ∧ x < basisOffset bases i + it.nBasisFunctions)) ∧
          ∀ (j : Nat), i < j → j < bases.length →
            basisOffset bases i + it.nBasisFunctions ≤ basisOffset bases j :=
  ⟨rfl, by decide, sample_genReady, generateFEMTopology_sample,
    generateFEMTopology_connectivity sampleExternal samplePatch rfl (by decide)⟩

/-! ### Queries on the bases -/

/-- C18. `getNoFields(0)` is the sum of the field counts `nfx` (as long as it
fits the `unsigned char` result, that is, does not exceed 255); `getNoFields(k)`
is `nfx[k-1]` for `1 ≤ k ≤` number of bases; a negative index and an index above
the number of bases are treated as 0 and give the sum as well. -/
theorem getNoFields_spec (p : ASMu2Dmx) (hnfx : p.m_basis.length ≤ p.nfx.length) :
    (p.nfx.sum ≤ 255 → getNoFields p 0 = some p.nfx.sum) ∧
    (∀ k : Nat, 1 ≤ k → k ≤ p.m_basis.length →
      ∃ nf, p.nfx[k - 1]? = some nf ∧ getNoFields p (k : Int) = some nf) ∧
    (∀ b : Int, b < 0 ∨ (p.m_basis.length : Int) < b →
      getNoFields p b = getNoFields p 0 ∧
      (p.nfx.sum ≤ 255 → getNoFields p b = some p.nfx.sum)) := by
  have h0 : p.nfx.sum ≤ 255 → getNoFields p 0 = some p.nfx.sum := by
    intro hs
    have : p.nfx.sum % 256 = p.nfx.sum := Nat.mod_eq_of_lt (by omega)
    simp [getNoFields, this]
  refine ⟨h0, ?_, ?_⟩
  · intro k hk1 hk2
    have hlt : k - 1 < p.nfx.length := by omega
    refine ⟨p.nfx[k - 1], List.getElem?_eq_getElem hlt, ?_⟩
    have hc1 : ¬ ((k : Int) > (p.m_basis.length : Int) ∨ (k : Int) < 0) := by omega
    have hc2 : ¬ ((k : Int) = 0) := by omega
    have hc3 : ((k : Int) - 1).toNat = k - 1 := by omega
    simp only [getNoFields, hc1, if_false, hc2, hc3]
    exact List.getElem?_eq_getElem hlt
  · intro b hb
    have hc : b > (p.m_basis.length : Int) ∨ b < 0 := by omega
    have hb0 : getNoFields p b = getNoFields p 0 := by
      simp [getNoFields, hc]
    exact ⟨hb0, fun hs => hb0.trans (h0 hs)⟩

/-- Witness of C18 on the sample patch, with field counts 2 and 1. -/
theorem getNoFields_spec_witness :
    samplePatch.m_basis.length ≤ samplePatch.nfx.length ∧
    getNoFields samplePatch 0 = some 3 ∧ getNoFields samplePatch 1 = some 2 ∧
    getNoFields samplePatch 2 = some 1 ∧ getNoFields samplePatch 3 = some 3 ∧
    getNoFields samplePatch (-1) = some 3 ∧
    ((samplePatch.nfx.sum ≤ 255 → getNoFields samplePatch 0 = some samplePatch.nfx.sum) ∧
    (∀ k : Nat, 1 ≤ k → k ≤ samplePatch.m_basis.length →
      ∃ nf, samplePatch.nfx[k - 1]? = some nf ∧ getNoFields samplePatch (k : Int) = some nf) ∧
    (∀ b : Int, b < 0 ∨ (samplePatch.m_basis.length : Int) < b →
      getNoFields samplePatch b = getNoFields samplePatch 0 ∧
      (samplePatch.nfx.sum ≤ 255 → getNoFields samplePatch b = some samplePatch.nfx.sum))) :=
  ⟨by decide, by decide, by decide, by decide, by decide, by decide,
    getNoFields_spec samplePatch (by decide)⟩

theorem nodeTypeLoop_range (inod : Nat) :
    ∀ (rest : List Nat) (i nbc m : Nat), m < rest.length →
      nbc + (rest.take m).sum < inod → inod ≤ nbc + (rest.take (m + 1)).sum →
      nodeTypeLoop inod rest i nbc = Char.ofNat (('O'.toNat + (i + m)) % 256) := by
  intro rest
  induction rest with
  | nil => intro i nbc m hm; simp at hm
  | cons n rest ih =>
    intro i nbc m hm hlo hhi
    cases m with
    | zero =>
      simp only [List.take_zero, List.sum_nil, Nat.add_zero, Nat.zero_add, List.take_succ_cons,
        List.sum_cons] at hlo hhi
      simp only [nodeTypeLoop, hhi, if_true, Nat.add_zero]
    | succ m =>
      simp only [List.take_succ_cons, List.sum_cons] at hlo hhi
      have hn : ¬ inod ≤ nbc + n := by
        have : 0 ≤ (rest.take m).sum := Nat.zero_le _
        omega
      simp only [nodeTypeLoop, hn, if_false]
      have hm1 : m < rest.length := by simpa using hm
      rw [ih (i + 1) (nbc + n) m hm1 (by omega) (by omega)]
      have : i + 1 + m = i + (m + 1) := by omega
      rw [this]

/-- C17 as amended. `getNodeType` returns `'L'` for a Lagrange multiplier node,
`'D'` for any other node with `inod ≤ nb[0]`, and for a node in the cumulative
range of basis `k` (1-based, `k > 1`) the character `'O'+(k-1)`: `'P'` for
basis 2, `'Q'` for basis 3. -/
theorem getNodeType_spec (isLMn : Nat → Bool) (p : ASMu2Dmx) (inod : Nat) :
    (isLMn inod = true → getNodeType isLMn p inod = some 'L') ∧
    (isLMn inod = false → p.nb ≠ [] → inod ≤ p.nb.getD 0 0 →
      getNodeType isLMn p inod = some 'D') ∧
    (isLMn inod = false → ∀ k : Nat, 1 < k → k ≤ p.nb.length →
      (p.nb.take (k - 1)).sum < inod → inod ≤ (p.nb.take k).sum →
      getNodeType isLMn p inod = some (Char.ofNat (('O'.toNat + (k - 1)) % 256))) := by
  refine ⟨?_, ?_, ?_⟩
  · intro h
    simp [getNodeType, h]
  · intro h hne hle
    cases hnb : p.nb with
    | nil => exact absurd hnb hne
    | cons nbc rest =>
      rw [hnb] at hle
      simp only [List.getD_cons_zero] at hle
      simp [getNodeType, h, hnb, hle]
  · intro h k hk1 hk2 hlo hhi
    cases hnb : p.nb with
    | nil => rw [hnb] at hk2; simp at hk2; omega
    | cons nbc rest =>
      rw [hnb] at hlo hhi hk2
      obtain ⟨m, rfl⟩ : ∃ m, k = m + 2 := ⟨k - 2, by omega⟩
      have hk' : m + 2 - 1 = m + 1 := by omega
      rw [hk'] at hlo
      simp only [List.take_succ_cons, List.sum_cons, List.length_cons] at hlo hhi hk2
      have hn : ¬ inod ≤ nbc := by
        have : 0 ≤ (rest.take m).sum := Nat.zero_le _
        omega
      have hm : m < rest.length := by omega
      have hm2 : m + 1 = 1 + m := by omega
      simp only [getNodeType, h, hnb, hn, if_false, Bool.false_eq_true, hk', hm2]
      rw [nodeTypeLoop_range inod rest 1 nbc m hm hlo hhi]

/-- Counterexample to C17 as stated: node 10 of the sample patch (function counts
9 and 4) lies in the range of basis 2, and `getNodeType` returns `'P'`, which is
`'O'+1` and not `'O'+2`. -/
theorem getNodeType_basis2_is_P :
    samplePatchGenerated.nb = [9, 4] ∧
    getNodeType (fun _ => false) samplePatchGenerated 10 = some (Char.ofNat ('O'.toNat + 1)) ∧
    getNodeType (fun _ => false) samplePatchGenerated 10 ≠ some (Char.ofNat ('O'.toNat + 2)) := by
  decide

/-- Witness of C17 (amended) for node 12 of the sample patch. -/
theorem getNodeType_spec_witness :
    getNodeType (fun _ => false) samplePatchGenerated 12 = some 'P' ∧
    getNodeType (fun _ => false) { samplePatchGenerated with nb := [9, 4, 3] } 14 = some 'Q' ∧
    ((fun _ => false) 12 = true → getNodeType (fun _ => false) samplePatchGenerated 12 = some 'L') ∧
    ((fun _ => false) 12 = false → samplePatchGenerated.nb ≠ [] →
      12 ≤ samplePatchGenerated.nb.getD 0 0 →
      getNodeType (fun _ => false) samplePatchGenerated 12 = some 'D') ∧
    ((fun _ => false) 12 = false → ∀ k : Nat, 1 < k → k ≤ samplePatchGenerated.nb.length →
      (samplePatchGenerated.nb.take (k - 1)).sum < 12 →
      12 ≤ (samplePatchGenerated.nb.take k).sum →
      getNodeType (fun _ => false) samplePatchGenerated 12
        = some (Char.ofNat (('O'.toNat + (k - 1)) % 256))) :=
  ⟨by decide, by decide, getNodeType_spec (fun _ => false) samplePatchGenerated 12⟩

/-! ### generateFEMTopology: the returned flag -/

theorem generateFEMTopology_flag (K : External) (p : ASMu2Dmx) (r : Bool)
    (p' : ASMu2Dmx) (h : generateFEMTopology K p = some (r, p')) : r = true := by
  unfold generateFEMTopology at h
  split at h
  · simp only [Option.some.injEq, Prod.mk.injEq] at h
    exact h.1.symm
  simp only at h
  split at h
  · cases h
  split at h
  · cases h
  split at h
  · cases h
  split at h
  swap
  · cases h
  split at h
  · cases h
  split at h
  · simp only [Option.some.injEq, Prod.mk.injEq] at h
    exact h.1.symm
  split at h
  · cases h
  split at h
  · cases h
  split at h
  swap
  · cases h
  split at h
  · cases h
  simp only [Option.some.injEq, Prod.mk.injEq] at h
  exact h.1.symm

/-- C20 as amended. `generateFEMTopology` never reports failure: whenever it
returns, it returns `true`, whatever the bases contain; and it does return on
every patch whose pointers and indices are in range and on which the midpoints
are located. -/
theorem generateFEMTopology_returns_true (K : External) (p : ASMu2Dmx) :
    (generateFEMTopology K p = none ∨ ∃ p', generateFEMTopology K p = some (true, p')) ∧
    (GenReady K p → ∃ p', generateFEMTopology K p = some (true, p')) := by
  have hflag : ∀ out, generateFEMTopology K p = some out → out.1 = true :=
    fun out hout => generateFEMTopology_flag K p out.1 out.2 hout
  constructor
  · cases hrun : generateFEMTopology K p with
    | none => exact Or.inl rfl
    | some out =>
      refine Or.inr ⟨out.2, ?_⟩
      have := hflag out hrun
      rw [← this]
  · intro hready
    obtain ⟨out, hout⟩ := generateFEMTopology_defined K p hready
    refine ⟨out.2, ?_⟩
    have := hflag out hout
    rw [hout, ← this]

/-- Counterexample to C20 as stated: on a patch whose geometry basis has no
functions and no elements `generateFEMTopology` returns `true`. -/
theorem generateFEMTopology_empty_basis_succeeds :
    emptyBasisPatch.bases = some [unitBasis 9 3, emptyBasis] ∧
    emptyBasis.nBasisFunctions = 0 ∧ emptyBasis.elements = [] ∧
    (generateFEMTopology sampleExternal emptyBasisPatch).map (fun out => out.1) = some true := by
  refine ⟨rfl, rfl, rfl, rfl⟩

/-- Witness of C20 (amended) on the sample patch. -/
theorem generateFEMTopology_returns_true_witness :
    GenReady sampleExternal samplePatch ∧
    (generateFEMTopology sampleExternal samplePatch = none ∨
      ∃ p', generateFEMTopology sampleExternal samplePatch = some (true, p')) ∧
    (GenReady sampleExternal samplePatch →
      ∃ p', generateFEMTopology sampleExternal samplePatch = some (true, p')) :=
  ⟨sample_genReady, generateFEMTopology_returns_true sampleExternal samplePatch⟩

/-! ### The scheduling basis -/

theorem getBasis_succ (p : ASMu2Dmx) (k : Nat) (hk : k < p.m_basis.length) :
    getBasis p ((k + 1 : Nat) : Int) = p.m_basis[k]? := by
  have hc : ¬ (((k + 1 : Nat) : Int) < 1 ∨ ((k + 1 : Nat) : Int) > (p.m_basis.length : Int)) := by
    omega
  have hk' : (((k + 1 : Nat) : Int) - 1).toNat = k := by omega
  simp only [getBasis, hc, if_false, hk']

theorem threadBasisLoop_inv (p : ASMu2Dmx) (bases : List LRSplineSurface)
    (hb : p.bases = some bases) :
    ∀ (n s : Nat) (tb : Option Nat) (p1 : Int), s + n = p.m_basis.length →
      ThreadInv p bases s tb p1 →
      ∃ r, threadBasisLoop p (List.range' (s + 1) n) tb p1 = some r ∧
        ThreadInv p bases (s + n) r.1 r.2 := by
  obtain ⟨hlen, hidx⟩ := derefAll_getElem p.heap p.m_basis bases hb
  intro n
  induction n with
  | zero =>
    intro s tb p1 _ hinv
    exact ⟨(tb, p1), rfl, hinv⟩
  | succ n ih =>
    intro s tb p1 hs hinv
    have hslt : s < p.m_basis.length := by omega
    obtain ⟨a, ha⟩ := getElem?_defined p.m_basis s hslt
    obtain ⟨b, hbs⟩ := getElem?_defined bases s (by omega)
    have hheap : p.heap[a]? = some b := by rw [← hidx s a ha, hbs]
    have hget : getBasis p ((s + 1 : Nat) : Int) = some a := by
      rw [getBasis_succ p s hslt, ha]
    obtain ⟨h0, hle, hpos⟩ := hinv
    simp only [List.range'_succ, threadBasisLoop, hget, Option.some_bind, hheap]
    have hstep : s + 1 + n = p.m_basis.length := by omega
    by_cases hgt : b.order0 > p1
    · rw [if_pos hgt]
      have hinv' : ThreadInv p bases (s + 1) (some a) b.order0 := by
        refine ⟨by omega, ?_, ?_⟩
        · intro k b' hk hk'
          rcases Nat.lt_succ_iff_lt_or_eq.mp hk with hlt | heq
          · have := hle k b' hlt hk'
            omega
          · subst heq
            rw [hbs] at hk'
            cases hk'
            exact le_refl _
        · intro _
          refine ⟨s, a, b, Nat.lt_succ_self s, ha, hbs, rfl, rfl, ?_⟩
          intro k' b' hk hk'
          have := hle k' b' hk hk'
          omega
      obtain ⟨r, hr, hinvr⟩ := ih (s + 1) (some a) b.order0 hstep hinv'
      refine ⟨r, hr, ?_⟩
      have : s + (n + 1) = s + 1 + n := by omega
      rw [this]
      exact hinvr
    · rw [if_neg hgt]
      have hinv' : ThreadInv p bases (s + 1) tb p1 := by
        refine ⟨h0, ?_, ?_⟩
        · intro k b' hk hk'
          rcases Nat.lt_succ_iff_lt_or_eq.mp hk with hlt | heq
          · exact hle k b' hlt hk'
          · subst heq
            rw [hbs] at hk'
            cases hk'
            omega
        · intro hp
          obtain ⟨k, a', b', hk, h1, h2, h3, h4, h5⟩ := hpos hp
          exact ⟨k, a', b', Nat.lt_succ_of_lt hk, h1, h2, h3, h4, h5⟩
      obtain ⟨r, hr, hinvr⟩ := ih (s + 1) tb p1 hstep hinv'
      refine ⟨r, hr, ?_⟩
      have : s + (n + 1) = s + 1 + n := by omega
      rw [this]
      exact hinvr

/-- C15. Under the divergence-compatible policy the scheduling basis is
`getBasis(3)`, basis 3 of the patch, whatever the orders are.  Under every other
policy, on a patch with a basis of positive order in the first parametric
direction, the selection returns basis `k+1` with `k` the lowest index such that
the order of that basis is maximal among all bases.  `generateThreadGroups`
stores the selected basis in `threadBasis`. -/
theorem generateThreadGroups_threadBasis (p : ASMu2Dmx) (bases : List LRSplineSurface)
    (hb : p.bases = some bases) :
    (p.Type_ = MixedType.DIV_COMPATIBLE →
      selectThreadBasis p = some (getBasis p 3) ∧
      ∀ a, p.m_basis[2]? = some a → selectThreadBasis p = some (some a)) ∧
    (p.Type_ ≠ MixedType.DIV_COMPATIBLE → (∃ b ∈ bases, 0 < b.order0) →
      ∃ (k a : Nat) (bk : LRSplineSurface), p.m_basis[k]? = some a ∧ bases[k]? = some bk ∧
        selectThreadBasis p = some (some a) ∧
        (∀ b ∈ bases, b.order0 ≤ bk.order0) ∧
        ∀ (k' : Nat) (b' : LRSplineSurface), k' < k → bases[k']? = some b' →
          b'.order0 < bk.order0) ∧
    (∀ (L : ThreadLib) (out : ASMu2Dmx × List (List Nat)), generateThreadGroups L p = some out →
      selectThreadBasis p = some out.1.threadBasis) := by
  refine ⟨?_, ?_, ?_⟩
  · intro hT
    have h1 : selectThreadBasis p = some (getBasis p 3) := by
      simp only [selectThreadBasis, hT, if_true]
    refine ⟨h1, ?_⟩
    intro a ha
    rw [h1]
    have hlt : 2 < p.m_basis.length := by
      by_contra hcon
      rw [List.getElem?_eq_none (Nat.le_of_not_lt hcon)] at ha
      cases ha
    have := getBasis_succ p 2 hlt
    simp only [Nat.reduceAdd, Nat.cast_ofNat] at this
    rw [this, ha]
  · intro hT hex
    have hinv0 : ThreadInv p bases 0 p.threadBasis 0 :=
      ⟨le_refl _, fun k b hk _ => absurd hk (Nat.not_lt_zero k), fun h => absurd h (lt_irrefl _)⟩
    obtain ⟨r, hr, h0, hle, hpos⟩ :=
      threadBasisLoop_inv p bases hb p.m_basis.length 0 p.threadBasis 0 (Nat.zero_add _) hinv0
    obtain ⟨hlen, _⟩ := derefAll_getElem p.heap p.m_basis bases hb
    rw [Nat.zero_add] at hr hle hpos
    have hall : ∀ b ∈ bases, b.order0 ≤ r.2 := by
      intro b hbm
      obtain ⟨k, hk, hkb⟩ := List.getElem_of_mem hbm
      exact hle k b (by omega) (by rw [List.getElem?_eq_getElem hk, hkb])
    obtain ⟨b0, hb0, hb0pos⟩ := hex
    have hp1 : 0 < r.2 := lt_of_lt_of_le hb0pos (hall b0 hb0)
    obtain ⟨k, a, bk, _, h1, h2, h3, h4, h5⟩ := hpos hp1
    refine ⟨k, a, bk, h1, h2, ?_, ?_, ?_⟩
    · simp only [selectThreadBasis, hT, if_false, hr, Option.map_some', h3]
    · intro b hbm
      rw [h4]
      exact hall b hbm
    · intro k' b' hk hk'
      rw [h4]
      exact h5 k' b' hk hk'
  · intro L out hout
    unfold generateThreadGroups at hout
    split at hout
    · cases hout
    rename_i tb htb
    split at hout
    · simp only [Option.some.injEq] at hout
      subst hout
      exact htb
    · cases hout

/-- Witness of C15: the sample patch (orders 3 and 2) is scheduled on basis 1, a
patch with two bases of the same order on the first of them, and a
divergence-compatible patch of three bases on basis 3. -/
theorem generateThreadGroups_threadBasis_witness :
    samplePatchGenerated.bases = some [unitBasis 9 3, unitBasis 4 2] ∧
    selectThreadBasis samplePatchGenerated = some (some 0) ∧
    selectThreadBasis { threeBasisPatch with Type_ := MixedType.SUBGRID } = some (some 0) ∧
    selectThreadBasis threeBasisPatch = some (some 2) ∧
    ((samplePatchGenerated.Type_ = MixedType.DIV_COMPATIBLE →
      selectThreadBasis samplePatchGenerated = some (getBasis samplePatchGenerated 3) ∧
      ∀ a, samplePatchGenerated.m_basis[2]? = some a →
        selectThreadBasis samplePatchGenerated = some (some a)) ∧
    (samplePatchGenerated.Type_ ≠ MixedType.DIV_COMPATIBLE →
      (∃ b ∈ [unitBasis 9 3, unitBasis 4 2], 0 < b.order0) →
      ∃ (k a : Nat) (bk : LRSplineSurface), samplePatchGenerated.m_basis[k]? = some a ∧
        [unitBasis 9 3, unitBasis 4 2][k]? = some bk ∧
        selectThreadBasis samplePatchGenerated = some (some a) ∧
        (∀ b ∈ [unitBasis 9 3, unitBasis 4 2], b.order0 ≤ bk.order0) ∧
        ∀ (k' : Nat) (b' : LRSplineSurface), k' < k →
          [unitBasis 9 3, unitBasis 4 2][k']? = some b' → b'.order0 < bk.order0) ∧
    (∀ (L : ThreadLib) (out : ASMu2Dmx × List (List Nat)),
      generateThreadGroups L samplePatchGenerated = some out →
      selectThreadBasis samplePatchGenerated = some out.1.threadBasis)) :=
  ⟨rfl, by decide, by decide, by decide,
    generateThreadGroups_threadBasis samplePatchGenerated [unitBasis 9 3, unitBasis 4 2] rfl⟩

/-! ### Transfer between the global vector and the nodal vector of a basis -/

theorem dofLength_succ (nfx nb : List Nat) (n : Nat) :
    dofLength nfx nb (n + 1) = dofLength nfx nb n + nfx.getD n 0 * nb.getD n 0 := by
  simp [dofLength, List.range_succ]

theorem dofLength_mono (nfx nb : List Nat) (m n : Nat) (h : m ≤ n) :
    dofLength nfx nb m ≤ dofLength nfx nb n := by
  induction n with
  | zero =>
    have : m = 0 := by omega
    subst this
    exact le_refl _
  | succ n ih =>
    rcases Nat.lt_or_ge m (n + 1) with hlt | hge
    · have := ih (by omega)
      rw [dofLength_succ]
      omega
    · have : m = n + 1 := by omega
      subst this
      exact le_refl _

theorem writeBlock_zero (n ofs : Nat) (v : List ℚ) (h : ofs + v.length ≤ n) :
    (writeBlock (List.replicate n 0) ofs v).length = n ∧
    ((writeBlock (List.replicate n 0) ofs v).drop ofs).take v.length = v ∧
    ∀ i : Nat, i < n → (i < ofs ∨ ofs + v.length ≤ i) →
      (writeBlock (List.replicate n 0) ofs v)[i]? = some 0 := by
  have htake : (List.replicate n (0 : ℚ)).take ofs = List.replicate ofs 0 := by
    rw [List.take_replicate, Nat.min_eq_left (by omega)]
  have hdrop : (List.replicate n (0 : ℚ)).drop (ofs + v.length)
      = List.replicate (n - (ofs + v.length)) 0 := by
    rw [List.drop_replicate]
  refine ⟨?_, ?_, ?_⟩
  · simp only [writeBlock, htake, hdrop, List.length_append, List.length_replicate]
    omega
  · simp only [writeBlock, htake, hdrop, List.append_assoc]
    rw [List.drop_append_of_le_length (by simp)]
    simp
  · intro i hi hout
    simp only [writeBlock, htake, hdrop, List.append_assoc]
    rcases hout with hlt | hge
    · rw [List.getElem?_append_left (by simpa using hlt)]
      rw [List.getElem?_replicate]
      simp [hlt]
    · rw [List.getElem?_append_right (by simp; omega)]
      rw [List.getElem?_append_right (by simp; omega)]
      rw [List.getElem?_replicate]
      simp only [List.length_replicate]
      rw [if_pos (by omega)]

/-- C16. For a basis `j+1` of the patch and a global vector `g` of the patch's
DOF length, extracting the nodal vector of the basis and injecting it into a
zero vector of the same length gives a vector of that length whose block of the
basis equals the block of `g` and whose entries outside the block are zero;
`injectNodeVec` returns `true` on every input. -/
theorem extract_inject_roundtrip (p : ASMu2Dmx) (g : List ℚ) (j : Nat)
    (hj : j < p.nb.length) (hg : g.length = dofLength p.nfx p.nb p.nb.length) :
    (injectNodeVec p (extractNodeVec p g 0 ((j + 1 : Nat) : Int))
        (List.replicate g.length 0) 0 ((j + 1 : Nat) : Int)).1 = true ∧
    (injectNodeVec p (extractNodeVec p g 0 ((j + 1 : Nat) : Int))
        (List.replicate g.length 0) 0 ((j + 1 : Nat) : Int)).2.length = g.length ∧
    ((injectNodeVec p (extractNodeVec p g 0 ((j + 1 : Nat) : Int))
        (List.replicate g.length 0) 0 ((j + 1 : Nat) : Int)).2.drop (dofLength p.nfx p.nb j)).take
        (p.nfx.getD j 0 * p.nb.getD j 0)
      = (g.drop (dofLength p.nfx p.nb j)).take (p.nfx.getD j 0 * p.nb.getD j 0) ∧
    (∀ i : Nat, i < g.length →
      (i < dofLength p.nfx p.nb j ∨
        dofLength p.nfx p.nb j + p.nfx.getD j 0 * p.nb.getD j 0 ≤ i) →
      (injectNodeVec p (extractNodeVec p g 0 ((j + 1 : Nat) : Int))
        (List.replicate g.length 0) 0 ((j + 1 : Nat) : Int)).2[i]? = some 0) ∧
    ∀ (nodeRes globRes : List ℚ) (nndof : Nat) (basis : Int),
      (injectNodeVec p nodeRes globRes nndof basis).1 = true := by
  have hc : 1 ≤ ((j + 1 : Nat) : Int) ∧ ((j + 1 : Nat) : Int) ≤ (p.nb.length : Int) := by omega
  have hk : (((j + 1 : Nat) : Int) - 1).toNat = j := by omega
  have hfit : dofLength p.nfx p.nb j + p.nfx.getD j 0 * p.nb.getD j 0 ≤ g.length := by
    rw [hg, ← dofLength_succ]
    exact dofLength_mono _ _ _ _ hj
  have hext : extractNodeVec p g 0 ((j + 1 : Nat) : Int)
      = (g.drop (dofLength p.nfx p.nb j)).take (p.nfx.getD j 0 * p.nb.getD j 0) := by
    simp only [extractNodeVec, extractNodeVecMx, hc, and_self, if_true, hk]
  have hlen : ((g.drop (dofLength p.nfx p.nb j)).take (p.nfx.getD j 0 * p.nb.getD j 0)).length
      = p.nfx.getD j 0 * p.nb.getD j 0 := by
    rw [List.length_take, List.length_drop]
    omega
  have hinj : (injectNodeVec p (extractNodeVec p g 0 ((j + 1 : Nat) : Int))
        (List.replicate g.length 0) 0 ((j + 1 : Nat) : Int)).2
      = writeBlock (List.replicate g.length 0) (dofLength p.nfx p.nb j)
          ((g.drop (dofLength p.nfx p.nb j)).take (p.nfx.getD j 0 * p.nb.getD j 0)) := by
    simp only [injectNodeVec, injectNodeVecMx, hc, and_self, if_true, hk, hext]
    rw [List.take_of_length_le (le_of_eq hlen)]
  obtain ⟨h1, h2, h3⟩ := writeBlock_zero g.length (dofLength p.nfx p.nb j)
    ((g.drop (dofLength p.nfx p.nb j)).take (p.nfx.getD j 0 * p.nb.getD j 0))
    (by rw [hlen]; exact hfit)
  rw [hlen] at h2 h3
  refine ⟨rfl, ?_, ?_, ?_, fun _ _ _ _ => rfl⟩
  · rw [hinj]; exact h1
  · rw [hinj]; exact h2
  · intro i hi hout
    rw [hinj]
    exact h3 i hi hout

/-- Witness of C16: basis 2 of the sample patch (function counts 9 and 4, field
counts 2 and 1, so 22 DOFs with the block of basis 2 at positions 18 to 21). -/
theorem extract_inject_roundtrip_witness :
    1 < samplePatchGenerated.nb.length ∧
    [1, 2, 3, 4, 5, 6, 7, 8, 9, 10, 11, 12, 13, 14, 15, 16, 17, 18, 19, 20, 21, (22 : ℚ)].length
      = dofLength samplePatchGenerated.nfx samplePatchGenerated.nb
          samplePatchGenerated.nb.length ∧
    extractNodeVec samplePatchGenerated
        [1, 2, 3, 4, 5, 6, 7, 8, 9, 10, 11, 12, 13, 14, 15, 16, 17, 18, 19, 20, 21, 22] 0 2
      = [19, 20, 21, 22] ∧
    injectNodeVec samplePatchGenerated [19, 20, 21, 22] (List.replicate 22 0) 0 2
      = (true, [0, 0, 0, 0, 0, 0, 0, 0, 0, 0, 0, 0, 0, 0, 0, 0, 0, 0, 19, 20, 21, 22]) ∧
    (injectNodeVec samplePatchGenerated (extractNodeVec samplePatchGenerated
        [1, 2, 3, 4, 5, 6, 7, 8, 9, 10, 11, 12, 13, 14, 15, 16, 17, 18, 19, 20, 21, 22] 0
          ((1 + 1 : Nat) : Int))
        (List.replicate
          [1, 2, 3, 4, 5, 6, 7, 8, 9, 10, 11, 12, 13, 14, 15, 16, 17, 18, 19, 20, 21,
            (22 : ℚ)].length 0) 0 ((1 + 1 : Nat) : Int)).2.length
      = [1, 2, 3, 4, 5, 6, 7, 8, 9, 10, 11, 12, 13, 14, 15, 16, 17, 18, 19, 20, 21,
          (22 : ℚ)].length :=
  ⟨by decide, by decide, by decide, by decide,
    (extract_inject_roundtrip samplePatchGenerated
      [1, 2, 3, 4, 5, 6, 7, 8, 9, 10, 11, 12, 13, 14, 15, 16, 17, 18, 19, 20, 21, 22] 1
      (by decide) (by decide)).2.1⟩

/-! ### The quadrature weight of interior integration -/

theorem gaussPoint_interior {σ : Type} (G : Geometry) (C : Collab σ) (p : ASMu2Dmx)
    (xg wg : List ℚ) (d : ElementData) (j i iGP : Nat) (s : Run (Traced σ)) :
    (gaussPoint G C.traced p xg wg d j i iGP s).col.interior
      = if G.Jacobian d.geoEl (d.gpar0.getD i 0) (d.gpar1.getD j 0) = 0 then s.col.interior
        else s.col.interior ++
          [{ iel := d.iel, iGP := iGP, xi := xg.getD i 0, eta := xg.getD j 0,
             u := d.gpar0.getD i 0, v := d.gpar1.getD j 0,
             detJxW := G.Jacobian d.geoEl (d.gpar0.getD i 0) (d.gpar1.getD j 0)
               * (0.25 * d.dA * wg.getD i 0 * wg.getD j 0) }] := by
  unfold gaussPoint
  simp only [Collab.traced]
  split
  · rfl
  · split
    · split <;> rfl
    · rfl

theorem gaussPoint_weights {σ : Type} (G : Geometry) (C : Collab σ) (p : ASMu2Dmx)
    (xg wg : List ℚ) (d : ElementData) (j i iGP : Nat) (s : Run (Traced σ))
    (hdA : d.dA = G.getParametricArea d.geoEl)
    (hg0 : d.gpar0 = G.getGaussPointParameters 0 p.nGauss d.geoEl xg)
    (hg1 : d.gpar1 = G.getGaussPointParameters 1 p.nGauss d.geoEl xg)
    (hi : i < p.nGauss) (hj : j < p.nGauss)
    (hs : ∀ fe ∈ s.col.interior, InteriorWeight G p xg wg fe) :
    ∀ fe ∈ (gaussPoint G C.traced p xg wg d j i iGP s).col.interior,
      InteriorWeight G p xg wg fe := by
  rw [gaussPoint_interior]
  split
  · exact hs
  · rename_i hdet
    intro fe hfe
    rcases List.mem_append.mp hfe with h | h
    · exact hs fe h
    · simp only [List.mem_singleton] at h
      subst h
      refine ⟨d.geoEl, i, j, hi, hj, ?_, ?_, hdet, ?_⟩
      · simp only [hg0]
      · simp only [hg1]
      · simp only [hdA]
        ring

theorem gaussLoopI_weights {σ : Type} (G : Geometry) (C : Collab σ) (p : ASMu2Dmx)
    (xg wg : List ℚ) (d : ElementData) (j : Nat)
    (hdA : d.dA = G.getParametricArea d.geoEl)
    (hg0 : d.gpar0 = G.getGaussPointParameters 0 p.nGauss d.geoEl xg)
    (hg1 : d.gpar1 = G.getGaussPointParameters 1 p.nGauss d.geoEl xg)
    (hj : j < p.nGauss) :
    ∀ (is : List Nat) (iGP : Nat) (s : Run (Traced σ)), (∀ i ∈ is, i < p.nGauss) →
      (∀ fe ∈ s.col.interior, InteriorWeight G p xg wg fe) →
      ∀ fe ∈ (gaussLoopI G C.traced p xg wg d j is iGP s).2.col.interior,
        InteriorWeight G p xg wg fe := by
  intro is
  induction is with
  | nil => intro iGP s _ hs; exact hs
  | cons i is ih =>
    intro iGP s his hs
    simp only [gaussLoopI]
    exact ih _ _ (fun k hk => his k (List.mem_cons_of_mem _ hk))
      (gaussPoint_weights G C p xg wg d j i iGP s hdA hg0 hg1
        (his i (List.mem_cons_self _ _)) hj hs)

theorem gaussLoopJ_weights {σ : Type} (G : Geometry) (C : Collab σ) (p : ASMu2Dmx)
    (xg wg : List ℚ) (d : ElementData)
    (hdA : d.dA = G.getParametricArea d.geoEl)
    (hg0 : d.gpar0 = G.getGaussPointParameters 0 p.nGauss d.geoEl xg)
    (hg1 : d.gpar1 = G.getGaussPointParameters 1 p.nGauss d.geoEl xg) :
    ∀ (js : List Nat) (iGP : Nat) (s : Run (Traced σ)), (∀ j ∈ js, j < p.nGauss) →
      (∀ fe ∈ s.col.interior, InteriorWeight G p xg wg fe) →
      ∀ fe ∈ (gaussLoopJ G C.traced p xg wg d js iGP s).2.col.interior,
        InteriorWeight G p xg wg fe := by
  intro js
  induction js with
  | nil => intro iGP s _ hs; exact hs
  | cons j js ih =>
    intro iGP s hjs hs
    simp only [gaussLoopJ]
    exact ih _ _ (fun k hk => hjs k (List.mem_cons_of_mem _ hk))
      (gaussLoopI_weights G C p xg wg d j hdA hg0 hg1 (hjs j (List.mem_cons_self _ _))
        (List.range p.nGauss) iGP s (fun i hi => List.mem_range.mp hi) hs)

theorem finishElement_interior {σ : Type} (G : Geometry) (C : Collab σ) (p : ASMu2Dmx)
    (xg wg : List ℚ) (d : ElementData) (s3 : Run (Traced σ)) :
    (finishElement G C.traced p xg wg d s3).col.interior
      = (gaussLoopJ G C.traced p xg wg d (List.range p.nGauss)
          (p.firstIp + (d.loopIel - 1) * p.nGauss * p.nGauss) s3).2.col.interior := by
  unfold finishElement
  simp only [Collab.traced]
  split
  · rfl
  · split <;> rfl

theorem integrateLocated_weights {σ : Type} (G : Geometry) (C : Collab σ) (p : ASMu2Dmx)
    (xg wg : List ℚ) (iel : Nat) (l : Located) (s r : Run (Traced σ))
    (hrun : integrateLocated G C.traced p xg wg iel l s = some r)
    (hs : ∀ fe ∈ s.col.interior, InteriorWeight G p xg wg fe) :
    ∀ fe ∈ r.col.interior, InteriorWeight G p xg wg fe := by
  unfold integrateLocated at hrun
  simp only at hrun
  split at hrun
  · simp only [Option.some.injEq] at hrun
    subst hrun
    exact hs
  split at hrun
  · simp only [Option.some.injEq] at hrun
    subst hrun
    exact hs
  split at hrun
  · cases hrun
  split at hrun
  · simp only [Option.some.injEq] at hrun
    subst hrun
    exact hs
  · simp only [Option.some.injEq] at hrun
    subst hrun
    rw [finishElement_interior]
    exact gaussLoopJ_weights G C p xg wg _ rfl rfl rfl (List.range p.nGauss) _ _
      (fun j hj => List.mem_range.mp hj) hs

theorem integrateGroup_weights {σ : Type} (G : Geometry) (C : Collab σ) (p : ASMu2Dmx)
    (xg wg : List ℚ) :
    ∀ (es : List Nat) (s r : Run (Traced σ)), integrateGroup G C.traced p xg wg es s = some r →
      (∀ fe ∈ s.col.interior, InteriorWeight G p xg wg fe) →
      ∀ fe ∈ r.col.interior, InteriorWeight G p xg wg fe := by
  intro es
  induction es with
  | nil =>
    intro s r hrun hs
    simp only [integrateGroup, Option.some.injEq] at hrun
    subst hrun
    exact hs
  | cons e es ih =>
    intro s r hrun hs
    simp only [integrateGroup] at hrun
    split at hrun
    · cases hrun
    rename_i s1 hs1
    refine ih s1 r hrun ?_
    unfold integrateElement at hs1
    split at hs1
    · simp only [Option.some.injEq] at hs1
      subst hs1
      exact hs
    split at hs1
    · cases hs1
    exact integrateLocated_weights G C p xg wg _ _ s s1 hs1 hs

theorem integrateGroups_weights {σ : Type} (G : Geometry) (C : Collab σ) (p : ASMu2Dmx)
    (xg wg : List ℚ) :
    ∀ (gs : List (List Nat)) (s r : Run (Traced σ)),
      integrateGroups G C.traced p xg wg gs s = some r →
      (∀ fe ∈ s.col.interior, InteriorWeight G p xg wg fe) →
      ∀ fe ∈ r.col.interior, InteriorWeight G p xg wg fe := by
  intro gs
  induction gs with
  | nil =>
    intro s r hrun hs
    simp only [integrateGroups, Option.some.injEq] at hrun
    subst hrun
    exact hs
  | cons g gs ih =>
    intro s r hrun hs
    simp only [integrateGroups] at hrun
    split at hrun
    · simp only [Option.some.injEq] at hrun
      subst hrun
      exact hs
    split at hrun
    · cases hrun
    rename_i s1 hs1
    exact ih s1 r hrun (integrateGroup_weights G C p xg wg g s s1 hs1 hs)

/-- C13. At a Gauss point `(i,j)` where the Jacobian computation returns a
non-zero determinant `det`, interior integration calls `evalIntMx` once, with a
finite element object whose `detJxW` is `det * 0.25 * dA * wg[i] * wg[j]`, `dA`
being the parametric area of the element; and in a whole call of interior
integration every finite element object handed to `evalIntMx` carries the
weight of a non-singular Gauss point of a geometry element, computed with the
weights `wg` of the `nGauss`-point rule. -/
theorem evalIntMx_weight {σ : Type} (G : Geometry) (C : Collab σ) (p : ASMu2Dmx)
    (xg wg : List ℚ) (d : ElementData) (j i iGP : Nat) (s : Run (Traced σ))
    (hdet : G.Jacobian d.geoEl (d.gpar0.getD i 0) (d.gpar1.getD j 0) ≠ 0) :
    (∃ fe : FiniteElement,
      (gaussPoint G C.traced p xg wg d j i iGP s).col.interior = s.col.interior ++ [fe] ∧
      fe.u = d.gpar0.getD i 0 ∧ fe.v = d.gpar1.getD j 0 ∧
      fe.detJxW = G.Jacobian d.geoEl (d.gpar0.getD i 0) (d.gpar1.getD j 0) * 0.25 * d.dA
        * wg.getD i 0 * wg.getD j 0) ∧
    ∀ (s0 : σ) (r : Run (Traced σ)), G.getCoord p.nGauss = some xg →
      G.getWeight p.nGauss = some wg →
      integrate G C.traced p { col := s0, interior := [], boundary := [] } = some r →
      ∀ fe ∈ r.col.interior, InteriorWeight G p xg wg fe := by
  constructor
  · refine ⟨{ iel := d.iel, iGP := iGP, xi := xg.getD i 0, eta := xg.getD j 0,
               u := d.gpar0.getD i 0, v := d.gpar1.getD j 0,
               detJxW := G.Jacobian d.geoEl (d.gpar0.getD i 0) (d.gpar1.getD j 0)
                 * (0.25 * d.dA * wg.getD i 0 * wg.getD j 0) }, ?_, rfl, rfl, ?_⟩
    · rw [gaussPoint_interior, if_neg hdet]
    · simp only
      ring
  · intro s0 r hxg hwg hrun
    unfold integrate at hrun
    simp only [hxg, hwg] at hrun
    split at hrun
    · simp only [Option.some.injEq] at hrun
      subst hrun
      intro fe hfe
      simp at hfe
    · exact integrateGroups_weights G C p xg wg _ _ r hrun (by intro fe hfe; simp at hfe)

/-! ### The normal vector of boundary integration -/

theorem bouPoint_boundary {σ : Type} (G : Geometry) (C : Collab σ) (xg wg : List ℚ)
    (d : BouData) (i : Nat) (fe : FiniteElement) (s : Run (Traced σ)) :
    (G.JacobianBou d.geoEl (Int.natAbs d.edgeDir) (3 - Int.natAbs d.edgeDir)
        (d.gpar0.getD i 0) (d.gpar1.getD i 0)).1 = 0 ∧
      (bouPoint G C.traced xg wg d i fe s).2.col.boundary = s.col.boundary ∨
    (G.JacobianBou d.geoEl (Int.natAbs d.edgeDir) (3 - Int.natAbs d.edgeDir)
        (d.gpar0.getD i 0) (d.gpar1.getD i 0)).1 ≠ 0 ∧
      ∃ fe4 : FiniteElement, fe4.u = d.gpar0.getD i 0 ∧ fe4.v = d.gpar1.getD i 0 ∧
        (bouPoint G C.traced xg wg d i fe s).2.col.boundary
          = s.col.boundary ++
            [(fe4,
              if d.edgeDir < 0 then
                (-(G.JacobianBou d.geoEl (Int.natAbs d.edgeDir) (3 - Int.natAbs d.edgeDir)
                    (d.gpar0.getD i 0) (d.gpar1.getD i 0)).2.1,
                 -(G.JacobianBou d.geoEl (Int.natAbs d.edgeDir) (3 - Int.natAbs d.edgeDir)
                    (d.gpar0.getD i 0) (d.gpar1.getD i 0)).2.2.1,
                 -(G.JacobianBou d.geoEl (Int.natAbs d.edgeDir) (3 - Int.natAbs d.edgeDir)
                    (d.gpar0.getD i 0) (d.gpar1.getD i 0)).2.2.2)
              else (G.JacobianBou d.geoEl (Int.natAbs d.edgeDir) (3 - Int.natAbs d.edgeDir)
                    (d.gpar0.getD i 0) (d.gpar1.getD i 0)).2)] := by
  by_cases hdet : (G.JacobianBou d.geoEl (Int.natAbs d.edgeDir) (3 - Int.natAbs d.edgeDir)
        (d.gpar0.getD i 0) (d.gpar1.getD i 0)).1 = 0
  · left
    refine ⟨hdet, ?_⟩
    unfold bouPoint
    simp only [hdet, if_true]
  · right
    refine ⟨hdet, ?_⟩
    unfold bouPoint
    simp only [hdet, if_false, Collab.traced]
    by_cases hneg : d.edgeDir < 0
    · simp only [hneg, if_true, mul_neg, mul_one]
      split <;> exact ⟨_, rfl, rfl, rfl⟩
    · simp only [hneg, if_false]
      split <;> exact ⟨_, rfl, rfl, rfl⟩

theorem bouPoint_normals {σ : Type} (G : Geometry) (C : Collab σ) (xg wg : List ℚ)
    (d : BouData) (i : Nat) (fe : FiniteElement) (s : Run (Traced σ))
    (hs : ∀ rec ∈ s.col.boundary, BoundaryNormal G d.edgeDir rec.1 rec.2) :
    ∀ rec ∈ (bouPoint G C.traced xg wg d i fe s).2.col.boundary,
      BoundaryNormal G d.edgeDir rec.1 rec.2 := by
  rcases bouPoint_boundary G C xg wg d i fe s with ⟨_, h⟩ | ⟨hdet, fe4, hu, hv, h⟩
  · rw [h]
    exact hs
  · rw [h]
    intro rec hrec
    rcases List.mem_append.mp hrec with hmem | hmem
    · exact hs rec hmem
    · simp only [List.mem_singleton] at hmem
      subst hmem
      refine ⟨d.geoEl, ?_, ?_⟩
      · simp only [hu, hv]
        exact hdet
      · simp only [hu, hv]

theorem bouLoop_normals {σ : Type} (G : Geometry) (C : Collab σ) (xg wg : List ℚ)
    (d : BouData) :
    ∀ (is : List Nat) (fe : FiniteElement) (s : Run (Traced σ)),
      (∀ rec ∈ s.col.boundary, BoundaryNormal G d.edgeDir rec.1 rec.2) →
      ∀ rec ∈ (bouLoop G C.traced xg wg d is fe s).2.col.boundary,
        BoundaryNormal G d.edgeDir rec.1 rec.2 := by
  intro is
  induction is with
  | nil => intro fe s hs; exact hs
  | cons i is ih =>
    intro fe s hs
    simp only [bouLoop]
    split
    · exact hs
    · exact ih _ _ (bouPoint_normals G C xg wg d i fe s hs)

theorem bouFinish_normals {σ : Type} (G : Geometry) (C : Collab σ) (p : ASMu2Dmx)
    (xg wg : List ℚ) (nGP : Nat) (edgeDir : Int) (iel : Nat) (st st1 : BouState (Traced σ))
    (sizes : List Nat) (geoEl feIel : Nat) (fe0 : FiniteElement) (dS : ℚ) (mnpc : List Nat)
    (hrun : bouFinish G C.traced p xg wg nGP edgeDir iel st sizes geoEl feIel fe0 dS mnpc
      = some st1)
    (hs : ∀ rec ∈ st.run.col.boundary, BoundaryNormal G edgeDir rec.1 rec.2) :
    ∀ rec ∈ st1.run.col.boundary, BoundaryNormal G edgeDir rec.1 rec.2 := by
  unfold bouFinish at hrun
  simp only at hrun
  split at hrun
  · cases hrun
  simp only [Option.some.injEq] at hrun
  subst hrun
  have hloop := bouLoop_normals G C xg wg
    { geoEl := geoEl, iel := feIel, a := st.run.nA, edgeDir := edgeDir, dS := dS,
      gpar0 := if (3 : Int) - Int.natAbs edgeDir = 1 then
          G.getGaussPointParameters ((3 : Int) - Int.natAbs edgeDir - 1).toNat nGP geoEl xg
        else st.gpar0,
      gpar1 := if (3 : Int) - Int.natAbs edgeDir = 2 then
          G.getGaussPointParameters ((3 : Int) - Int.natAbs edgeDir - 1).toNat nGP geoEl xg
        else st.gpar1 }
    (List.range nGP) fe0
    { ok := (C.traced.initElementBou (C.traced.getLocalIntegral st.run.col sizes feIel true)
              mnpc sizes p.nb).1,
      col := (C.traced.initElementBou (C.traced.getLocalIntegral st.run.col sizes feIel true)
              mnpc sizes p.nb).2,
      nA := st.run.nA + 1,
      log := st.run.log ++ [Event.getParametricLength iel false,
                       Event.getElementCoordinates iel true,
                       Event.getLocalIntegral st.run.nA iel,
                       Event.initElementBou st.run.nA
                         (C.traced.initElementBou
                           (C.traced.getLocalIntegral st.run.col sizes feIel true)
                           mnpc sizes p.nb).1] }
    hs
  revert hloop
  generalize bouLoop G C.traced xg wg
    { geoEl := geoEl, iel := feIel, a := st.run.nA, edgeDir := edgeDir, dS := dS,
      gpar0 := if (3 : Int) - Int.natAbs edgeDir = 1 then
          G.getGaussPointParameters ((3 : Int) - Int.natAbs edgeDir - 1).toNat nGP geoEl xg
        else st.gpar0,
      gpar1 := if (3 : Int) - Int.natAbs edgeDir = 2 then
          G.getGaussPointParameters ((3 : Int) - Int.natAbs edgeDir - 1).toNat nGP geoEl xg
        else st.gpar1 }
    (List.range nGP) fe0
    { ok := (C.traced.initElementBou (C.traced.getLocalIntegral st.run.col sizes feIel true)
              mnpc sizes p.nb).1,
      col := (C.traced.initElementBou (C.traced.getLocalIntegral st.run.col sizes feIel true)
              mnpc sizes p.nb).2,
      nA := st.run.nA + 1,
      log := st.run.log ++ [Event.getParametricLength iel false,
                       Event.getElementCoordinates iel true,
                       Event.getLocalIntegral st.run.nA iel,
                       Event.initElementBou st.run.nA
                         (C.traced.initElementBou
                           (C.traced.getLocalIntegral st.run.col sizes feIel true)
                           mnpc sizes p.nb).1] } = g
  intro hloop
  simp only [Collab.traced]
  split
  · split <;> exact hloop
  · exact hloop

theorem bouElement_normals {σ : Type} (G : Geometry) (C : Collab σ) (p : ASMu2Dmx)
    (xg wg : List ℚ) (nGP : Nat) (edgeDir : Int) (bases : List LRSplineSurface) (el1 : Element)
    (iel : Nat) (st st1 : BouState (Traced σ))
    (hrun : bouElement G C.traced p xg wg nGP edgeDir bases el1 iel st = some st1)
    (hs : ∀ rec ∈ st.run.col.boundary, BoundaryNormal G edgeDir rec.1 rec.2) :
    ∀ rec ∈ st1.run.col.boundary, BoundaryNormal G edgeDir rec.1 rec.2 := by
  unfold bouElement at hrun
  simp only at hrun
  split at hrun
  · cases hrun
  split at hrun
  · cases hrun
  split at hrun
  · cases hrun
  split at hrun
  · cases hrun
  split at hrun
  · simp only [Option.some.injEq] at hrun
    subst hrun
    exact hs
  split at hrun
  · simp only [Option.some.injEq] at hrun
    subst hrun
    exact hs
  split at hrun
  · cases hrun
  exact bouFinish_normals G C p xg wg nGP edgeDir iel st st1 _ _ _ _ _ _ hrun hs

theorem bouElements_normals {σ : Type} (G : Geometry) (C : Collab σ) (p : ASMu2Dmx)
    (xg wg : List ℚ) (nGP : Nat) (edgeDir : Int) (bases : List LRSplineSurface)
    (gb : LRSplineSurface) :
    ∀ (els : List Element) (iel : Nat) (st r : BouState (Traced σ)),
      bouElements G C.traced p xg wg nGP edgeDir bases gb els iel st = some r →
      (∀ rec ∈ st.run.col.boundary, BoundaryNormal G edgeDir rec.1 rec.2) →
      ∀ rec ∈ r.run.col.boundary, BoundaryNormal G edgeDir rec.1 rec.2 := by
  intro els
  induction els with
  | nil =>
    intro iel st r hrun hs
    simp only [bouElements, Option.some.injEq] at hrun
    subst hrun
    exact hs
  | cons el1 rest ih =>
    intro iel st r hrun hs
    simp only [bouElements] at hrun
    split at hrun
    · exact ih _ st r hrun hs
    split at hrun
    · exact ih _ st r hrun hs
    split at hrun
    · cases hrun
    rename_i st1 hst1
    have h1 := bouElement_normals G C p xg wg nGP edgeDir bases el1 iel st st1 hst1 hs
    split at hrun
    · simp only [Option.some.injEq] at hrun
      subst hrun
      exact h1
    · exact ih _ st1 r hrun h1

theorem integrateBou_normals {σ : Type} (G : Geometry) (C : Collab σ) (p : ASMu2Dmx)
    (lIndex : Int) (s0 : σ) (r : Run (Traced σ))
    (hrun : integrateBou G C.traced p lIndex { col := s0, interior := [], boundary := [] }
      = some r) :
    ∀ rec ∈ r.col.boundary, BoundaryNormal G (edgeDirOf lIndex) rec.1 rec.2 := by
  unfold integrateBou at hrun
  simp only at hrun
  split at hrun
  swap
  · cases hrun
  split at hrun
  swap
  · simp only [Option.some.injEq] at hrun
    subst hrun
    intro rec hrec
    simp at hrec
  split at hrun
  · cases hrun
  split at hrun
  · cases hrun
  split at hrun
  · cases hrun
  split at hrun
  · cases hrun
  simp only [Option.map_eq_some'] at hrun
  obtain ⟨st, hst, rfl⟩ := hrun
  refine bouElements_normals G C p _ _ _ _ _ _ _ _ _ st hst ?_
  intro rec hrec
  simp [Collab.traced] at hrec

/-- C14. At a quadrature point of boundary integration where the Jacobian
computation returns a non-zero determinant and the normal `nrm`, `evalBouMx` is
called once, with the normal `-nrm` when the edge direction code is `-1` or `-2`
and with `nrm` itself when the code is `1` or `2`, whatever the state left by
the points before; and in a whole call of boundary integration every normal
handed to `evalBouMx` is the normal returned by the Jacobian computation at the
point of the call, negated exactly when the code of the edge is negative. -/
theorem evalBouMx_normal {σ : Type} (G : Geometry) (C : Collab σ) (xg wg : List ℚ)
    (d : BouData) (i : Nat) (fe : FiniteElement) (s : Run (Traced σ))
    (hdet : (G.JacobianBou d.geoEl (Int.natAbs d.edgeDir) (3 - Int.natAbs d.edgeDir)
      (d.gpar0.getD i 0) (d.gpar1.getD i 0)).1 ≠ 0) :
    (∀ nrm : ℚ × ℚ × ℚ,
      nrm = (G.JacobianBou d.geoEl (Int.natAbs d.edgeDir) (3 - Int.natAbs d.edgeDir)
        (d.gpar0.getD i 0) (d.gpar1.getD i 0)).2 →
      ((d.edgeDir = -1 ∨ d.edgeDir = -2) → ∃ fe4 : FiniteElement,
        (bouPoint G C.traced xg wg d i fe s).2.col.boundary
          = s.col.boundary ++ [(fe4, (-nrm.1, -nrm.2.1, -nrm.2.2))]) ∧
      ((d.edgeDir = 1 ∨ d.edgeDir = 2) → ∃ fe4 : FiniteElement,
        (bouPoint G C.traced xg wg d i fe s).2.col.boundary
          = s.col.boundary ++ [(fe4, nrm)])) ∧
    ∀ (p : ASMu2Dmx) (lIndex : Int) (s0 : σ) (r : Run (Traced σ)),
      integrateBou G C.traced p lIndex { col := s0, interior := [], boundary := [] } = some r →
      ∀ rec ∈ r.col.boundary, BoundaryNormal G (edgeDirOf lIndex) rec.1 rec.2 := by
  refine ⟨?_, fun p lIndex s0 r hrun => integrateBou_normals G C p lIndex s0 r hrun⟩
  intro nrm hnrm
  rcases bouPoint_boundary G C xg wg d i fe s with ⟨h0, _⟩ | ⟨_, fe4, _, _, h⟩
  · exact absurd h0 hdet
  · constructor
    · intro hcode
      have hneg : d.edgeDir < 0 := by omega
      rw [if_pos hneg, ← hnrm] at h
      exact ⟨fe4, h⟩
    · intro hcode
      have hpos : ¬ d.edgeDir < 0 := by omega
      rw [if_neg hpos, ← hnrm] at h
      exact ⟨fe4, h⟩

/-- Witness of C13 on the sample patch with the regular geometry: determinant 1,
parametric area 1 and Gauss weights 1, so every weight is 1/4. -/
theorem evalIntMx_weight_witness :
    regularGeometry.Jacobian sampleElementData.geoEl (sampleElementData.gpar0.getD 0 0)
      (sampleElementData.gpar1.getD 1 0) ≠ 0 ∧
    (integrate regularGeometry (sampleCollab (fun _ => true) true true).traced
        sampleIntegrationPatch { col := (), interior := [], boundary := [] }).map
      (fun r => r.col.interior.map (fun fe => fe.detJxW)) = some [1 / 4, 1 / 4, 1 / 4, 1 / 4] ∧
    ∃ fe : FiniteElement,
      (gaussPoint regularGeometry (sampleCollab (fun _ => true) true true).traced
          sampleIntegrationPatch [-1, 1] [1, 1] sampleElementData 1 0 2 tracedSampleRun).col.interior
        = tracedSampleRun.col.interior ++ [fe] ∧
      fe.u = sampleElementData.gpar0.getD 0 0 ∧ fe.v = sampleElementData.gpar1.getD 1 0 ∧
      fe.detJxW = regularGeometry.Jacobian sampleElementData.geoEl
          (sampleElementData.gpar0.getD 0 0) (sampleElementData.gpar1.getD 1 0) * 0.25
        * sampleElementData.dA * ([1, 1] : List ℚ).getD 0 0 * ([1, 1] : List ℚ).getD 1 0 :=
  ⟨by decide, by with_unfolding_all decide,
    (evalIntMx_weight regularGeometry (sampleCollab (fun _ => true) true true)
      sampleIntegrationPatch [-1, 1] [1, 1] sampleElementData 1 0 2 tracedSampleRun
      (by decide)).1⟩

/-- Witness of C14 on the sample patch, where the Jacobian computation returns the
normal `(1,0,0)`: along the edge with code `-1` (boundary index 1) the integrand
receives `(-1,0,0)` at both points, along the edge with code `1` (boundary
index 2) it receives `(1,0,0)`. -/
theorem evalBouMx_normal_witness :
    (regularGeometry.JacobianBou sampleBouData.geoEl (Int.natAbs sampleBouData.edgeDir)
      (3 - Int.natAbs sampleBouData.edgeDir) (sampleBouData.gpar0.getD 0 0)
      (sampleBouData.gpar1.getD 0 0)).1 ≠ 0 ∧
    edgeDirOf 1 = -1 ∧ edgeDirOf 2 = 1 ∧
    (integrateBou regularGeometry (sampleCollab (fun _ => true) true true).traced
        sampleIntegrationPatch 1 { col := (), interior := [], boundary := [] }).map
      (fun r => r.col.boundary.map (fun rec => rec.2)) = some [(-1, 0, 0), (-1, 0, 0)] ∧
    (integrateBou regularGeometry (sampleCollab (fun _ => true) true true).traced
        sampleIntegrationPatch 2 { col := (), interior := [], boundary := [] }).map
      (fun r => r.col.boundary.map (fun rec => rec.2)) = some [(1, 0, 0), (1, 0, 0)] ∧
    ∀ (p : ASMu2Dmx) (lIndex : Int) (s0 : Unit) (r : Run (Traced Unit)),
      integrateBou regularGeometry (sampleCollab (fun _ => true) true true).traced p lIndex
        { col := s0, interior := [], boundary := [] } = some r →
      ∀ rec ∈ r.col.boundary, BoundaryNormal regularGeometry (edgeDirOf lIndex) rec.1 rec.2 :=
  ⟨by decide, by decide, by decide, by with_unfolding_all decide, by with_unfolding_all decide,
    (evalBouMx_normal regularGeometry (sampleCollab (fun _ => true) true true) [-1, 1] [1, 1]
      sampleBouData 0 (sampleGeometry.MxFiniteElement [9, 4] 0) tracedSampleRun (by decide)).2⟩


/-! ### Propagation of the refinement under full continuity -/

theorem copyRefinementLines_foldl (K : External) (m : Int) :
    ∀ (lines : List Meshline) (b : LRSplineSurface),
      copyRefinementLines K m lines b
        = lines.foldl (fun b line =>
            insertLine K b line (if line.multiplicity_ > 1 then line.multiplicity_ else m)) b := by
  intro lines
  induction lines with
  | nil => intro b; rfl
  | cons line rest ih =>
    intro b
    simp only [copyRefinementLines, List.foldl_cons, insertLine]
    rw [ih]
    split <;> rfl

theorem foldl_insertLine_single (K : External) :
    ∀ (lines : List Meshline) (b : LRSplineSurface),
      (∀ line ∈ lines, line.multiplicity_ = 1) →
      lines.foldl (fun b line =>
          insertLine K b line (if line.multiplicity_ > 1 then line.multiplicity_ else 1)) b
        = lines.foldl (fun b line => insertLine K b line 1) b := by
  intro lines
  induction lines with
  | nil => intro b _; rfl
  | cons line rest ih =>
    intro b hl
    simp only [List.foldl_cons]
    have h1 : line.multiplicity_ = 1 := hl line (List.mem_cons_self _ _)
    have h2 : ¬ line.multiplicity_ > 1 := by omega
    rw [if_neg h2]
    exact ih _ (fun l hlm => hl l (List.mem_cons_of_mem _ hlm))

theorem propagate_full_cont (K : External) (q : ASMu2Dmx) (a0 a1 : Nat)
    (hT : q.Type_ = MixedType.FULL_CONT_RAISE_BASIS1) (href : q.refBasis = some a0)
    (hne : a0 ≠ a1) (h : Heap) :
    propagate K q [a0, a1] 0 h
      = match h[a0]?, h[a1]? with
        | some rb, some b2 => some (h.set a1 (copyRefinementLines K 1 rb.meshlines b2))
        | _, _ => none := by
  have hne' : ¬ (some a0 : Option Nat) = some a1 := by
    intro hc
    exact hne (Option.some.inj hc)
  simp only [propagate, href, ne_eq, not_true_eq_false, if_false, hne', not_false_eq_true,
    if_true, hT, copyRefinement, Option.some_bind, Heap.update]
  cases h0 : h[a0]? with
  | none => simp
  | some rb =>
    cases h1 : h[a1]? with
    | none => simp
    | some b2 => simp

/-- C11 as amended. Under the policy `FULL_CONT_RAISE_BASIS1` on a patch whose
reference basis is basis 1, a refinement that succeeds propagates every mesh
line of the refined reference basis into basis 2 by one insertion, with the
multiplicity of the line when that exceeds 1 and with multiplicity 1 otherwise:
a reference line of multiplicity 1 enters basis 2 with multiplicity 1.  Basis 1
is the reference basis itself and receives no propagated insertion.  In the
patch that `refine` returns, basis 1 is the refined reference basis and basis 2
is the former basis 2 with these insertions, in every respect `f` that
`generateIDs` and `contractControlPoints` leave alone, such as the mesh lines. -/
theorem refine_full_cont_multiplicity (K : External) (p : ASMu2Dmx) (prm : RefineData)
    (sol : List (List ℚ)) (a0 a1 : Nat)
    (hT : p.Type_ = MixedType.FULL_CONT_RAISE_BASIS1) (hm : p.m_basis = [a0, a1])
    (href : p.refBasis = some a0) (hne : a0 ≠ a1)
    (hshare : p.shareFE = Char.ofNat 0)
    (hrec : ¬ (prm.errors = [] ∧ prm.elements = [])) :
    (RefineReady p → ∃ out, refine K p prm sol = some out) ∧
    ∀ out, refine K p prm sol = some out → out.ok = true →
      ∃ (h1 : Heap) (rb b2 : LRSplineSurface),
        extendAll K p sol p.heap = some h1 ∧ h1[a0]? = some rb ∧ h1[a1]? = some b2 ∧
        (K.doRefine prm rb).1 = true ∧
        propagate K { p with heap := h1.set a0 (K.doRefine prm rb).2 } [a0, a1] 0
            (h1.set a0 (K.doRefine prm rb).2)
          = some ((h1.set a0 (K.doRefine prm rb).2).set a1
              ((K.doRefine prm rb).2.meshlines.foldl (fun b line =>
                insertLine K b line
                  (if line.multiplicity_ > 1 then line.multiplicity_ else 1)) b2)) ∧
        ((∀ line ∈ (K.doRefine prm rb).2.meshlines, line.multiplicity_ = 1) →
          propagate K { p with heap := h1.set a0 (K.doRefine prm rb).2 } [a0, a1] 0
              (h1.set a0 (K.doRefine prm rb).2)
            = some ((h1.set a0 (K.doRefine prm rb).2).set a1
                ((K.doRefine prm rb).2.meshlines.foldl (fun b line => insertLine K b line 1)
                  b2))) ∧
        (∀ x : LRSplineSurface,
          ((h1.set a0 (K.doRefine prm rb).2).set a1 x)[a0]? = some (K.doRefine prm rb).2) ∧
        out.patch.m_basis = [a0, a1] ∧
        ∀ (α : Type) (f : LRSplineSurface → α), (∀ b, f (K.generateIDs b) = f b) →
          (∀ b v nf ofs, f (K.contractControlPoints b v nf ofs).1 = f b) →
          out.patch.heap[a0]?.map f = some (f (K.doRefine prm rb).2) ∧
          out.patch.heap[a1]?.map f
            = some (f ((K.doRefine prm rb).2.meshlines.foldl (fun b line =>
                insertLine K b line
                  (if line.multiplicity_ > 1 then line.multiplicity_ else 1)) b2)) ∧
          ((∀ line ∈ (K.doRefine prm rb).2.meshlines, line.multiplicity_ = 1) →
            out.patch.heap[a1]?.map f
              = some (f ((K.doRefine prm rb).2.meshlines.foldl
                  (fun b line => insertLine K b line 1) b2))) := by
  refine ⟨refine_defined K p prm sol, ?_⟩
  intro out hrun hok
  unfold refine at hrun
  rw [if_neg (by simp [hshare])] at hrun
  rw [if_neg (by simpa [List.isEmpty_iff] using hrec)] at hrun
  cases he : extendAll K p sol p.heap with
  | none => simp [he] at hrun
  | some h1 =>
    simp only [he] at hrun
    cases hb : h1[a0]? with
    | none => simp [href, hb] at hrun
    | some rb =>
      simp only [href, hb, Option.some_bind, Option.map_some'] at hrun
      cases hd : (K.doRefine prm rb).1 with
      | false =>
        simp only [hd] at hrun
        simp only [Bool.false_eq_true, if_false, Option.some.injEq] at hrun
        subst hrun
        simp at hok
      | true =>
        simp only [hd, if_true, hm] at hrun
        have ha0 : a0 < h1.length := by
          by_contra hcon
          rw [List.getElem?_eq_none (Nat.le_of_not_lt hcon)] at hb
          cases hb
        have hset0 : (h1.set a0 (K.doRefine prm rb).2)[a0]? = some (K.doRefine prm rb).2 := by
          rw [List.getElem?_set_self ha0]
        have hset1 : (h1.set a0 (K.doRefine prm rb).2)[a1]? = h1[a1]? := by
          rw [List.getElem?_set_ne hne]
        have hp := propagate_full_cont K { p with heap := h1.set a0 (K.doRefine prm rb).2 }
          a0 a1 hT href hne (h1.set a0 (K.doRefine prm rb).2)
        rw [hset0, hset1] at hp
        cases hb2 : h1[a1]? with
        | none =>
          rw [hb2] at hp
          simp only [hm, href] at hp
          rw [hp] at hrun
          cases hrun
        | some b2 =>
          rw [hb2] at hp
          simp only at hp
          have ha1 : a1 < (h1.set a0 (K.doRefine prm rb).2).length := by
            rw [List.length_set]
            by_contra hcon
            rw [List.getElem?_eq_none (Nat.le_of_not_lt hcon)] at hb2
            cases hb2
          have hfold := copyRefinementLines_foldl K 1 (K.doRefine prm rb).2.meshlines b2
          refine ⟨h1, rb, b2, rfl, hb, hb2, hd, ?_, ?_, ?_, ?_, ?_⟩
          · rw [hp, copyRefinementLines_foldl]
          · intro hall
            rw [hp, copyRefinementLines_foldl, foldl_insertLine_single K _ _ hall]
          · intro x
            rw [List.getElem?_set_ne hne.symm]
            exact hset0
          · have hp' := hp
            simp only [hm, href] at hp'
            rw [hp'] at hrun
            simp only [subgrid, hT, reduceCtorEq, if_false] at hrun
            split at hrun
            · cases hrun
            split at hrun
            · cases hrun
            simp only [Option.some.injEq] at hrun
            subst hrun
            rfl
          · intro α f hf1 hf2
            have hp' := hp
            simp only [hm, href] at hp'
            rw [hp'] at hrun
            simp only [subgrid, hT, reduceCtorEq, if_false] at hrun
            split at hrun
            · cases hrun
            rename_i n hn
            split at hrun
            · cases hrun
            rename_i c hc
            simp only [Option.some.injEq] at hrun
            subst hrun
            have hk1 := fun a => renumber_keeps f K hf1 _ _ _ _ _ _ n hn a
            have hk2 := fun a => contractAll_keeps f K hf2 _ _ _ _ _ _ c hc a
            dsimp only at hk1 hk2 ⊢
            have h0 : c.2.heap[a0]?.map f = some (f (K.doRefine prm rb).2) := by
              rw [hk2 a0, hk1 a0, List.getElem?_set_ne hne.symm, hset0]
              rfl
            have h1' : c.2.heap[a1]?.map f
                = some (f (copyRefinementLines K 1 (K.doRefine prm rb).2.meshlines b2)) := by
              rw [hk2 a1, hk1 a1, List.getElem?_set_self ha1]
              rfl
            refine ⟨h0, ?_, ?_⟩
            · rw [h1', hfold]
            · intro hall
              rw [h1', hfold, foldl_insertLine_single K _ _ hall]

/-- Counterexample to C11 as stated: on the sample patch (policy
`FULL_CONT_RAISE_BASIS1`, reference basis = basis 1) a refinement that adds one
line of multiplicity 1 to the reference basis succeeds and leaves basis 2 with
that line at multiplicity 1, not 2; basis 1 holds the line once. -/
theorem refine_full_cont_basis2_multiplicity_one :
    samplePatchGenerated.Type_ = MixedType.FULL_CONT_RAISE_BASIS1 ∧
    samplePatchGenerated.refBasis = samplePatchGenerated.m_basis[0]? ∧
    (refine tracingExternal samplePatchGenerated sampleRefineData []).map
        (fun r => (r.ok,
          r.patch.m_basis.map (fun a =>
            (r.patch.heap[a]?.map (fun b => b.meshlines.map (fun l => l.multiplicity_))))))
      = some (true, [some [1], some [1]]) ∧
    (refine tracingExternal samplePatchGenerated sampleRefineData []).map
        (fun r => r.patch.heap[1]?.map (fun b => b.meshlines.map (fun l => l.multiplicity_)))
      ≠ some (some [2]) := by
  refine ⟨rfl, rfl, ?_, ?_⟩
  · with_unfolding_all decide
  · with_unfolding_all decide

/-- Witness of C11 (amended) on the sample patch with the library operations that
keep track of the mesh lines: in the returned patch both bases hold the line of
the refinement once, with multiplicity 1. -/
theorem refine_full_cont_multiplicity_witness :
    sampleIntegrationPatch.Type_ = MixedType.FULL_CONT_RAISE_BASIS1 ∧
    sampleIntegrationPatch.m_basis = [0, 1] ∧ sampleIntegrationPatch.refBasis = some 0 ∧
    (0 : Nat) ≠ 1 ∧ sampleIntegrationPatch.shareFE = Char.ofNat 0 ∧
    ¬ (sampleRefineData.errors = [] ∧ sampleRefineData.elements = []) ∧
    RefineReady sampleIntegrationPatch ∧
    (refine tracingExternal sampleIntegrationPatch sampleRefineData [[1]]).map
        (fun r => (r.ok,
          r.patch.m_basis.map (fun a =>
            (r.patch.heap[a]?.map (fun b => b.meshlines.map (fun l => l.multiplicity_))))))
      = some (true, [some [1], some [1]]) ∧
    (∀ b, (tracingExternal.generateIDs b).meshlines = b.meshlines) ∧
    (∀ b v nf ofs, (tracingExternal.contractControlPoints b v nf ofs).1.meshlines
      = b.meshlines) ∧
    ((RefineReady sampleIntegrationPatch →
      ∃ out, refine tracingExternal sampleIntegrationPatch sampleRefineData [[1]] = some out) ∧
    ∀ out, refine tracingExternal sampleIntegrationPatch sampleRefineData [[1]] = some out →
      out.ok = true →
      ∃ (h1 : Heap) (rb b2 : LRSplineSurface),
        extendAll tracingExternal sampleIntegrationPatch [[1]] sampleIntegrationPatch.heap
          = some h1 ∧ h1[0]? = some rb ∧ h1[1]? = some b2 ∧
        (tracingExternal.doRefine sampleRefineData rb).1 = true ∧
        propagate tracingExternal
            { sampleIntegrationPatch with
              heap := h1.set 0 (tracingExternal.doRefine sampleRefineData rb).2 } [0, 1] 0
            (h1.set 0 (tracingExternal.doRefine sampleRefineData rb).2)
          = some ((h1.set 0 (tracingExternal.doRefine sampleRefineData rb).2).set 1
              ((tracingExternal.doRefine sampleRefineData rb).2.meshlines.foldl (fun b line =>
                insertLine tracingExternal b line
                  (if line.multiplicity_ > 1 then line.multiplicity_ else 1)) b2)) ∧
        ((∀ line ∈ (tracingExternal.doRefine sampleRefineData rb).2.meshlines,
            line.multiplicity_ = 1) →
          propagate tracingExternal
              { sampleIntegrationPatch with
                heap := h1.set 0 (tracingExternal.doRefine sampleRefineData rb).2 } [0, 1] 0
              (h1.set 0 (tracingExternal.doRefine sampleRefineData rb).2)
            = some ((h1.set 0 (tracingExternal.doRefine sampleRefineData rb).2).set 1
                ((tracingExternal.doRefine sampleRefineData rb).2.meshlines.foldl
                  (fun b line => insertLine tracingExternal b line 1) b2))) ∧
        (∀ x : LRSplineSurface,
          ((h1.set 0 (tracingExternal.doRefine sampleRefineData rb).2).set 1 x)[0]?
            = some (tracingExternal.doRefine sampleRefineData rb).2) ∧
        out.patch.m_basis = [0, 1] ∧
        ∀ (α : Type) (f : LRSplineSurface → α), (∀ b, f (tracingExternal.generateIDs b) = f b) →
          (∀ b v nf ofs, f (tracingExternal.contractControlPoints b v nf ofs).1 = f b) →
          out.patch.heap[0]?.map f = some (f (tracingExternal.doRefine sampleRefineData rb).2) ∧
          out.patch.heap[1]?.map f
            = some (f ((tracingExternal.doRefine sampleRefineData rb).2.meshlines.foldl
                (fun b line =>
                  insertLine tracingExternal b line
                    (if line.multiplicity_ > 1 then line.multiplicity_ else 1)) b2)) ∧
          ((∀ line ∈ (tracingExternal.doRefine sampleRefineData rb).2.meshlines,
              line.multiplicity_ = 1) →
            out.patch.heap[1]?.map f
              = some (f ((tracingExternal.doRefine sampleRefineData rb).2.meshlines.foldl
                  (fun b line => insertLine tracingExternal b line 1) b2)))) :=
  ⟨rfl, rfl, rfl, by decide, by decide, by decide, sample_refineReady,
    by with_unfolding_all decide, fun _ => rfl, fun _ _ _ _ => rfl,
    refine_full_cont_multiplicity tracingExternal sampleIntegrationPatch sampleRefineData [[1]]
      0 1 rfl rfl rfl (by decide) (by decide) (by decide)⟩


/-! ### Evaluation of the primary solution field -/

theorem gatherColumn_eq (locSol : List ℚ) (ncj ofs b : Nat) :
    ∀ (ns : List Nat) (c : List ℚ), gatherColumn locSol ncj ofs b ns = some c →
      c = ns.map (fun n => locSol.getD (b * ncj + n + ofs - 1) 0) := by
  intro ns
  induction ns with
  | nil =>
    intro c h
    simp only [gatherColumn, Option.some.injEq] at h
    subst h
    rfl
  | cons n ns ih =>
    intro c h
    simp only [gatherColumn] at h
    cases hx : locSol[b * ncj + n + ofs - 1]? with
    | none => simp [hx] at h
    | some x =>
      cases hr : gatherColumn locSol ncj ofs b ns with
      | none => simp [hx, hr] at h
      | some xs =>
        simp only [hx, hr, Option.some.injEq] at h
        subst h
        rw [ih xs hr]
        simp only [List.map_cons, List.getD_eq_getElem?_getD, hx, Option.getD_some]

theorem gatherColumn_defined (locSol : List ℚ) (ncj ofs b : Nat) :
    ∀ (ns : List Nat), (∀ n ∈ ns, b * ncj + n + ofs - 1 < locSol.length) →
      ∃ c, gatherColumn locSol ncj ofs b ns = some c := by
  intro ns
  induction ns with
  | nil => intro _; exact ⟨[], rfl⟩
  | cons n ns ih =>
    intro h
    obtain ⟨x, hx⟩ := getElem?_defined locSol _ (h n (List.mem_cons_self _ _))
    obtain ⟨xs, hxs⟩ := ih (fun m hm => h m (List.mem_cons_of_mem _ hm))
    exact ⟨x :: xs, by simp only [gatherColumn, hx, hxs]⟩

theorem gatherSupport_eq (locSol : List ℚ) (ncj ofs ncols : Nat) :
    ∀ (support : List Nat) (col : Nat) (cols : List (List ℚ)),
      gatherSupport locSol ncj ofs ncols support col = some cols →
      cols = support.map (fun b =>
        (List.range' 1 ncj).map (fun n => locSol.getD (b * ncj + n + ofs - 1) 0)) := by
  intro support
  induction support with
  | nil =>
    intro col cols h
    simp only [gatherSupport, Option.some.injEq] at h
    subst h
    rfl
  | cons b bs ih =>
    intro col cols h
    simp only [gatherSupport] at h
    split at h
    · cases h
    cases hc : gatherColumn locSol ncj ofs b (List.range' 1 ncj) with
    | none => simp [hc] at h
    | some c =>
      cases hr : gatherSupport locSol ncj ofs ncols bs (col + 1) with
      | none => simp [hc, hr] at h
      | some cs =>
        simp only [hc, hr, Option.some.injEq] at h
        subst h
        rw [ih _ cs hr, gatherColumn_eq locSol ncj ofs b _ c hc]
        rfl

theorem gatherSupport_defined (locSol : List ℚ) (ncj ofs ncols : Nat) :
    ∀ (support : List Nat) (col : Nat), col + support.length ≤ ncols + 1 →
      (∀ b ∈ support, b * ncj + ncj + ofs ≤ locSol.length) →
      ∃ cols, gatherSupport locSol ncj ofs ncols support col = some cols := by
  intro support
  induction support with
  | nil => intro col _ _; exact ⟨[], rfl⟩
  | cons b bs ih =>
    intro col hcol hin
    have hnot : ¬ col > ncols := by
      simp only [List.length_cons] at hcol
      omega
    obtain ⟨c, hc⟩ := gatherColumn_defined locSol ncj ofs b (List.range' 1 ncj) (by
      intro n hn
      have hb := hin b (List.mem_cons_self _ _)
      simp only [List.mem_range'_1] at hn
      omega)
    obtain ⟨cs, hcs⟩ := ih (col + 1) (by simp only [List.length_cons] at hcol; omega)
      (fun x hx => hin x (List.mem_cons_of_mem _ hx))
    exact ⟨c :: cs, by simp only [gatherSupport, hnot, if_false, hc, hcs]⟩

theorem multiply_eq (locSol : List ℚ) (ncj ofs : Nat) (support : List Nat) (values : List ℚ) :
    multiply ncj (support.map (fun b =>
        (List.range' 1 ncj).map (fun n => locSol.getD (b * ncj + n + ofs - 1) 0))) values
      = (List.range ncj).map (fun n => componentValue locSol ncj ofs (n + 1) support values) := by
  unfold multiply componentValue
  apply List.map_congr_left
  intro n hn
  have hn' : n < ncj := List.mem_range.mp hn
  rw [List.zip_map_left, List.map_map]
  congr 1
  apply List.map_congr_left
  intro bN _
  simp only [Function.comp_apply, Prod.map_fst, Prod.map_snd, id_eq]
  congr 1
  rw [List.getD_eq_getElem?_getD, List.getElem?_map, List.getElem?_range' _ _ hn']
  simp only [Option.map_some', Option.getD_some]
  have : bN.1 * ncj + (1 + 1 * n) + ofs - 1 = bN.1 * ncj + (n + 1) + ofs - 1 := by omega
  rw [this]

theorem evalOffset_succ (nb nc : List Nat) (j : Nat) :
    evalOffset nb nc (j + 1) = evalOffset nb nc j + nb.getD j 0 * nc.getD j 0 := by
  simp [evalOffset, List.range_succ]

theorem derefAll_cons (h : Heap) (a : Nat) (as : List Nat) (bs : List LRSplineSurface)
    (hd : h.derefAll (a :: as) = some bs) :
    ∃ b bs', h[a]? = some b ∧ h.derefAll as = some bs' ∧ bs = b :: bs' := by
  simp only [Heap.derefAll] at hd
  cases hb : h[a]? with
  | none => simp [hb] at hd
  | some b =>
    cases hr : Heap.derefAll h as with
    | none => simp [hb, hr] at hd
    | some bs' =>
      simp only [hb, hr, Option.some.injEq] at hd
      exact ⟨b, bs', rfl, rfl, hd.symm⟩

theorem evalBases_eq (E : SplineEval) (p : ASMu2Dmx) (locSol : List ℚ) (nc : List Nat)
    (u v : ℚ) :
    ∀ (as : List Nat) (bs : List LRSplineSurface) (j : Nat) (Ztmp z : List ℚ),
      p.heap.derefAll as = some bs →
      evalBases E p locSol nc u v as j (evalOffset p.nb nc j) Ztmp = some z →
      z = Ztmp ++ expectedColumn E locSol nc p.nb u v bs j := by
  intro as
  induction as with
  | nil =>
    intro bs j Ztmp z hd h
    simp only [Heap.derefAll, Option.some.injEq] at hd
    subst hd
    simp only [evalBases, Option.some.injEq] at h
    subst h
    simp [expectedColumn]
  | cons a as ih =>
    intro bs j Ztmp z hd h
    obtain ⟨it, bs', hit, hd', rfl⟩ := derefAll_cons p.heap a as bs hd
    simp only [evalBases] at h
    cases hnc : nc[j]? with
    | none => simp [hnc] at h
    | some ncj =>
      have hgetD : nc.getD j 0 = ncj := by
        rw [List.getD_eq_getElem?_getD, hnc, Option.getD_some]
      simp only [hnc] at h
      by_cases h0 : ncj = 0
      · rw [if_pos h0] at h
        have hofs : evalOffset p.nb nc (j + 1) = evalOffset p.nb nc j := by
          rw [evalOffset_succ, hgetD, h0, Nat.mul_zero, Nat.add_zero]
        rw [← hofs] at h
        rw [ih bs' (j + 1) Ztmp z hd' h]
        simp only [expectedColumn, hgetD, h0, List.range_zero, List.map_nil, List.nil_append]
      · rw [if_neg h0] at h
        simp only [hit] at h
        cases hel : it.getElement (it.getElementContaining (u, v)) with
        | none => simp [hel] at h
        | some el =>
          simp only [hel] at h
          cases hg : gatherSupport locSol ncj (evalOffset p.nb nc j)
              (E.basisValues it u v (it.getElementContaining (u, v))).length el.support 1 with
          | none => simp [hg] at h
          | some cols =>
            cases hnb : p.nb[j]? with
            | none => simp [hg, hnb] at h
            | some nbj =>
              simp only [hg, hnb] at h
              have hnbD : p.nb.getD j 0 = nbj := by
                rw [List.getD_eq_getElem?_getD, hnb, Option.getD_some]
              have hofs : evalOffset p.nb nc (j + 1) = evalOffset p.nb nc j + nbj * ncj := by
                rw [evalOffset_succ, hgetD, hnbD]
              rw [← hofs] at h
              rw [ih bs' (j + 1) _ z hd' h]
              have hsup : supportOf it (u, v) = el.support := by
                simp only [supportOf, LRSplineSurface.elementAt, hel]
              rw [gatherSupport_eq locSol ncj _ _ el.support 1 cols hg, multiply_eq]
              simp only [expectedColumn, hgetD, hsup, List.append_assoc]

theorem evalBases_defined (E : SplineEval) (p : ASMu2Dmx) (locSol : List ℚ) (nc : List Nat)
    (u v : ℚ) :
    ∀ (as : List Nat) (bs : List LRSplineSurface) (j : Nat) (Ztmp : List ℚ),
      p.heap.derefAll as = some bs →
      j + as.length ≤ nc.length → j + as.length ≤ p.nb.length →
      (∀ (k : Nat) (it : LRSplineSurface), bs[k]? = some it → nc.getD (j + k) 0 ≠ 0 →
        ∃ el, it.elementAt (u, v) = some el ∧
          el.support.length ≤ (E.basisValues it u v (it.getElementContaining (u, v))).length ∧
          ∀ b ∈ el.support,
            b * nc.getD (j + k) 0 + nc.getD (j + k) 0 + evalOffset p.nb nc (j + k)
              ≤ locSol.length) →
      ∃ z, evalBases E p locSol nc u v as j (evalOffset p.nb nc j) Ztmp = some z := by
  intro as
  induction as with
  | nil => intro bs j Ztmp _ _ _ _; exact ⟨Ztmp, rfl⟩
  | cons a as ih =>
    intro bs j Ztmp hd hnc hnb hready
    obtain ⟨it, bs', hit, hd', rfl⟩ := derefAll_cons p.heap a as bs hd
    simp only [List.length_cons] at hnc hnb
    obtain ⟨ncj, hncj⟩ := getElem?_defined nc j (by omega)
    obtain ⟨nbj, hnbj⟩ := getElem?_defined p.nb j (by omega)
    have hgetD : nc.getD j 0 = ncj := by
      rw [List.getD_eq_getElem?_getD, hncj, Option.getD_some]
    have hnbD : p.nb.getD j 0 = nbj := by
      rw [List.getD_eq_getElem?_getD, hnbj, Option.getD_some]
    have hrest : ∀ (k : Nat) (it' : LRSplineSurface), bs'[k]? = some it' →
        nc.getD (j + 1 + k) 0 ≠ 0 →
        ∃ el, it'.elementAt (u, v) = some el ∧
          el.support.length ≤ (E.basisValues it' u v (it'.getElementContaining (u, v))).length ∧
          ∀ b ∈ el.support,
            b * nc.getD (j + 1 + k) 0 + nc.getD (j + 1 + k) 0 + evalOffset p.nb nc (j + 1 + k)
              ≤ locSol.length := by
      intro k it' hk hne
      have hidx : j + (k + 1) = j + 1 + k := by omega
      have := hready (k + 1) it' (by simpa using hk) (by rw [hidx]; exact hne)
      rw [hidx] at this
      exact this
    simp only [evalBases, hncj]
    by_cases h0 : ncj = 0
    · rw [if_pos h0]
      have hofs : evalOffset p.nb nc (j + 1) = evalOffset p.nb nc j := by
        rw [evalOffset_succ, hgetD, h0, Nat.mul_zero, Nat.add_zero]
      rw [← hofs]
      exact ih bs' (j + 1) Ztmp hd' (by omega) (by omega) hrest
    · rw [if_neg h0]
      obtain ⟨el, hel, hlen, hin⟩ := hready 0 it (by simp) (by
        rw [Nat.add_zero, hgetD]; exact h0)
      simp only [Nat.add_zero, hgetD] at hin
      simp only [LRSplineSurface.elementAt] at hel
      obtain ⟨cols, hcols⟩ := gatherSupport_defined locSol ncj (evalOffset p.nb nc j)
        (E.basisValues it u v (it.getElementContaining (u, v))).length el.support 1
        (by omega) hin
      simp only [hit, hel, hcols, hnbj]
      have hofs : evalOffset p.nb nc (j + 1) = evalOffset p.nb nc j + nbj * ncj := by
        rw [evalOffset_succ, hgetD, hnbD]
      rw [← hofs]
      exact ih bs' (j + 1) _ hd' (by omega) (by omega) hrest

theorem evalPoints_eq (E : SplineEval) (p : ASMu2Dmx) (locSol : List ℚ) (nc : List Nat)
    (bases : List LRSplineSurface) (hb : p.bases = some bases) :
    ∀ (pts : List (ℚ × ℚ)) (cols : List (List ℚ)),
      evalPoints E p locSol nc pts = some cols →
      cols = pts.map (fun pt => expectedColumn E locSol nc p.nb pt.1 pt.2 bases 0) := by
  intro pts
  induction pts with
  | nil =>
    intro cols h
    simp only [evalPoints, Option.some.injEq] at h
    subst h
    rfl
  | cons pt pts ih =>
    intro cols h
    simp only [evalPoints] at h
    cases hz : evalBases E p locSol nc pt.1 pt.2 p.m_basis 0 0 [] with
    | none => simp [hz] at h
    | some z =>
      cases hr : evalPoints E p locSol nc pts with
      | none => simp [hz, hr] at h
      | some zs =>
        simp only [hz, hr, Option.some.injEq] at h
        subst h
        have h0 : evalOffset p.nb nc 0 = 0 := rfl
        have := evalBases_eq E p locSol nc pt.1 pt.2 p.m_basis bases 0 [] z hb (by
          rw [h0]; exact hz)
        rw [this, ih zs hr]
        simp

theorem evalPoints_defined (E : SplineEval) (p : ASMu2Dmx) (locSol : List ℚ) (nc : List Nat) :
    ∀ (pts : List (ℚ × ℚ)), EvalReady E p locSol nc pts →
      ∃ cols, evalPoints E p locSol nc pts = some cols := by
  intro pts
  induction pts with
  | nil => intro _; exact ⟨[], rfl⟩
  | cons pt pts ih =>
    intro hready
    obtain ⟨hnc, hnb, bases, hb, hpts⟩ := hready
    have h0 : evalOffset p.nb nc 0 = 0 := rfl
    obtain ⟨z, hz⟩ := evalBases_defined E p locSol nc pt.1 pt.2 p.m_basis bases 0 [] hb
      (by omega) (by omega) (by
        intro k it hk hne
        rw [Nat.zero_add] at hne ⊢
        exact hpts pt (List.mem_cons_self _ _) k it hk hne)
    rw [h0] at hz
    obtain ⟨zs, hzs⟩ := ih ⟨hnc, hnb, bases, hb,
      fun q hq => hpts q (List.mem_cons_of_mem _ hq)⟩
    exact ⟨z :: zs, by simp only [evalPoints, hz, hzs]⟩

theorem expectedColumn_length (E : SplineEval) (locSol : List ℚ) (nc nb : List Nat) (u v : ℚ) :
    ∀ (bs : List LRSplineSurface) (j : Nat), j + bs.length = nc.length →
      (expectedColumn E locSol nc nb u v bs j).length = (nc.drop j).sum := by
  intro bs
  induction bs with
  | nil =>
    intro j hj
    simp only [List.length_nil, Nat.add_zero] at hj
    simp [expectedColumn, hj]
  | cons it rest ih =>
    intro j hj
    simp only [List.length_cons] at hj
    have hlt : j < nc.length := by omega
    rw [List.drop_eq_getElem_cons hlt]
    simp only [expectedColumn, List.length_append, List.length_map, List.length_range,
      List.sum_cons]
    rw [ih (j + 1) (by omega)]
    rw [List.getD_eq_getElem?_getD, List.getElem?_eq_getElem hlt, Option.getD_some]

theorem componentCounts_length (p : ASMu2Dmx) (nf : Nat) (nc : List Nat)
    (h : componentCounts p nf = some nc) :
    nc.length = p.nfx.length ∧ (nf = 0 → nc = p.nfx) ∧
    (nf ≠ 0 → nc = nf :: List.replicate (p.nfx.length - 1) 0) := by
  unfold componentCounts at h
  split at h
  · rename_i hnf
    split at h
    · cases h
    · rename_i x rest hx
      simp only [Option.some.injEq] at h
      subst h
      rw [hx]
      refine ⟨by simp, fun h0 => absurd h0 hnf, fun _ => by simp⟩
  · rename_i hnf
    simp only [Option.some.injEq] at h
    subst h
    exact ⟨rfl, fun _ => rfl, fun h0 => absurd h0 hnf⟩

/-- C19. Evaluation of the primary solution returns `false`, leaving `sField` as
it is, when the two parameter arrays have different lengths, and `true` in
every other case in which it returns.  Then `sField` has one column per point
and as many rows as there are components (`nf` on basis 1 when `nf` is not
zero, else `nfx[j]` for every basis `j`), and the column of a point lists, for
the bases with components in order, the values of the components `n`: the sum
over the functions `b` of the support of the element of the basis containing
the point of `locSol(id(b)*nc_j + n + ofs_j)` times the basis value of `b`, with
`ofs_j` the sum of `nb[k]*nc_k` over the bases before `j`.  Only basis values
enter; the evaluation takes no coordinate mapping.  The call returns whenever
what it reads is in range. -/
theorem evalSolution_spec (E : SplineEval) (p : ASMu2Dmx) (sField : SolutionField)
    (locSol gpar0 gpar1 : List ℚ) (regular : Bool) (deriv : Int) (nf : Nat)
    (bases : List LRSplineSurface) (hb : p.bases = some bases) :
    (gpar0.length ≠ gpar1.length →
      evalSolution E p sField locSol gpar0 gpar1 regular deriv nf = some (false, sField)) ∧
    (∀ out, evalSolution E p sField locSol gpar0 gpar1 regular deriv nf = some out →
      (out.1 = false ↔ gpar0.length ≠ gpar1.length)) ∧
    (∀ out, evalSolution E p sField locSol gpar0 gpar1 regular deriv nf = some out →
      gpar0.length = gpar1.length →
      ∃ nc, componentCounts p nf = some nc ∧ (nf = 0 → nc = p.nfx) ∧
        (nf ≠ 0 → nc = nf :: List.replicate (p.nfx.length - 1) 0) ∧
        out.2.ncol = gpar0.length ∧ out.2.nrow = nc.sum ∧
        out.2.columns = (gpar0.zip gpar1).map
          (fun pt => expectedColumn E locSol nc p.nb pt.1 pt.2 bases 0) ∧
        (p.m_basis.length = p.nfx.length → ∀ col ∈ out.2.columns, col.length = out.2.nrow)) ∧
    (∀ nc, componentCounts p nf = some nc → EvalReady E p locSol nc (gpar0.zip gpar1) →
      ∃ out, evalSolution E p sField locSol gpar0 gpar1 regular deriv nf = some out) := by
  refine ⟨?_, ?_, ?_, ?_⟩
  · intro hne
    simp only [evalSolution, hne, ne_eq, not_false_eq_true, if_true]
  · intro out hrun
    unfold evalSolution at hrun
    split at hrun
    · rename_i hne
      simp only [Option.some.injEq] at hrun
      subst hrun
      simp only [true_iff]
      exact hne
    · rename_i heq
      split at hrun
      · cases hrun
      split at hrun
      · cases hrun
      simp only [Option.some.injEq] at hrun
      subst hrun
      simp only [Bool.true_eq_false, false_iff]
      exact heq
  · intro out hrun hlen
    unfold evalSolution at hrun
    rw [if_neg (by simpa using hlen)] at hrun
    split at hrun
    · cases hrun
    rename_i nc hnc
    split at hrun
    · cases hrun
    rename_i cols hcols
    simp only [Option.some.injEq] at hrun
    subst hrun
    obtain ⟨hl, h0, h1⟩ := componentCounts_length p nf nc hnc
    have hcol := evalPoints_eq E p locSol nc bases hb _ cols hcols
    refine ⟨nc, hnc, h0, h1, rfl, rfl, hcol, ?_⟩
    intro hmb col hmem
    simp only at hmem ⊢
    rw [hcol] at hmem
    obtain ⟨pt, _, rfl⟩ := List.mem_map.mp hmem
    obtain ⟨hbl, _⟩ := derefAll_getElem p.heap p.m_basis bases hb
    rw [expectedColumn_length E locSol nc p.nb pt.1 pt.2 bases 0 (by omega)]
    simp
  · intro nc hnc hready
    obtain ⟨hl, _, _⟩ := componentCounts_length p nf nc hnc
    by_cases hne : gpar0.length ≠ gpar1.length
    · exact ⟨(false, sField), by simp only [evalSolution, hne, ne_eq, not_false_eq_true, if_true]⟩
    · obtain ⟨cols, hcols⟩ := evalPoints_defined E p locSol nc (gpar0.zip gpar1) hready
      exact ⟨(true, { nrow := nc.sum, ncol := gpar0.length, columns := cols }),
        by simp only [evalSolution, hne, if_false, hnc, hcols]⟩

theorem sample_evalReady :
    EvalReady sampleEval samplePatchGenerated sampleSolution [2, 1]
      (([1 / 2, 1 / 3] : List ℚ).zip [1 / 2, 1 / 4]) := by
  refine ⟨by decide, by decide, [unitBasis 9 3, unitBasis 4 2], rfl, ?_⟩
  intro pt _ j it hj hnc
  have hj2 : j < 2 := by
    by_contra hcon
    rw [List.getElem?_eq_none (by simpa using hcon)] at hj
    cases hj
  interval_cases j
  · simp only [List.getElem?_cons_zero, Option.some.injEq] at hj
    subst hj
    refine ⟨_, rfl, by simp [sampleEval, unitBasis], ?_⟩
    intro b hb
    have hb9 : b < 9 := by simpa [unitBasis] using hb
    have : evalOffset samplePatchGenerated.nb [2, 1] 0 = 0 := rfl
    simp only [List.getD_cons_zero, this, sampleSolution, List.length_cons, List.length_nil]
    omega
  · simp only [List.getElem?_cons_succ, List.getElem?_cons_zero, Option.some.injEq] at hj
    subst hj
    refine ⟨_, rfl, by simp [sampleEval, unitBasis], ?_⟩
    intro b hb
    have hb4 : b < 4 := by simpa [unitBasis] using hb
    have : evalOffset samplePatchGenerated.nb [2, 1] 1 = 18 := by decide
    have h1 : ([2, 1] : List Nat).getD 1 0 = 1 := rfl
    simp only [h1, this, sampleSolution, List.length_cons, List.length_nil]
    omega

/-- Witness of C19 on the sample patch with the coefficients 0, ..., 21 and basis
values 1/2: two components on basis 1 and one on basis 2 at two points. -/
theorem evalSolution_spec_witness :
    samplePatchGenerated.bases = some [unitBasis 9 3, unitBasis 4 2] ∧
    (evalSolution sampleEval samplePatchGenerated { nrow := 0, ncol := 0, columns := [] }
        sampleSolution [1 / 2, 1 / 3] [1 / 2, 1 / 4] true 0 0).map
      (fun r => (r.1, r.2.nrow, r.2.ncol, r.2.columns))
      = some (true, 3, 2, [[36, 81 / 2, 39], [36, 81 / 2, 39]]) ∧
    (evalSolution sampleEval samplePatchGenerated { nrow := 0, ncol := 0, columns := [] }
        sampleSolution [1 / 2, 1 / 3] [1 / 2, 1 / 4] true 0 1).map
      (fun r => (r.1, r.2.nrow, r.2.ncol, r.2.columns))
      = some (true, 1, 2, [[18], [18]]) ∧
    (evalSolution sampleEval samplePatchGenerated { nrow := 0, ncol := 0, columns := [] }
        sampleSolution [1 / 2, 1 / 3] [1 / 2] true 0 0).map
      (fun r => (r.1, r.2.nrow, r.2.ncol, r.2.columns))
      = some (false, 0, 0, []) ∧
    EvalReady sampleEval samplePatchGenerated sampleSolution [2, 1]
      (([1 / 2, 1 / 3] : List ℚ).zip [1 / 2, 1 / 4]) ∧
    ∀ out, evalSolution sampleEval samplePatchGenerated { nrow := 0, ncol := 0, columns := [] }
        sampleSolution [1 / 2, 1 / 3] [1 / 2, 1 / 4] true 0 0 = some out →
      ([1 / 2, 1 / 3] : List ℚ).length = ([1 / 2, 1 / 4] : List ℚ).length →
      ∃ nc, componentCounts samplePatchGenerated 0 = some nc ∧
        ((0 : Nat) = 0 → nc = samplePatchGenerated.nfx) ∧
        ((0 : Nat) ≠ 0 → nc = 0 :: List.replicate (samplePatchGenerated.nfx.length - 1) 0) ∧
        out.2.ncol = ([1 / 2, 1 / 3] : List ℚ).length ∧ out.2.nrow = nc.sum ∧
        out.2.columns = (([1 / 2, 1 / 3] : List ℚ).zip [1 / 2, 1 / 4]).map
          (fun pt => expectedColumn sampleEval sampleSolution nc samplePatchGenerated.nb
            pt.1 pt.2 [unitBasis 9 3, unitBasis 4 2] 0) ∧
        (samplePatchGenerated.m_basis.length = samplePatchGenerated.nfx.length →
          ∀ col ∈ out.2.columns, col.length = out.2.nrow) :=
  ⟨rfl, by with_unfolding_all decide, by with_unfolding_all decide,
    by with_unfolding_all decide, sample_evalReady,
    (evalSolution_spec sampleEval samplePatchGenerated { nrow := 0, ncol := 0, columns := [] }
      sampleSolution [1 / 2, 1 / 3] [1 / 2, 1 / 4] true 0 0 [unitBasis 9 3, unitBasis 4 2]
      rfl).2.2.1⟩


/-! ### Interface integration: the sub-segments of an edge -/

theorem exists_block (inod : Nat) :
    ∀ (l : List Nat) (c : Nat), c < inod → inod ≤ c + l.sum →
      ∃ m, m < l.length ∧ c + (l.take m).sum < inod ∧ inod ≤ c + (l.take (m + 1)).sum := by
  intro l
  induction l with
  | nil => intro c h1 h2; simp at h2; omega
  | cons n rest ih =>
    intro c h1 h2
    by_cases hn : inod ≤ c + n
    · exact ⟨0, by simp, by simpa using h1, by simpa using hn⟩
    · have h3 : c + n < inod := by omega
      have h4 : inod ≤ c + n + rest.sum := by
        simp only [List.sum_cons] at h2
        omega
      obtain ⟨m, hm, hlo, hhi⟩ := ih (c + n) h3 h4
      refine ⟨m + 1, by simpa using hm, ?_, ?_⟩
      · simp only [List.take_succ_cons, List.sum_cons]
        omega
      · simp only [List.take_succ_cons, List.sum_cons]
        omega

theorem coordLoop_block (inod : Nat) :
    ∀ (rest : List Nat) (b nbb m : Nat), m < rest.length →
      nbb + (rest.take m).sum < inod → inod ≤ nbb + (rest.take (m + 1)).sum →
      coordLoop inod rest b nbb = (b + m, nbb + (rest.take m).sum) := by
  intro rest
  induction rest with
  | nil => intro b nbb m hm; simp at hm
  | cons n rest ih =>
    intro b nbb m hm hlo hhi
    cases m with
    | zero =>
      simp only [List.take_zero, List.sum_nil, Nat.add_zero, Nat.zero_add, List.take_succ_cons,
        List.sum_cons] at hlo hhi
      have hc : ¬ nbb + n < inod := by omega
      simp [coordLoop, hc]
    | succ k =>
      simp only [List.take_succ_cons, List.sum_cons, List.length_cons] at hlo hhi hm
      have hc : nbb + n < inod := by omega
      simp only [coordLoop, hc, if_true, List.take_succ_cons, List.sum_cons]
      rw [ih (b + 1) (nbb + n) k (by omega) (by omega) (by omega)]
      congr 1 <;> omega

theorem nodalDOFsLoop_block (nfx : List Nat) (inod : Nat) :
    ∀ (rest : List Nat) (i nbc m : Nat), m < rest.length →
      nbc + (rest.take m).sum < inod → inod ≤ nbc + (rest.take (m + 1)).sum →
      nodalDOFsLoop nfx inod rest i nbc = nfx[i + m]? := by
  intro rest
  induction rest with
  | nil => intro i nbc m hm; simp at hm
  | cons n rest ih =>
    intro i nbc m hm hlo hhi
    cases m with
    | zero =>
      simp only [List.take_zero, List.sum_nil, Nat.add_zero, Nat.zero_add, List.take_succ_cons,
        List.sum_cons] at hlo hhi
      simp [nodalDOFsLoop, hhi]
    | succ k =>
      simp only [List.take_succ_cons, List.sum_cons, List.length_cons] at hlo hhi hm
      have hc : ¬ inod ≤ nbc + n := by omega
      simp only [nodalDOFsLoop, hc, if_false]
      rw [ih (i + 1) (nbc + n) k (by omega) (by omega) (by omega)]
      congr 1
      omega

/-- C29. For a node `inod` that is not a Lagrange multiplier node, with
`1 <= inod <= sum of nb`, the loop of `getCoord` stops at a 0-based basis index
`b0` (the 1-based basis `b = b0+1`) with `nbb` the total function count of the
bases before it, and the local index `inod-nbb-1` lies in `0 .. nb[b0]-1`;
`getCoord` returns the control point of that function of basis `b`;
`getNodalDOFs` returns `nfx[b0]`; and `getNodeType` returns the tag of the same
basis, `'D'` for the first basis and `'O'+b0` for a later one.  No entry of `nb`
is required to be positive. -/
theorem getCoord_basis_agrees (isLMn : Nat → Bool) (nLag : Nat)
    (getBasisfunction : LRSplineSurface → Nat → Option (List ℚ)) (nsd : Nat)
    (p : ASMu2Dmx) (inod : Nat)
    (hL : isLMn inod = false) (h1 : 1 ≤ inod) (h2 : inod ≤ p.nb.sum)
    (hnfx : p.nb.length ≤ p.nfx.length) (hmb : p.nb.length ≤ p.m_basis.length)
    (hptr : ∀ a ∈ p.m_basis, a < p.heap.length) :
    ∃ (b0 nbb nf : Nat) (basis : LRSplineSurface),
      coordLoop inod p.nb 0 0 = (b0, nbb) ∧
      b0 < p.nb.length ∧ nbb = (p.nb.take b0).sum ∧
      nbb < inod ∧ coordIndex inod nbb = inod - nbb - 1 ∧ inod - nbb - 1 < p.nb.getD b0 0 ∧
      (p.m_basis[b0]?).bind (fun a => p.heap[a]?) = some basis ∧
      getCoord getBasisfunction nsd p inod
        = some (match getBasisfunction basis (inod - nbb - 1) with
                | none => vec3 [] 0
                | some cp => vec3 cp nsd) ∧
      p.nfx[b0]? = some nf ∧ getNodalDOFs isLMn nLag p inod = some nf ∧
      getNodeType isLMn p inod
        = some (if b0 = 0 then 'D' else Char.ofNat (('O'.toNat + b0) % 256)) := by
  obtain ⟨m, hm, hlo, hhi⟩ := exists_block inod p.nb 0 (by omega) (by omega)
  simp only [Nat.zero_add] at hlo hhi
  have hloop := coordLoop_block inod p.nb 0 0 m hm (by omega) (by omega)
  simp only [Nat.zero_add] at hloop
  have hmb' : m < p.m_basis.length := by omega
  have hptr' : p.m_basis[m] < p.heap.length := hptr _ (List.getElem_mem hmb')
  have hnf : m < p.nfx.length := by omega
  have hidx : coordIndex inod (p.nb.take m).sum = inod - (p.nb.take m).sum - 1 := by
    unfold coordIndex
    rw [if_pos (by omega)]
  have hsum : (p.nb.take (m + 1)).sum = (p.nb.take m).sum + p.nb.getD m 0 := by
    rw [List.take_succ, List.sum_append, List.getD_eq_getElem?_getD]
    cases hg : p.nb[m]? with
    | none => simp
    | some x => simp
  have hbasis : (p.m_basis[m]?).bind (fun a => p.heap[a]?) = some (p.heap[p.m_basis[m]]) := by
    simp [List.getElem?_eq_getElem hmb', List.getElem?_eq_getElem hptr']
  refine ⟨m, (p.nb.take m).sum, p.nfx[m], p.heap[p.m_basis[m]], hloop, hm, rfl, hlo, hidx,
    by omega, hbasis, ?_, List.getElem?_eq_getElem hnf, ?_, ?_⟩
  · unfold getCoord
    simp only [hloop, getBasis_succ p m hmb', hbasis, hidx]
    split <;> simp_all
  · unfold getNodalDOFs
    rw [hL]
    simp only [Bool.false_eq_true, if_false]
    rw [nodalDOFsLoop_block p.nfx inod p.nb 0 0 m hm (by omega) (by omega)]
    simp [List.getElem?_eq_getElem hnf]
  · unfold getNodeType
    rw [hL]
    simp only [Bool.false_eq_true, if_false]
    cases hnb : p.nb with
    | nil => rw [hnb] at hm; simp at hm
    | cons nbc rest =>
      rw [hnb] at hlo hhi hm
      cases m with
      | zero =>
        simp only [List.take_succ_cons, List.take_zero, List.sum_cons, List.sum_nil,
          Nat.add_zero] at hhi
        simp [hhi]
      | succ k =>
        simp only [List.take_succ_cons, List.sum_cons, List.length_cons] at hlo hhi hm
        have hc : ¬ inod ≤ nbc := by omega
        simp only [hc, if_false]
        rw [nodeTypeLoop_range inod rest 1 nbc k (by omega) hlo hhi]
        simp
        congr 2
        omega

/-- Witness of C29 on a patch whose second basis has no functions: node 5 is the
second function of basis 3. -/
theorem getCoord_basis_agrees_witness :
    coordLoop 5 gapPatch.nb 0 0 = (2, 3) ∧
    getCoord sampleControlPoints 2 gapPatch 5 = some [1, 0, 0] ∧
    getNodalDOFs (fun _ => false) 0 gapPatch 5 = some 1 ∧
    getNodeType (fun _ => false) gapPatch 5 = some 'Q' ∧
    ∃ (b0 nbb nf : Nat) (basis : LRSplineSurface),
      coordLoop 5 gapPatch.nb 0 0 = (b0, nbb) ∧
      b0 < gapPatch.nb.length ∧ nbb = (gapPatch.nb.take b0).sum ∧
      nbb < 5 ∧ coordIndex 5 nbb = 5 - nbb - 1 ∧ 5 - nbb - 1 < gapPatch.nb.getD b0 0 ∧
      (gapPatch.m_basis[b0]?).bind (fun a => gapPatch.heap[a]?) = some basis ∧
      getCoord sampleControlPoints 2 gapPatch 5
        = some (match sampleControlPoints basis (5 - nbb - 1) with
                | none => vec3 [] 0
                | some cp => vec3 cp 2) ∧
      gapPatch.nfx[b0]? = some nf ∧ getNodalDOFs (fun _ => false) 0 gapPatch 5 = some nf ∧
      getNodeType (fun _ => false) gapPatch 5
        = some (if b0 = 0 then 'D' else Char.ofNat (('O'.toNat + b0) % 256)) :=
  ⟨by decide, by with_unfolding_all decide, by decide, by decide,
    getCoord_basis_agrees (fun _ => false) 0 sampleControlPoints 2 gapPatch 5 rfl
      (by decide) (by decide) (by decide) (by decide) (by decide)⟩

/-! ### The insertions issued by `copyRefinement` -/

theorem copyRefinementLines_insertions (K : External) (m : Int) :
    ∀ (lines : List Meshline) (b : LRSplineSurface),
      copyRefinementLines K m lines b
        = (lines.map (insertionOf m)).foldl (Insertion.apply K) b := by
  intro lines
  induction lines with
  | nil => intro b; rfl
  | cons line rest ih =>
    intro b
    simp only [copyRefinementLines, List.map_cons, List.foldl_cons]
    rw [ih]
    rfl

theorem propagate_multiplicity (T : MixedType) (j : Nat) :
    (if (j = 0 ∧ T = MixedType.REDUCED_CONT_RAISE_BASIS1) ∨
        (j = 1 ∧ T = MixedType.REDUCED_CONT_RAISE_BASIS2) then (2 : Int) else 1)
      = defaultMultiplicity T j := by
  cases T <;> rcases j with _ | _ | j <;> simp [defaultMultiplicity]

theorem propagate_insertions (K : External) (p : ASMu2Dmx) (ref : Nat) (rb : LRSplineSurface)
    (href : p.refBasis = some ref) :
    ∀ (ptrs : List Nat) (j : Nat) (h : Heap), h[ref]? = some rb →
      (∀ a ∈ ptrs, a < h.length) →
      propagate K p ptrs j h = some (propagatedHeap K p.Type_ ref rb.meshlines ptrs j h) := by
  intro ptrs
  induction ptrs with
  | nil => intro j h _ _; rfl
  | cons a as ih =>
    intro j h hrb hptr
    have ha : a < h.length := hptr a (List.mem_cons_self _ _)
    by_cases hne : a = ref
    · subst hne
      simp only [propagate, href, ne_eq, not_true_eq_false, if_false, propagatedHeap, if_true]
      exact ih (j + 1) h hrb (fun x hx => hptr x (List.mem_cons_of_mem _ hx))
    · have hne' : ¬ (some ref : Option Nat) = some a := fun hc => hne (Option.some.inj hc).symm
      simp only [propagate, href, ne_eq, hne', not_false_eq_true, if_true, copyRefinement,
        Option.some_bind, hrb, Heap.update, List.getElem?_eq_getElem ha, propagatedHeap, hne,
        if_false, propagate_multiplicity, copyRefinementLines_insertions]
      refine ih (j + 1) _ ?_ ?_
      · rw [List.getElem?_set_ne hne]
        exact hrb
      · intro x hx
        rw [List.length_set]
        exact hptr x (List.mem_cons_of_mem _ hx)

/-- C23. `copyRefinement(basis, m)` applies to the target basis, for every mesh
line of the reference basis and in the order of the reference basis, exactly one
insertion with the constant parameter, start and stop of the line, with the
multiplicity of the line when that is greater than 1 and `m` otherwise, as a
constant-v edge for a line that spans the u direction and as a constant-u edge
for any other line; and the propagation loop of `refine` does this for every
basis that is not the reference basis with the default 2 for basis 1 under
`REDUCED_CONT_RAISE_BASIS1` and for basis 2 under `REDUCED_CONT_RAISE_BASIS2`,
and with the default 1 for every other basis. -/
theorem copyRefinement_insertions (K : External) (p : ASMu2Dmx) (ref : Nat)
    (rb : LRSplineSurface) (href : p.refBasis = some ref) (hrb : p.heap[ref]? = some rb) :
    (∀ (m : Int) (lines : List Meshline) (b : LRSplineSurface),
      copyRefinementLines K m lines b = (lines.map (insertionOf m)).foldl (Insertion.apply K) b ∧
      (lines.map (insertionOf m)).length = lines.length ∧
      ∀ (i : Nat) (line : Meshline), lines[i]? = some line →
        (lines.map (insertionOf m))[i]?
          = some { constV := line.span_u_line_, const_par := line.const_par_,
                   start := line.start_, stop := line.stop_,
                   mult := if line.multiplicity_ > 1 then line.multiplicity_ else m }) ∧
    (∀ (basis : Nat) (m : Int) (b : LRSplineSurface), p.heap[basis]? = some b →
      copyRefinement K p basis m
        = some (p.heap.set basis
            ((rb.meshlines.map (insertionOf m)).foldl (Insertion.apply K) b))) ∧
    ((∀ a ∈ p.m_basis, a < p.heap.length) →
      propagate K p p.m_basis 0 p.heap
        = some (propagatedHeap K p.Type_ ref rb.meshlines p.m_basis 0 p.heap)) ∧
    defaultMultiplicity MixedType.REDUCED_CONT_RAISE_BASIS1 0 = 2 ∧
    defaultMultiplicity MixedType.REDUCED_CONT_RAISE_BASIS2 1 = 2 ∧
    (∀ (T : MixedType) (j : Nat),
      ¬ (T = MixedType.REDUCED_CONT_RAISE_BASIS1 ∧ j = 0) →
      ¬ (T = MixedType.REDUCED_CONT_RAISE_BASIS2 ∧ j = 1) → defaultMultiplicity T j = 1) := by
  refine ⟨?_, ?_, ?_, rfl, rfl, ?_⟩
  · intro m lines b
    refine ⟨copyRefinementLines_insertions K m lines b, List.length_map _ _, ?_⟩
    intro i line hline
    rw [List.getElem?_map, hline]
    rfl
  · intro basis m b hb
    simp only [copyRefinement, href, Option.some_bind, hrb, Heap.update, hb,
      copyRefinementLines_insertions]
  · intro hptr
    exact propagate_insertions K p ref rb href p.m_basis 0 p.heap hrb hptr
  · intro T j h1 h2
    cases T <;> rcases j with _ | _ | j <;> simp_all [defaultMultiplicity]

/-- Witness of C23 on a patch under `REDUCED_CONT_RAISE_BASIS2` whose reference
basis has lines of multiplicities 1, 3, 1: basis 1 receives them with the
multiplicities 1, 3, 1 and basis 2 with the multiplicities 2, 3, 2. -/
theorem copyRefinement_insertions_witness :
    reducedPatch.refBasis = some 2 ∧ reducedPatch.heap[2]? = some threeLineBasis ∧
    (propagate tracingExternal reducedPatch reducedPatch.m_basis 0 reducedPatch.heap).map
      (fun h => h.map (fun b => b.meshlines.map (fun l => l.multiplicity_)))
      = some [[1, 3, 1], [2, 3, 2], [1, 3, 1]] ∧
    (propagate tracingExternal reducedPatch reducedPatch.m_basis 0 reducedPatch.heap).map
      (fun h => h.map (fun b => b.meshlines.map (fun l => l.span_u_line_)))
      = some [[false, true, true], [false, true, true], [false, true, true]] ∧
    propagate tracingExternal reducedPatch reducedPatch.m_basis 0 reducedPatch.heap
      = some (propagatedHeap tracingExternal reducedPatch.Type_ 2 threeLineBasis.meshlines
          reducedPatch.m_basis 0 reducedPatch.heap) :=
  ⟨rfl, rfl, by with_unfolding_all decide, by with_unfolding_all decide,
    (copyRefinement_insertions tracingExternal reducedPatch 2 threeLineBasis rfl rfl).2.2.1
      (by decide)⟩

/-! ### The direction code of an edge and the Neumann order -/

theorem bouPoint_noted {σ : Type} (G : Geometry) (C : Collab σ) (xg wg : List ℚ)
    (d : BouData) (i : Nat) (fe : FiniteElement) (s : Run (σ × List Int)) :
    (bouPoint G C.noting xg wg d i fe s).2.col.2 = s.col.2 := by
  unfold bouPoint
  simp only [Collab.noting]
  split
  · rfl
  · split <;> rfl

theorem bouLoop_noted {σ : Type} (G : Geometry) (C : Collab σ) (xg wg : List ℚ)
    (d : BouData) :
    ∀ (is : List Nat) (fe : FiniteElement) (s : Run (σ × List Int)),
      (bouLoop G C.noting xg wg d is fe s).2.col.2 = s.col.2 := by
  intro is
  induction is with
  | nil => intro fe s; rfl
  | cons i is ih =>
    intro fe s
    simp only [bouLoop]
    split
    · rfl
    · rw [ih, bouPoint_noted]

theorem bouFinish_noted {σ : Type} (G : Geometry) (C : Collab σ) (p : ASMu2Dmx)
    (xg wg : List ℚ) (nGP : Nat) (edgeDir : Int) (iel : Nat) (st st1 : BouState (σ × List Int))
    (sizes : List Nat) (geoEl feIel : Nat) (fe0 : FiniteElement) (dS : ℚ) (mnpc : List Nat)
    (hrun : bouFinish G C.noting p xg wg nGP edgeDir iel st sizes geoEl feIel fe0 dS mnpc
      = some st1) :
    st1.run.col.2 = st.run.col.2 := by
  unfold bouFinish at hrun
  simp only at hrun
  split at hrun
  · cases hrun
  simp only [Option.some.injEq] at hrun
  subst hrun
  have hloop := bouLoop_noted G C xg wg
    { geoEl := geoEl, iel := feIel, a := st.run.nA, edgeDir := edgeDir, dS := dS,
      gpar0 := if (3 : Int) - Int.natAbs edgeDir = 1 then
          G.getGaussPointParameters ((3 : Int) - Int.natAbs edgeDir - 1).toNat nGP geoEl xg
        else st.gpar0,
      gpar1 := if (3 : Int) - Int.natAbs edgeDir = 2 then
          G.getGaussPointParameters ((3 : Int) - Int.natAbs edgeDir - 1).toNat nGP geoEl xg
        else st.gpar1 }
    (List.range nGP) fe0
    { ok := (C.noting.initElementBou (C.noting.getLocalIntegral st.run.col sizes feIel true)
              mnpc sizes p.nb).1,
      col := (C.noting.initElementBou (C.noting.getLocalIntegral st.run.col sizes feIel true)
              mnpc sizes p.nb).2,
      nA := st.run.nA + 1,
      log := st.run.log ++ [Event.getParametricLength iel false,
                       Event.getElementCoordinates iel true,
                       Event.getLocalIntegral st.run.nA iel,
                       Event.initElementBou st.run.nA
                         (C.noting.initElementBou
                           (C.noting.getLocalIntegral st.run.col sizes feIel true)
                           mnpc sizes p.nb).1] }
  have hstart : (C.noting.initElementBou (C.noting.getLocalIntegral st.run.col sizes feIel true)
      mnpc sizes p.nb).2.2 = st.run.col.2 := rfl
  simp only [hstart] at hloop
  revert hloop
  generalize bouLoop G C.noting xg wg
    { geoEl := geoEl, iel := feIel, a := st.run.nA, edgeDir := edgeDir, dS := dS,
      gpar0 := if (3 : Int) - Int.natAbs edgeDir = 1 then
          G.getGaussPointParameters ((3 : Int) - Int.natAbs edgeDir - 1).toNat nGP geoEl xg
        else st.gpar0,
      gpar1 := if (3 : Int) - Int.natAbs edgeDir = 2 then
          G.getGaussPointParameters ((3 : Int) - Int.natAbs edgeDir - 1).toNat nGP geoEl xg
        else st.gpar1 }
    (List.range nGP) fe0
    { ok := (C.noting.initElementBou (C.noting.getLocalIntegral st.run.col sizes feIel true)
              mnpc sizes p.nb).1,
      col := (C.noting.initElementBou (C.noting.getLocalIntegral st.run.col sizes feIel true)
              mnpc sizes p.nb).2,
      nA := st.run.nA + 1,
      log := st.run.log ++ [Event.getParametricLength iel false,
                       Event.getElementCoordinates iel true,
                       Event.getLocalIntegral st.run.nA iel,
                       Event.initElementBou st.run.nA
                         (C.noting.initElementBou
                           (C.noting.getLocalIntegral st.run.col sizes feIel true)
                           mnpc sizes p.nb).1] } = g
  intro hloop
  simp only [Collab.noting]
  split
  · split <;> exact hloop
  · exact hloop

theorem bouElement_noted {σ : Type} (G : Geometry) (C : Collab σ) (p : ASMu2Dmx)
    (xg wg : List ℚ) (nGP : Nat) (edgeDir : Int) (bases : List LRSplineSurface) (el1 : Element)
    (iel : Nat) (st st1 : BouState (σ × List Int))
    (hrun : bouElement G C.noting p xg wg nGP edgeDir bases el1 iel st = some st1) :
    st1.run.col.2 = st.run.col.2 := by
  unfold bouElement at hrun
  simp only at hrun
  split at hrun
  · cases hrun
  split at hrun
  · cases hrun
  split at hrun
  · cases hrun
  split at hrun
  · cases hrun
  split at hrun
  · simp only [Option.some.injEq] at hrun
    subst hrun
    rfl
  split at hrun
  · simp only [Option.some.injEq] at hrun
    subst hrun
    rfl
  split at hrun
  · cases hrun
  exact bouFinish_noted G C p xg wg nGP edgeDir iel st st1 _ _ _ _ _ _ hrun

theorem bouElements_noted {σ : Type} (G : Geometry) (C : Collab σ) (p : ASMu2Dmx)
    (xg wg : List ℚ) (nGP : Nat) (edgeDir : Int) (bases : List LRSplineSurface)
    (gb : LRSplineSurface) :
    ∀ (els : List Element) (iel : Nat) (st r : BouState (σ × List Int)),
      bouElements G C.noting p xg wg nGP edgeDir bases gb els iel st = some r →
      r.run.col.2 = st.run.col.2 := by
  intro els
  induction els with
  | nil =>
    intro iel st r hrun
    simp only [bouElements, Option.some.injEq] at hrun
    subst hrun
    rfl
  | cons el1 rest ih =>
    intro iel st r hrun
    simp only [bouElements] at hrun
    split at hrun
    · exact ih _ st r hrun
    split at hrun
    · exact ih _ st r hrun
    split at hrun
    · cases hrun
    rename_i st1 hst1
    have h1 := bouElement_noted G C p xg wg nGP edgeDir bases el1 iel st st1 hst1
    split at hrun
    · simp only [Option.some.injEq] at hrun
      subst hrun
      exact h1
    · rw [ih _ st1 r hrun, h1]

theorem integrateBou_noted {σ : Type} (G : Geometry) (C : Collab σ) (p : ASMu2Dmx)
    (lIndex : Int) (s0 : σ) (r : Run (σ × List Int))
    (hrun : integrateBou G C.noting p lIndex (s0, []) = some r) :
    (r.col.2 = [1 + Int.tdiv lIndex 10] ∧
      (G.getCoord (C.getBouIntegrationPoints p.nGauss)).isSome = true ∧
      (G.getWeight (C.getBouIntegrationPoints p.nGauss)).isSome = true) ∨
    (r.col.2 = [] ∧ r.ok = false ∧
      ((G.getCoord (C.getBouIntegrationPoints p.nGauss)).isSome = false ∨
       (G.getWeight (C.getBouIntegrationPoints p.nGauss)).isSome = false)) := by
  unfold integrateBou at hrun
  simp only at hrun
  split at hrun
  swap
  · cases hrun
  have hn : C.noting.getBouIntegrationPoints = C.getBouIntegrationPoints := rfl
  rw [hn] at hrun
  cases hc : G.getCoord (C.getBouIntegrationPoints p.nGauss) with
  | none =>
    rw [hc] at hrun
    simp only [Option.some.injEq] at hrun
    subst hrun
    right
    exact ⟨rfl, rfl, Or.inl rfl⟩
  | some xg =>
    cases hw : G.getWeight (C.getBouIntegrationPoints p.nGauss) with
    | none =>
      rw [hc, hw] at hrun
      simp only [Option.some.injEq] at hrun
      subst hrun
      right
      exact ⟨rfl, rfl, Or.inr rfl⟩
    | some wg =>
      rw [hc, hw] at hrun
      simp only at hrun
      left
      refine ⟨?_, rfl, rfl⟩
      split at hrun
      · cases hrun
      split at hrun
      · cases hrun
      split at hrun
      · cases hrun
      split at hrun
      · cases hrun
      simp only [Option.map_eq_some'] at hrun
      obtain ⟨st, hst, rfl⟩ := hrun
      rw [bouElements_noted G C p _ _ _ _ _ _ _ _ _ st hst]
      rfl

theorem edgeDirOf_digit (lIndex : Int) (h0 : 0 ≤ lIndex)
    (hd : lIndex % 10 = 1 ∨ lIndex % 10 = 2 ∨ lIndex % 10 = 3 ∨ lIndex % 10 = 4) :
    edgeDirOf lIndex = directionCode (lIndex % 10) ∧ Int.tdiv lIndex 10 = lIndex / 10 := by
  have h10 : Int.tmod lIndex 10 = lIndex % 10 := Int.tmod_eq_emod h0 (by decide)
  have h2 : Int.tmod lIndex 2 = lIndex % 2 := Int.tmod_eq_emod h0 (by decide)
  have hdiv : Int.tdiv lIndex 10 = lIndex / 10 := Int.tdiv_eq_ediv h0 (by decide)
  refine ⟨?_, hdiv⟩
  unfold edgeDirOf directionCode
  rw [h10, h2]
  rcases hd with h | h | h | h
  · have hp : lIndex % 2 = 1 := by omega
    rw [h, hp]
    decide
  · have hp : lIndex % 2 = 0 := by omega
    rw [h, hp]
    decide
  · have hp : lIndex % 2 = 1 := by omega
    rw [h, hp]
    decide
  · have hp : lIndex % 2 = 0 := by omega
    rw [h, hp]
    decide

/-- C24. For a non-negative boundary index `lIndex` whose last decimal digit is 1,
2, 3 or 4, the direction code computed by boundary integration is `-1`, `+1`,
`-2`, `+2` respectively; its absolute value `t1` and `t2 = 3 - t1` are 1 and 2 in
one of the two orders, and they are the directions with which the Jacobian is
computed for every call of `evalBouMx`; a call of boundary integration that
finds its quadrature tables passes the Neumann order `1 + lIndex/10` to the
integrand, once; and interface integration computes the same four codes for
the edge numbers 1 to 4. -/
theorem integrateBou_direction_code {σ : Type} (G : Geometry) (C : Collab σ) (p : ASMu2Dmx)
    (lIndex : Int) (h0 : 0 ≤ lIndex)
    (hd : lIndex % 10 = 1 ∨ lIndex % 10 = 2 ∨ lIndex % 10 = 3 ∨ lIndex % 10 = 4) :
    edgeDirOf lIndex = directionCode (lIndex % 10) ∧
    (((Int.natAbs (edgeDirOf lIndex) : Int) = 1 ∧
        (3 : Int) - Int.natAbs (edgeDirOf lIndex) = 2) ∨
      ((Int.natAbs (edgeDirOf lIndex) : Int) = 2 ∧
        (3 : Int) - Int.natAbs (edgeDirOf lIndex) = 1)) ∧
    (∀ (s0 : σ) (r : Run (σ × List Int)),
      integrateBou G C.noting p lIndex (s0, []) = some r →
      (G.getCoord (C.getBouIntegrationPoints p.nGauss)).isSome = true →
      (G.getWeight (C.getBouIntegrationPoints p.nGauss)).isSome = true →
      r.col.2 = [1 + lIndex / 10]) ∧
    (∀ (s0 : σ) (r : Run (Traced σ)),
      integrateBou G C.traced p lIndex { col := s0, interior := [], boundary := [] } = some r →
      ∀ rec ∈ r.col.boundary, BoundaryNormal G (directionCode (lIndex % 10)) rec.1 rec.2) ∧
    (∀ iedge : Int, 1 ≤ iedge → iedge ≤ 4 → edgeCode iedge = directionCode iedge) := by
  obtain ⟨hcode, hdiv⟩ := edgeDirOf_digit lIndex h0 hd
  refine ⟨hcode, ?_, ?_, ?_, ?_⟩
  · rw [hcode]
    unfold directionCode
    rcases hd with h | h | h | h <;> rw [h] <;> decide
  · intro s0 r hrun hc hw
    rcases integrateBou_noted G C p lIndex s0 r hrun with ⟨h, _, _⟩ | ⟨_, _, h | h⟩
    · rw [h, hdiv]
    · rw [hc] at h
      cases h
    · rw [hw] at h
      cases h
  · intro s0 r hrun
    rw [← hcode]
    exact integrateBou_normals G C p lIndex s0 r hrun
  · intro iedge h1 h4
    have hcases : iedge = 1 ∨ iedge = 2 ∨ iedge = 3 ∨ iedge = 4 := by omega
    rcases hcases with h | h | h | h <;> rw [h] <;> decide

/-- Witness of C24 on the sample patch with the boundary index 13: the code is `-2`
and the Neumann order handed to the integrand is 2. -/
theorem integrateBou_direction_code_witness :
    edgeDirOf 13 = -2 ∧
    (integrateBou regularGeometry (sampleCollab (fun _ => true) true true).noting
        sampleIntegrationPatch 13 ((), [])).map (fun r => r.col.2) = some [2] ∧
    edgeDirOf 13 = directionCode (13 % 10) ∧
    ∀ iedge : Int, 1 ≤ iedge → iedge ≤ 4 → edgeCode iedge = directionCode iedge :=
  ⟨by decide, by with_unfolding_all decide,
    (integrateBou_direction_code regularGeometry (sampleCollab (fun _ => true) true true)
      sampleIntegrationPatch 13 (by decide) (by decide)).1,
    (integrateBou_direction_code regularGeometry (sampleCollab (fun _ => true) true true)
      sampleIntegrationPatch 13 (by decide) (by decide)).2.2.2.2⟩

/-! ### SIM3D: the face index of a line constraint -/

/-- C30, the code at the failing input. On a model with one 3D patch, the call
with `line = 1` and the face index 7 returns success although it constrains
nothing, and so does every call with `line = 1` and a face index outside 1..6;
the same face indices with `line = 2` return failure. -/
theorem addConstraint_line1_bad_face_succeeds :
    SIM3D.addConstraint { myModel := [true] } 1 7 1 (1 / 2) 123 1 = (true, []) ∧
    SIM3D.addConstraint { myModel := [true] } 1 7 2 (1 / 2) 123 1 = (false, []) ∧
    ∀ (sim : SIM3D) (patch lndx : Int) (xi : ℚ) (dirs : Int) (basis : Nat),
      1 ≤ patch → patch ≤ (sim.myModel.length : Int) →
      sim.myModel.getD (patch - 1).toNat false = true → (lndx < 1 ∨ 6 < lndx) →
      SIM3D.addConstraint sim patch lndx 1 xi dirs basis = (true, []) ∧
      SIM3D.addConstraint sim patch lndx 2 xi dirs basis = (false, []) := by
  refine ⟨by with_unfolding_all decide, by with_unfolding_all decide, ?_⟩
  intro sim patch lndx xi dirs basis h1 h2 h3 h4
  have hp : ¬ (patch < 1 ∨ patch > (sim.myModel.length : Int)) := by omega
  have hf1 : SIM3D.faceLine 1 lndx = none := by
    unfold SIM3D.faceLine
    have e1 : lndx ≠ 1 := by omega
    have e2 : lndx ≠ 2 := by omega
    have e3 : lndx ≠ 3 := by omega
    have e4 : lndx ≠ 4 := by omega
    have e5 : lndx ≠ 5 := by omega
    have e6 : lndx ≠ 6 := by omega
    simp [e1, e2, e3, e4, e5, e6]
  have hf2 : SIM3D.faceLine 2 lndx = none := by
    unfold SIM3D.faceLine
    have e1 : lndx ≠ 1 := by omega
    have e2 : lndx ≠ 2 := by omega
    have e3 : lndx ≠ 3 := by omega
    have e4 : lndx ≠ 4 := by omega
    have e5 : lndx ≠ 5 := by omega
    have e6 : lndx ≠ 6 := by omega
    simp [e1, e2, e3, e4, e5, e6]
  constructor
  · unfold SIM3D.addConstraint
    rw [if_neg hp, if_neg (by rw [h3]; decide), if_pos rfl, hf1]
  · unfold SIM3D.addConstraint
    rw [if_neg hp, if_neg (by rw [h3]; decide), if_neg (by decide), if_pos rfl, hf2]

/-! ### The element counter of boundary integration -/

/-- C26, the code at the failing input. Boundary integration along the edge
`v = 0` (boundary index 3) of the strip of three elements, all on the edge, with
the partition `myElms = {2}` (the third element) and a global integral that is
not thread-safe: the first element is skipped with the counter advanced twice,
so the second element is tested with `iel-1 = 2`, found in the partition and
integrated (its global number 2 reaches `evalBouMx`, and its calls are logged
under the counter 3), and the third element, which is the one in the partition,
is tested with `iel-1 = 3` and skipped. -/
theorem integrateBou_partition_counter_drifts :
    (integrateBou regularGeometry (sampleCollab (fun _ => true) true true).traced
        (stripPatch [2]) 3 { col := (), interior := [], boundary := [] }).map
      (fun r => (r.ok, r.col.boundary.map (fun rec => rec.1.iel), r.log))
      = some (true, [2, 2],
          [Event.getParametricLength 3 false, Event.getElementCoordinates 3 true,
           Event.getLocalIntegral 0 3, Event.initElementBou 0 true,
           Event.evalBouMx 0 0 true, Event.evalBouMx 0 1 true,
           Event.finalizeElementBou 0 true, Event.assemble 0 true, Event.destruct 0]) ∧
    (integrateBou regularGeometry (sampleCollab (fun _ => true) true true).traced
        (stripPatch []) 3 { col := (), interior := [], boundary := [] }).map
      (fun r => (r.ok, r.col.boundary.map (fun rec => rec.1.iel)))
      = some (true, [1, 1, 2, 2, 3, 3]) := by
  constructor <;> with_unfolding_all decide

/-! ### The element loop of interface integration -/

/-- C25, the code at the failing inputs. Interface integration on the strip of
three elements, each with a non-zero status, with a global integral that is not
thread-safe.  With the partition `myElms = {1, 2}` the first element is skipped
with the iterator and the counter advanced twice, so the second element, which
has a contribution and is in the partition, is never examined and only the
third element is integrated.  With the partition `myElms = {0, 1}` the third
element is skipped in the same way, which moves the iterator past the end of
the element list: the run is undefined. -/
theorem integrateInterface_partition_skips_elements :
    (integrateInterface regularGeometry (sampleCollab (fun _ => true) true true)
        allEdgesInterface (stripPatch [1, 2]) ()).map
      (fun r => (r.ok, (subSegments r.log).map (fun sg => sg.iel)))
      = some (true, [3]) ∧
    (integrateInterface regularGeometry (sampleCollab (fun _ => true) true true)
        allEdgesInterface (stripPatch []) ()).map
      (fun r => (r.ok, (subSegments r.log).map (fun sg => sg.iel)))
      = some (true, [1, 2, 3]) ∧
    (integrateInterface regularGeometry (sampleCollab (fun _ => true) true true)
        allEdgesInterface (stripPatch [0, 1]) ()).isNone = true := by
  refine ⟨?_, ?_, ?_⟩ <;> with_unfolding_all decide

/-! ### The parameter arrays of a sub-segment -/

/-- C27, the code at the failing inputs. The parameter arrays of a sub-segment
have `nGauss` entries, while the loop over its points reads them at every
`g < nGP` and their filling reads `xg[i]` for every `i < nGauss` from the table
of the `nGP`-point rule.  On the interface patch (`nGauss = 2`) an integrand
whose `getBouIntegrationPoints(2)` is 3 makes the point loop read entry 2 of
arrays of length 2, and one whose `getBouIntegrationPoints(2)` is 1 makes the
filling read `xg[1]` of a table with one entry: both runs are undefined.  With
`getBouIntegrationPoints(2) = 2` the run is defined. -/
theorem integrateInterface_gpar_out_of_range :
    (integrateInterface tabulatedGeometry
        { sampleCollab (fun _ => true) true true with getBouIntegrationPoints := fun n => n + 1 }
        (sampleInterface [1 / 2, 1]) interfacePatch ()).isNone = true ∧
    (integrateInterface tabulatedGeometry
        { sampleCollab (fun _ => true) true true with getBouIntegrationPoints := fun n => n - 1 }
        (sampleInterface [1 / 2, 1]) interfacePatch ()).isNone = true ∧
    (integrateInterface tabulatedGeometry (sampleCollab (fun _ => true) true true)
        (sampleInterface [1 / 2, 1]) interfacePatch ()).map (fun r => r.ok) = some true ∧
    (∀ (xg : List ℚ) (nGP nGauss iedge : Nat) (u1 v1 u2 v2 : ℚ), nGP < nGauss →
      segmentGpar xg nGP nGauss iedge u1 v1 u2 v2 = none) ∧
    (∀ (xg : List ℚ) (nGP nGauss iedge : Nat) (u1 v1 u2 v2 : ℚ) (gpar : List ℚ × List ℚ),
      segmentGpar xg nGP nGauss iedge u1 v1 u2 v2 = some gpar →
      gpar.1.length = nGauss ∧ gpar.2.length = nGauss) ∧
    (∀ (G : Geometry) (I : InterfaceCollab Unit) (xg wg : List ℚ) (d : SegmentData) (g : Nat)
      (fe : FiniteElement) (s : IRun Unit),
      d.gpar0.length ≤ g → ifacePoint G I xg wg d g fe s = none) := by
  refine ⟨by with_unfolding_all decide, by with_unfolding_all decide,
    by with_unfolding_all decide, ?_, ?_, ?_⟩
  · intro xg nGP nGauss iedge u1 v1 u2 v2 h
    unfold segmentGpar
    rw [if_pos h]
  · intro xg nGP nGauss iedge u1 v1 u2 v2 gpar h
    unfold segmentGpar at h
    split at h
    · cases h
    split at h
    · simp only [Option.some.injEq] at h
      subst h
      simp
    · simp only [Option.some.injEq] at h
      subst h
      simp
  · intro G I xg wg d g fe s h
    unfold ifacePoint
    simp only [List.getElem?_eq_none h]

/-! ### The single group of a thread-safe interior integration -/

/-- C28, the code at the failing inputs. On the `SUBGRID` sample patch the
geometry basis has two elements (`nel = 2`) and the scheduling basis four.  With
a thread-safe global integral the single group is `{0, 1}`; both indices are
taken as elements of the scheduling basis, whose midpoints lie in geometry
element 1, so geometry element 1 is integrated and assembled twice (all eight
calls of `evalIntMx` carry its global number 1) and geometry element 2 never.
On the patch whose scheduling basis has a single element the index 1 of the
group is not an element of the scheduling basis, and the run is undefined. -/
theorem integrate_thread_safe_group_mismatch :
    integrationGroups { sampleCollab (fun _ => true) true true with threadSafe := true }
      subgridPatch = [[0, 1]] ∧
    (locate subgridPatch 1).map (fun l => l.geoEl) = some 1 ∧
    (locate subgridPatch 2).map (fun l => l.geoEl) = some 1 ∧
    (integrate regularGeometry
        ({ sampleCollab (fun _ => true) true true with threadSafe := true }).traced
        subgridPatch { col := (), interior := [], boundary := [] }).map
      (fun r => (r.ok, r.col.interior.map (fun fe => fe.iel)))
      = some (true, [1, 1, 1, 1, 1, 1, 1, 1]) ∧
    integrationGroups { sampleCollab (fun _ => true) true true with threadSafe := true }
      coarseThreadPatch = [[0, 1]] ∧
    (locate coarseThreadPatch 2).isNone = true ∧
    (integrate regularGeometry
        { sampleCollab (fun _ => true) true true with threadSafe := true }
        coarseThreadPatch ()).isNone = true := by
  refine ⟨?_, ?_, ?_, ?_, ?_, ?_, ?_⟩ <;> with_unfolding_all decide

/-! ### The Hessians of the secondary solution -/

/-- C22, the code at the failing inputs. On the sample patch (two bases, the
geometry on basis 2) with second derivatives requested, interior integration
propagates the chain-rule Hessian to basis 1 only, while the evaluation of the
secondary solution at a point propagates it to basis 1 and to the geometry
basis 2 as well, after the coordinate-map Hessian of basis 2.  On the same
patch with the geometry on basis 1 interior integration propagates it to
basis 2, while the evaluation of the secondary solution propagates it to the
geometry basis 1 and computes no Hessian for basis 2. -/
theorem evalSolution_hessian_bases_differ :
    hessianOthers regularGeometry sampleIntegrationPatch sampleElementData 0 0 0 0
        (List.range sampleIntegrationPatch.m_basis.length)
      = [Event.Hessian 0 0 0 0 true] ∧
    (evalSolutionSecondary regularGeometry sampleRecovery sampleIntegrationPatch
        [1 / 2] [1 / 2] true).map (fun r => (r.ok, r.log))
      = some (true, [SEvent.getElementCoordinates 0 true, SEvent.Hessian 0 1 true true,
          SEvent.Hessian 0 0 false true, SEvent.Hessian 0 1 false true,
          SEvent.evalSol 0 true]) ∧
    hessianOthers regularGeometry { sampleIntegrationPatch with geoBasis := 1 }
        sampleElementData 0 0 0 0 (List.range sampleIntegrationPatch.m_basis.length)
      = [Event.Hessian 0 1 0 0 true] ∧
    (evalSolutionSecondary regularGeometry sampleRecovery
        { sampleIntegrationPatch with geoBasis := 1 } [1 / 2] [1 / 2] true).map
      (fun r => (r.ok, r.log))
      = some (true, [SEvent.getElementCoordinates 0 true, SEvent.Hessian 0 0 true true,
          SEvent.Hessian 0 0 false true, SEvent.evalSol 0 true]) := by
  refine ⟨?_, ?_, ?_, ?_⟩ <;> with_unfolding_all decide

/-! ### The colour groups -/

theorem independent_iff (sec : List LRSplineSurface) (e1 e2 : Element) :
    independent sec e1 e2 = true ↔
      (∀ a ∈ e1.support, a ∉ e2.support) ∧
      ∀ s ∈ sec, ∀ a ∈ supportOf s e1.midpoint, a ∉ supportOf s e2.midpoint := by
  simp only [independent, Bool.and_eq_true, decide_eq_true_eq, List.all_eq_true]

theorem independent_symm (sec : List LRSplineSurface) (e1 e2 : Element)
    (h : independent sec e1 e2 = true) : independent sec e2 e1 = true := by
  rw [independent_iff] at h ⊢
  refine ⟨fun a ha hb => h.1 a hb ha, fun s hs a ha hb => h.2 s hs a hb ha⟩

theorem independentIdx_symm (tb : LRSplineSurface) (sec : List LRSplineSurface) (i j : Nat)
    (h : independentIdx tb sec i j = true) : independentIdx tb sec j i = true := by
  unfold independentIdx at h ⊢
  cases hi : tb.elements[i]? with
  | none => cases hj : tb.elements[j]? <;> rfl
  | some e1 =>
    cases hj : tb.elements[j]? with
    | none => rfl
    | some e2 =>
      rw [hi, hj] at h
      exact independent_symm sec e1 e2 h

theorem placeElement_coloured (tb : LRSplineSurface) (sec : List LRSplineSurface) (i : Nat) :
    ∀ gs : List (List Nat), Coloured tb sec gs → Coloured tb sec (placeElement tb sec i gs) := by
  intro gs
  induction gs with
  | nil =>
    intro _ g hg a ha b hb hab
    simp only [placeElement, List.mem_singleton] at hg
    subst hg
    simp only [List.mem_singleton] at ha hb
    omega
  | cons g0 gs ih =>
    intro hcol
    simp only [placeElement]
    split
    · rename_i hall
      rw [List.all_eq_true] at hall
      intro g hg a ha b hb hab
      rcases List.mem_cons.mp hg with hg | hg
      · subst hg
        rcases List.mem_append.mp ha with ha1 | ha1
        · rcases List.mem_append.mp hb with hb1 | hb1
          · exact hcol g0 (List.mem_cons_self _ _) a ha1 b hb1 hab
          · have hbi : b = i := List.mem_singleton.mp hb1
            rw [hbi]
            exact independentIdx_symm tb sec _ _ (hall a ha1)
        · have hai : a = i := List.mem_singleton.mp ha1
          rcases List.mem_append.mp hb with hb1 | hb1
          · rw [hai]
            exact hall b hb1
          · have hbi : b = i := List.mem_singleton.mp hb1
            omega
      · exact hcol g (List.mem_cons_of_mem _ hg) a ha b hb hab
    · intro g hg a ha b hb hab
      rcases List.mem_cons.mp hg with hg | hg
      · subst hg
        exact hcol g (List.mem_cons_self _ _) a ha b hb hab
      · exact ih (fun g' hg' => hcol g' (List.mem_cons_of_mem _ hg')) g hg a ha b hb hab

theorem placeElement_mem (tb : LRSplineSurface) (sec : List LRSplineSurface) (i k : Nat) :
    ∀ gs : List (List Nat),
      (∃ g ∈ placeElement tb sec i gs, k ∈ g) ↔ k = i ∨ ∃ g ∈ gs, k ∈ g := by
  intro gs
  induction gs with
  | nil => simp [placeElement]
  | cons g0 gs ih =>
    simp only [placeElement]
    split
    · simp only [List.mem_cons, exists_eq_or_imp, List.mem_append, List.mem_singleton]
      tauto
    · simp only [List.mem_cons, exists_eq_or_imp]
      rw [ih]
      tauto

theorem foldl_placeElement (tb : LRSplineSurface) (sec : List LRSplineSurface) :
    ∀ (is : List Nat) (gs : List (List Nat)), Coloured tb sec gs →
      Coloured tb sec (is.foldl (fun gs i => placeElement tb sec i gs) gs) ∧
      ∀ k, (∃ g ∈ is.foldl (fun gs i => placeElement tb sec i gs) gs, k ∈ g) ↔
        k ∈ is ∨ ∃ g ∈ gs, k ∈ g := by
  intro is
  induction is with
  | nil => intro gs h; exact ⟨h, fun k => by simp⟩
  | cons i is ih =>
    intro gs h
    simp only [List.foldl_cons]
    obtain ⟨h1, h2⟩ := ih (placeElement tb sec i gs) (placeElement_coloured tb sec i gs h)
    refine ⟨h1, fun k => ?_⟩
    rw [h2, placeElement_mem, List.mem_cons]
    tauto

theorem colourGroups_coloured (tb : LRSplineSurface) (sec : List LRSplineSurface) :
    Coloured tb sec (colourGroups tb sec) ∧
    ∀ k, (∃ g ∈ colourGroups tb sec, k ∈ g) ↔ k < tb.nElements := by
  obtain ⟨h1, h2⟩ := foldl_placeElement tb sec (List.range tb.nElements) []
    (fun g hg => by simp at hg)
  refine ⟨h1, fun k => ?_⟩
  unfold colourGroups
  rw [h2]
  simp

theorem derefPtrs_cons (h : Heap) (o : Option Nat) (os : List (Option Nat))
    (sec : List LRSplineSurface) (hs : derefPtrs h (o :: os) = some sec) :
    ∃ b bs, o.bind (fun a => h[a]?) = some b ∧ derefPtrs h os = some bs ∧ sec = b :: bs := by
  simp only [derefPtrs] at hs
  split at hs
  · rename_i b bs hb hbs
    simp only [Option.some.injEq] at hs
    exact ⟨b, bs, hb, hbs, hs.symm⟩
  · cases hs

theorem secConstraint_bases (p : ASMu2Dmx) (sec : List LRSplineSurface)
    (hs : derefPtrs p.heap (secConstraint p) = some sec) :
    ∀ k ∈ constraintBases p.Type_,
      ∃ s ∈ sec, (getBasis p ((k : Nat) : Int)).bind (fun a => p.heap[a]?) = some s := by
  intro k hk
  cases hT : p.Type_ <;> rw [hT] at hk <;> simp only [constraintBases, List.mem_cons,
    List.mem_singleton, List.not_mem_nil, or_false] at hk
  · subst hk
    simp only [secConstraint, hT, reduceCtorEq, or_false, if_true, if_false, or_true] at hs
    obtain ⟨b, bs, hb, _, rfl⟩ := derefPtrs_cons _ _ _ _ hs
    exact ⟨b, List.mem_cons_self _ _, hb⟩
  · subst hk
    simp only [secConstraint, hT, reduceCtorEq, or_false, if_true, if_false, or_true] at hs
    obtain ⟨b, bs, hb, _, rfl⟩ := derefPtrs_cons _ _ _ _ hs
    exact ⟨b, List.mem_cons_self _ _, hb⟩
  · simp only [secConstraint, hT, reduceCtorEq, or_false, if_true, if_false, or_true] at hs
    obtain ⟨b, bs, hb, hbs, rfl⟩ := derefPtrs_cons _ _ _ _ hs
    obtain ⟨b2, bs2, hb2, _, rfl⟩ := derefPtrs_cons _ _ _ _ hbs
    rcases hk with hk | hk
    · subst hk
      exact ⟨b, List.mem_cons_self _ _, hb⟩
    · subst hk
      exact ⟨b2, List.mem_cons_of_mem _ (List.mem_cons_self _ _), hb2⟩
  · subst hk
    simp only [secConstraint, hT, reduceCtorEq, or_false, if_true, if_false, or_true] at hs
    obtain ⟨b, bs, hb, _, rfl⟩ := derefPtrs_cons _ _ _ _ hs
    exact ⟨b, List.mem_cons_self _ _, hb⟩

/-- C21. The colour groups that `generateThreadGroups` stores cover exactly the
elements of the scheduling basis, and any two distinct elements of one group
have disjoint supports on the scheduling basis and, through the elements that
contain their midpoints, on every secondary constraint basis of the policy:
basis 2 for subgrid and for reduced continuity with raised basis 1, basis 1 for
reduced continuity with raised basis 2, bases 1 and 2 for the
divergence-compatible policy. -/
theorem generateThreadGroups_colouring (p : ASMu2Dmx) (r : ASMu2Dmx × List (List Nat))
    (hrun : generateThreadGroups colouring p = some r) :
    ∃ tb : LRSplineSurface, r.1.threadBasis.bind (fun a => r.1.heap[a]?) = some tb ∧
      (∀ k, (∃ g ∈ r.1.threadGroups, k ∈ g) ↔ k < tb.nElements) ∧
      ∀ g ∈ r.1.threadGroups, ∀ i ∈ g, ∀ j ∈ g, i ≠ j →
        ∀ e1 e2 : Element, tb.elements[i]? = some e1 → tb.elements[j]? = some e2 →
          (∀ f ∈ e1.support, f ∉ e2.support) ∧
          ∀ k ∈ constraintBases p.Type_,
            ∃ s, (getBasis p ((k : Nat) : Int)).bind (fun a => p.heap[a]?) = some s ∧
              ∀ f ∈ supportOf s e1.midpoint, f ∉ supportOf s e2.midpoint := by
  unfold generateThreadGroups at hrun
  split at hrun
  · cases hrun
  rename_i tbp htb
  split at hrun
  swap
  · cases hrun
  rename_i tbb sec pb htbb hsec hpb
  simp only [Option.some.injEq] at hrun
  subst hrun
  obtain ⟨hcol, hmem⟩ := colourGroups_coloured tbb sec
  refine ⟨tbb, htbb, hmem, ?_⟩
  intro g hg i hi j hj hij e1 e2 he1 he2
  have hind := hcol g hg i hi j hj hij
  unfold independentIdx at hind
  rw [he1, he2] at hind
  rw [independent_iff] at hind
  refine ⟨hind.1, ?_⟩
  intro k hk
  obtain ⟨s, hs, hsb⟩ := secConstraint_bases p sec hsec k hk
  exact ⟨s, hsb, hind.2 s hs⟩

/-- Witness of C21 on the strip of three elements whose outer elements share no
function of basis 1 but share function 0 of basis 2: without a secondary
constraint the outer elements are in one group, under reduced continuity with
raised basis 1 every element has a group of its own. -/
theorem generateThreadGroups_colouring_witness :
    (generateThreadGroups colouring (chainPatch MixedType.FULL_CONT_RAISE_BASIS1)).map
      (fun r => r.1.threadGroups) = some [[0, 2], [1]] ∧
    (generateThreadGroups colouring (chainPatch MixedType.REDUCED_CONT_RAISE_BASIS1)).map
      (fun r => r.1.threadGroups) = some [[0], [1], [2]] ∧
    ∃ r, generateThreadGroups colouring (chainPatch MixedType.REDUCED_CONT_RAISE_BASIS1) = some r ∧
      ∃ tb : LRSplineSurface, r.1.threadBasis.bind (fun a => r.1.heap[a]?) = some tb ∧
        (∀ k, (∃ g ∈ r.1.threadGroups, k ∈ g) ↔ k < tb.nElements) ∧
        ∀ g ∈ r.1.threadGroups, ∀ i ∈ g, ∀ j ∈ g, i ≠ j →
          ∀ e1 e2 : Element, tb.elements[i]? = some e1 → tb.elements[j]? = some e2 →
            (∀ f ∈ e1.support, f ∉ e2.support) ∧
            ∀ k ∈ constraintBases (chainPatch MixedType.REDUCED_CONT_RAISE_BASIS1).Type_,
              ∃ s, (getBasis (chainPatch MixedType.REDUCED_CONT_RAISE_BASIS1)
                  ((k : Nat) : Int)).bind
                    (fun a => (chainPatch MixedType.REDUCED_CONT_RAISE_BASIS1).heap[a]?) = some s ∧
                ∀ f ∈ supportOf s e1.midpoint, f ∉ supportOf s e2.midpoint := by
  refine ⟨by with_unfolding_all decide, by with_unfolding_all decide, ?_⟩
  have hmap : (generateThreadGroups colouring
      (chainPatch MixedType.REDUCED_CONT_RAISE_BASIS1)).map (fun r => r.1.threadGroups)
      = some [[0], [1], [2]] := by with_unfolding_all decide
  obtain ⟨r, hr, _⟩ := Option.map_eq_some'.mp hmap
  exact ⟨r, hr, generateThreadGroups_colouring _ r hr⟩

end IFEM
